import Mathlib

/-!
# Trading simulator: ledger and trade execution

A shallow embedding of the trade and portfolio routes of the backend
(`backend/src/routes/trading.js`, `backend/src/routes/portfolio.js`,
`backend/src/db/connection.js`), of the market-data relay
(`backend/src/services/socketService.js`) and of the trade model of the
frontend (`frontend/src/models/trade.js`), and proofs of the properties the
specification states about them.

Numbers are rationals.  The handler of `POST /trade` comes twice: in exact
arithmetic (`postTrade`), and with every JavaScript operation rounded by a
parameter `number` (`postTradeWith`), `binary64` being the rounding of
JavaScript itself and `id` giving back the exact handler.  A table is the list
of its rows in insertion order.  A route handler is a script of awaited calls
(`Prog`), run against a `World` holding the committed tables, the pooled client's open transaction,
the process globals and a log of what was issued.  The relay is a step
function on its module state (`Relay`), one step per Socket.IO event;
`parseFloat` is a parameter of it.
-/

namespace TradingSim

/-! ## Rows and tables -/

abbrev UserId := String
abbrev Symbol := String

/-- Row of `portfolios(user_id, balance)`. -/
structure PortfolioRow where
  user_id : UserId
  balance : ℚ
  deriving DecidableEq, Repr

/-- Row of `positions(user_id, symbol, quantity, avg_price, current_price)`. -/
structure PositionRow where
  user_id : UserId
  symbol : Symbol
  quantity : ℚ
  avg_price : ℚ
  current_price : ℚ
  deriving DecidableEq, Repr

/-- Row of `trades(id, user_id, symbol, side, quantity, price, total)`. -/
structure TradeRow where
  id : Nat
  user_id : UserId
  symbol : Symbol
  side : String
  quantity : ℚ
  price : ℚ
  total : ℚ
  deriving DecidableEq, Repr

/-- The three relational tables. -/
structure Ledger where
  portfolios : List PortfolioRow
  positions : List PositionRow
  trades : List TradeRow
  deriving DecidableEq, Repr

/-- The ledger with no rows. -/
def Ledger.empty : Ledger := ⟨[], [], []⟩

/-- The rows of `portfolios` with `user_id = u`. -/
def Ledger.portfolioRows (L : Ledger) (u : UserId) : List PortfolioRow :=
  L.portfolios.filter (fun r => r.user_id = u)

/-- The rows of `positions` with `user_id = u AND symbol = s`. -/
def Ledger.positionRows (L : Ledger) (u : UserId) (s : Symbol) : List PositionRow :=
  L.positions.filter (fun r => r.user_id = u ∧ r.symbol = s)

/-- The rows of `positions` with `user_id = u`. -/
def Ledger.positionsOf (L : Ledger) (u : UserId) : List PositionRow :=
  L.positions.filter (fun r => r.user_id = u)

/-- The rows of `trades` with `user_id = u`. -/
def Ledger.tradesOf (L : Ledger) (u : UserId) : List TradeRow :=
  L.trades.filter (fun r => r.user_id = u)

/-- The rows of `trades` with `user_id = u` in the order of
`ORDER BY executed_at DESC`.  The column `executed_at` is set by the database
when the row is inserted, as `id` is: a row inserted later has the larger `id`
and the later `executed_at`, so the order is that of descending `id`. -/
def Ledger.newestFirst (L : Ledger) (u : UserId) : List TradeRow :=
  (L.tradesOf u).insertionSort (fun a b => b.id ≤ a.id)

/-! ## SQL statements issued by the routes -/

/-- The statements of `trading.js` and `portfolio.js`, indexed by the type of
`result.rows` (for the single-row `INSERT ... RETURNING *`, of `result.rows[0]`). -/
inductive Sql : Type → Type where
  /-- `BEGIN` -/
  | begin : Sql Unit
  /-- `COMMIT` -/
  | commit : Sql Unit
  /-- `ROLLBACK` -/
  | rollback : Sql Unit
  /-- `SELECT * FROM portfolios WHERE user_id = $1` -/
  | selectPortfolio (userId : UserId) : Sql (List PortfolioRow)
  /-- `INSERT INTO portfolios (user_id, balance) VALUES ($1, $2)` -/
  | insertPortfolio (userId : UserId) (balance : ℚ) : Sql Unit
  /-- `UPDATE portfolios SET balance = balance - $1 WHERE user_id = $2` -/
  | debitBalance (total : ℚ) (userId : UserId) : Sql Unit
  /-- `UPDATE portfolios SET balance = balance + $1 WHERE user_id = $2` -/
  | creditBalance (total : ℚ) (userId : UserId) : Sql Unit
  /-- `UPDATE portfolios SET balance = $1, updated_at = NOW() WHERE user_id = $2` -/
  | setBalance (balance : ℚ) (userId : UserId) : Sql Unit
  /-- `SELECT * FROM positions WHERE user_id = $1 AND symbol = $2` -/
  | selectPosition (userId : UserId) (symbol : Symbol) : Sql (List PositionRow)
  /-- `SELECT * FROM positions WHERE user_id = $1` -/
  | selectPositions (userId : UserId) : Sql (List PositionRow)
  /-- `UPDATE positions SET quantity = $1, avg_price = $2, current_price = $3
  WHERE user_id = $4 AND symbol = $5` -/
  | updatePositionBuy (newQuantity newAvgPrice price : ℚ) (userId : UserId) (symbol : Symbol) :
      Sql Unit
  /-- `INSERT INTO positions (user_id, symbol, quantity, avg_price, current_price)
  VALUES ($1, $2, $3, $4, $5)` -/
  | insertPosition (userId : UserId) (symbol : Symbol) (quantity avgPrice price : ℚ) : Sql Unit
  /-- `DELETE FROM positions WHERE user_id = $1 AND symbol = $2` -/
  | deletePosition (userId : UserId) (symbol : Symbol) : Sql Unit
  /-- `DELETE FROM positions WHERE user_id = $1` -/
  | deletePositions (userId : UserId) : Sql Unit
  /-- `UPDATE positions SET quantity = $1, current_price = $2
  WHERE user_id = $3 AND symbol = $4` -/
  | updatePositionSell (newQuantity price : ℚ) (userId : UserId) (symbol : Symbol) : Sql Unit
  /-- `INSERT INTO trades (user_id, symbol, side, quantity, price, total)
  VALUES ($1, $2, $3, $4, $5, $6) RETURNING *` -/
  | insertTrade (userId : UserId) (symbol : Symbol) (side : String) (quantity price total : ℚ) :
      Sql TradeRow
  /-- `DELETE FROM trades WHERE user_id = $1` -/
  | deleteTrades (userId : UserId) : Sql Unit
  /-- `SELECT * FROM trades WHERE user_id = $1 ORDER BY executed_at DESC
  LIMIT $2 OFFSET $3` -/
  | selectTradesPage (userId : UserId) (limit offset : Nat) : Sql (List TradeRow)

/-- Kind of a statement, as it is recorded in the log. -/
inductive Verb where
  | begin | commit | rollback | select | insert | update | delete
  deriving DecidableEq, Repr

/-- Kind of a statement. -/
def Sql.verb {β : Type} : Sql β → Verb
  | .begin => .begin
  | .commit => .commit
  | .rollback => .rollback
  | .selectPortfolio _ => .select
  | .insertPortfolio _ _ => .insert
  | .debitBalance _ _ => .update
  | .creditBalance _ _ => .update
  | .setBalance _ _ => .update
  | .selectPosition _ _ => .select
  | .selectPositions _ => .select
  | .updatePositionBuy _ _ _ _ _ => .update
  | .insertPosition _ _ _ _ _ => .insert
  | .deletePosition _ _ => .delete
  | .deletePositions _ => .delete
  | .updatePositionSell _ _ _ _ => .update
  | .insertTrade _ _ _ _ _ _ => .insert
  | .deleteTrades _ => .delete
  | .selectTradesPage _ _ _ => .select

/-- The rows a statement returns on the tables `L`; `nextId` is the next value
of the `trades.id` sequence. -/
def Sql.rows {β : Type} : Sql β → Ledger → Nat → β
  | .begin, _, _ => ()
  | .commit, _, _ => ()
  | .rollback, _, _ => ()
  | .selectPortfolio u, L, _ => L.portfolioRows u
  | .insertPortfolio _ _, _, _ => ()
  | .debitBalance _ _, _, _ => ()
  | .creditBalance _ _, _, _ => ()
  | .setBalance _ _, _, _ => ()
  | .selectPosition u s, L, _ => L.positionRows u s
  | .selectPositions u, L, _ => L.positionsOf u
  | .updatePositionBuy _ _ _ _ _, _, _ => ()
  | .insertPosition _ _ _ _ _, _, _ => ()
  | .deletePosition _ _, _, _ => ()
  | .deletePositions _, _, _ => ()
  | .updatePositionSell _ _ _ _, _, _ => ()
  | .insertTrade u s side q p t, _, nextId => ⟨nextId, u, s, side, q, p, t⟩
  | .deleteTrades _, _, _ => ()
  | .selectTradesPage u limit offset, L, _ => ((L.newestFirst u).drop offset).take limit

/-- The change a statement makes to the tables. -/
def Sql.effect {β : Type} : Sql β → Nat → Ledger → Ledger
  | .insertPortfolio u b, _, L => { L with portfolios := L.portfolios ++ [⟨u, b⟩] }
  | .debitBalance t u, _, L =>
      { L with portfolios := L.portfolios.map (fun r =>
          if r.user_id = u then { r with balance := r.balance - t } else r) }
  | .creditBalance t u, _, L =>
      { L with portfolios := L.portfolios.map (fun r =>
          if r.user_id = u then { r with balance := r.balance + t } else r) }
  | .setBalance b u, _, L =>
      { L with portfolios := L.portfolios.map (fun r =>
          if r.user_id = u then { r with balance := b } else r) }
  | .updatePositionBuy nq na p u s, _, L =>
      { L with positions := L.positions.map (fun r =>
          if r.user_id = u ∧ r.symbol = s then
            { r with quantity := nq, avg_price := na, current_price := p }
          else r) }
  | .insertPosition u s q a p, _, L => { L with positions := L.positions ++ [⟨u, s, q, a, p⟩] }
  | .deletePosition u s, _, L =>
      { L with positions := L.positions.filter (fun r => ¬ (r.user_id = u ∧ r.symbol = s)) }
  | .deletePositions u, _, L =>
      { L with positions := L.positions.filter (fun r => ¬ (r.user_id = u)) }
  | .updatePositionSell nq p u s, _, L =>
      { L with positions := L.positions.map (fun r =>
          if r.user_id = u ∧ r.symbol = s then { r with quantity := nq, current_price := p }
          else r) }
  | .insertTrade u s side q p t, nextId, L =>
      { L with trades := L.trades ++ [⟨nextId, u, s, side, q, p, t⟩] }
  | .deleteTrades u, _, L => { L with trades := L.trades.filter (fun r => ¬ (r.user_id = u)) }
  | .begin, _, L => L
  | .commit, _, L => L
  | .rollback, _, L => L
  | .selectPortfolio _, _, L => L
  | .selectPosition _ _, _, L => L
  | .selectPositions _, _, L => L
  | .selectTradesPage _ _ _, _, L => L

/-- Whether the statement draws a value from the `trades.id` sequence. -/
def Sql.drawsId {β : Type} : Sql β → Bool
  | .insertTrade _ _ _ _ _ _ => true
  | .begin => false
  | .commit => false
  | .rollback => false
  | .selectPortfolio _ => false
  | .insertPortfolio _ _ => false
  | .debitBalance _ _ => false
  | .creditBalance _ _ => false
  | .setBalance _ _ => false
  | .selectPosition _ _ => false
  | .selectPositions _ => false
  | .updatePositionBuy _ _ _ _ _ => false
  | .insertPosition _ _ _ _ _ => false
  | .deletePosition _ _ => false
  | .deletePositions _ => false
  | .updatePositionSell _ _ _ _ => false
  | .deleteTrades _ => false
  | .selectTradesPage _ _ _ => false

/-! ## The world a handler runs in -/

/-- An error raised by an awaited call or by the handler itself. -/
inductive Err where
  /-- the storage call with this index failed -/
  | storage (step : Nat)
  /-- a JavaScript `TypeError` (a property read on `undefined`) -/
  | typeError
  /-- the database rejected the statement -/
  | rejected (message : String)
  deriving DecidableEq, Repr

/-- The in-memory store `global.mockPortfolio`. -/
structure MockPortfolio where
  balance : ℚ
  position : ℚ
  trades : List TradeRow
  deriving DecidableEq, Repr

/-- A JavaScript number: a value, or `NaN` (`none`). -/
abbrev JsNumber := Option ℚ

/-- The process globals: `global.mockPortfolio`, `global.currentMarketPrice` (the
price cache, an object keyed by symbol) and the clock read by `Date.now()`. -/
structure Globals where
  mockPortfolio : MockPortfolio
  currentMarketPrice : List (Symbol × JsNumber)
  now : Nat
  deriving DecidableEq, Repr

/-- `global.currentMarketPrice[symbol]`, if the key is set. -/
def Globals.price (g : Globals) (symbol : Symbol) : Option JsNumber :=
  (g.currentMarketPrice.find? (fun e => e.1 = symbol)).map (·.2)

/-- `global.currentMarketPrice[symbol] = value` -/
def Globals.setPrice (g : Globals) (symbol : Symbol) (value : JsNumber) : Globals :=
  { g with
    currentMarketPrice :=
      (symbol, value) :: g.currentMarketPrice.filter (fun e => ¬ (e.1 = symbol)) }

/-- What the log records. -/
inductive Event where
  /-- `pool.connect()` -/
  | connect (ok : Bool)
  /-- `client.query(...)` -/
  | query (verb : Verb) (ok : Bool)
  /-- `client.release()` -/
  | release
  /-- `emitTradeExecuted(userId, trade)` -/
  | tradeExecuted (userId : UserId) (trade : TradeRow)
  deriving DecidableEq, Repr

/-- State of the database, of the pooled client and of the process.

`committed` is what every session observes.  `txn` is the effect of the open
transaction's statements so far, to be replayed over the committed tables:
a statement sees the rows committed before it starts plus the transaction's
own writes (PostgreSQL's default isolation level; the routes set none). -/
structure World where
  committed : Ledger
  txn : Option (Ledger → Ledger)
  nextId : Nat
  clock : Nat
  log : List Event
  globals : Globals

/-- The tables as the client sees them. -/
def World.view (w : World) : Ledger :=
  match w.txn with
  | some f => f w.committed
  | none => w.committed

/-- A successful statement. -/
def World.exec {β : Type} (w : World) (s : Sql β) : World :=
  let w1 : World :=
    { w with
      clock := w.clock + 1
      log := w.log ++ [.query s.verb true]
      nextId := if s.drawsId then w.nextId + 1 else w.nextId }
  match s.verb with
  | .begin => { w1 with txn := some (w.txn.getD id) }
  | .commit => { w1 with committed := w.view, txn := none }
  | .rollback => { w1 with txn := none }
  | _ =>
    match w.txn with
    | some f => { w1 with txn := some (fun L => s.effect w.nextId (f L)) }
    | none => { w1 with committed := s.effect w.nextId w.committed }

/-- The calls a handler makes. -/
inductive Action : Type → Type 1 where
  /-- `await getClient()` -/
  | connect : Action Unit
  /-- `await client.query(text, params)` -/
  | query {β : Type} (s : Sql β) : Action β
  /-- `await query(text, params)`: one statement on the pool, outside any
  transaction -/
  | poolQuery {β : Type} (s : Sql β) : Action β
  /-- `client.release()` -/
  | release : Action Unit
  /-- `emitTradeExecuted(userId, trade)` -/
  | emitTradeExecuted (userId : UserId) (trade : TradeRow) : Action Unit
  /-- a synchronous block reading and writing the process globals -/
  | sync {β : Type} (f : Globals → β × Globals) : Action β

/-- One call.  `fails i` says that the storage call number `i` fails; a failed
statement changes no table. -/
def perform {β : Type} (fails : Nat → Bool) : Action β → World → Except Err β × World
  | .connect, w =>
    if fails w.clock then
      (.error (.storage w.clock), { w with clock := w.clock + 1, log := w.log ++ [.connect false] })
    else
      (.ok (), { w with clock := w.clock + 1, log := w.log ++ [.connect true] })
  | .query s, w =>
    if fails w.clock then
      (.error (.storage w.clock),
        { w with clock := w.clock + 1, log := w.log ++ [.query s.verb false] })
    else
      (.ok (s.rows w.view w.nextId), w.exec s)
  | .poolQuery s, w =>
    if fails w.clock then
      (.error (.storage w.clock),
        { w with clock := w.clock + 1, log := w.log ++ [.query s.verb false] })
    else
      (.ok (s.rows w.committed w.nextId),
        { w with
          committed := s.effect w.nextId w.committed
          clock := w.clock + 1
          log := w.log ++ [.query s.verb true]
          nextId := if s.drawsId then w.nextId + 1 else w.nextId })
  | .release, w => (.ok (), { w with log := w.log ++ [.release] })
  | .emitTradeExecuted u t, w => (.ok (), { w with log := w.log ++ [.tradeExecuted u t] })
  | .sync f, w => (.ok (f w.globals).1, { w with globals := (f w.globals).2 })

/-! ## Handler scripts -/

/-- A handler: it returns, throws, or makes a call and goes on with its outcome. -/
inductive Prog (α : Type) : Type 1 where
  | ret (a : α) : Prog α
  | throw (e : Err) : Prog α
  | act {β : Type} (a : Action β) (k : Except Err β → Prog α) : Prog α

namespace Prog

/-- Sequencing: a thrown error skips the rest. -/
def bind {α β : Type} : Prog α → (α → Prog β) → Prog β
  | ret a, f => f a
  | throw e, _ => throw e
  | act a k, f => act a (fun r => bind (k r) f)

instance : Monad Prog where
  pure := ret
  bind := bind

/-- `await`: the call's value, or its error thrown. -/
def await {β : Type} (a : Action β) : Prog β :=
  act a (fun r =>
    match r with
    | .ok b => ret b
    | .error e => throw e)

/-- `try { m } catch (error) { h error }` -/
def tryCatch {α : Type} : Prog α → (Err → Prog α) → Prog α
  | ret a, _ => ret a
  | throw e, h => h e
  | act a k, h => act a (fun r => tryCatch (k r) h)

/-- `try { m } finally { fin }` -/
def tryFinally {α : Type} : Prog α → Prog Unit → Prog α
  | ret a, fin => bind fin (fun _ => ret a)
  | throw e, fin => bind fin (fun _ => throw e)
  | act a k, fin => act a (fun r => tryFinally (k r) fin)

/-- Run a handler to its end. -/
def run {α : Type} (fails : Nat → Bool) : Prog α → World → Except Err α × World
  | ret a, w => (.ok a, w)
  | throw e, w => (.error e, w)
  | act a k, w => run fails (k (perform fails a w).1) (perform fails a w).2

end Prog

/-! ## `POST /api/trading/trade` -/

/-- What a trade route answers. -/
inductive Response where
  /-- `400 {error: "Invalid input", details}` -/
  | invalidInput
  /-- `400 {error: "Insufficient balance", required, available}` -/
  | insufficientBalance (required available : ℚ)
  /-- `400 {error: "Insufficient shares to sell", requested, available}` -/
  | insufficientShares (requested available : ℚ)
  /-- `201 {message, trade}` -/
  | executed (message : String) (trade : TradeRow)
  /-- `500 {error, message: error.message}` -/
  | failed (error : String) (cause : Err)
  deriving DecidableEq, Repr

/-- The HTTP status of a response. -/
def Response.status : Response → Nat
  | .invalidInput => 400
  | .insufficientBalance _ _ => 400
  | .insufficientShares _ _ => 400
  | .executed _ _ => 201
  | .failed _ _ => 500

/-- The `error` field of a response body, if it has one. -/
def Response.error : Response → Option String
  | .invalidInput => some "Invalid input"
  | .insufficientBalance _ _ => some "Insufficient balance"
  | .insufficientShares _ _ => some "Insufficient shares to sell"
  | .executed _ _ => none
  | .failed e _ => some e

/-- The body of `POST /trade`. -/
structure TradeRequest where
  symbol : String
  side : String
  quantity : ℚ
  price : ℚ
  deriving DecidableEq, Repr

/-- The validation chain of `POST /trade`: `symbol` of 1 to 10 characters
matching `/^[A-Z]+$/`, `side` in `["BUY", "SELL"]`, `quantity >= 0.00000001`,
`price >= 0.01`. -/
def validTrade (req : TradeRequest) : Bool :=
  (decide (1 ≤ req.symbol.length) && decide (req.symbol.length ≤ 10)
      && req.symbol.toList.all Char.isUpper)
    && (decide (req.side = "BUY") || decide (req.side = "SELL"))
    && decide ((1 : ℚ) / 100000000 ≤ req.quantity)
    && decide ((1 : ℚ) / 100 ≤ req.price)

/-- Lines 216-239 of `trading.js`: record the trade, commit, notify, answer. -/
def recordTrade (userId : UserId) (req : TradeRequest) (total : ℚ) (message : String) :
    Prog Response := do
  let trade ← Prog.await (.query (.insertTrade userId req.symbol req.side req.quantity req.price
    total))
  Prog.await (.query .commit)
  Prog.await (.emitTradeExecuted userId trade)
  pure (.executed message trade)

/-- Lines 75-98 of `trading.js`: get or create the user's portfolio. -/
def getOrCreatePortfolio (userId : UserId) : Prog (List PortfolioRow) := do
  let portfolio ← Prog.await (.query (.selectPortfolio userId))
  if portfolio.length = 0 then do
    Prog.await (.query (.insertPortfolio userId 100000))
    Prog.await (.query (.selectPortfolio userId))
  else pure portfolio

/-- Lines 103-158 of `trading.js` (the `BUY` branch), then the trade record, in
exact arithmetic: the sums, the product and the quotient are those of the
rationals.  It is `buyBranchWith id`; `buyBranchWith binary64` is the branch
with the arithmetic of JavaScript numbers. -/
def buyBranch (userId : UserId) (req : TradeRequest) (total currentBalance : ℚ)
    (message : String) : Prog Response :=
  if currentBalance < total then do
    Prog.await (.query .rollback)
    pure (.insufficientBalance total currentBalance)
  else do
    Prog.await (.query (.debitBalance total userId))
    let existingPosition ← Prog.await (.query (.selectPosition userId req.symbol))
    match existingPosition.head? with
    | some current =>
      let newQuantity := current.quantity + req.quantity
      let newAvgPrice := (current.quantity * current.avg_price + total) / newQuantity
      Prog.await (.query (.updatePositionBuy newQuantity newAvgPrice req.price userId
        req.symbol))
      recordTrade userId req total message
    | none =>
      Prog.await (.query (.insertPosition userId req.symbol req.quantity req.price req.price))
      recordTrade userId req total message

/-- Lines 160-214 of `trading.js` (the `SELL` branch), then the trade record, in
exact arithmetic.  It is `sellBranchWith id`; `sellBranchWith binary64` is the
branch with the arithmetic of JavaScript numbers. -/
def sellBranch (userId : UserId) (req : TradeRequest) (total : ℚ) (message : String) :
    Prog Response := do
  let position ← Prog.await (.query (.selectPosition userId req.symbol))
  match position.head? with
  | none =>
    Prog.await (.query .rollback)
    pure (.insufficientShares req.quantity 0)
  | some held =>
    if held.quantity < req.quantity then do
      Prog.await (.query .rollback)
      pure (.insufficientShares req.quantity held.quantity)
    else do
      Prog.await (.query (.creditBalance total userId))
      let newQuantity := held.quantity - req.quantity
      if newQuantity ≤ 0 then do
        Prog.await (.query (.deletePosition userId req.symbol))
        recordTrade userId req total message
      else do
        Prog.await (.query (.updatePositionSell newQuantity req.price userId req.symbol))
        recordTrade userId req total message

/-- Lines 73-239 of `trading.js`: the body of the inner `try`, in exact
arithmetic (`tradeTransactionWith id`). -/
def tradeTransaction (userId : UserId) (req : TradeRequest) (total : ℚ) : Prog Response := do
  Prog.await (.query .begin)
  let portfolio ← getOrCreatePortfolio userId
  match portfolio.head? with
  | none => Prog.throw .typeError
  | some row =>
    let currentBalance := row.balance
    if req.side = "BUY" then buyBranch userId req total currentBalance "Trade executed successfully"
    else if req.side = "SELL" then sellBranch userId req total "Trade executed successfully"
    else recordTrade userId req total "Trade executed successfully"

/-- The handler of `POST /api/trading/trade` for the authenticated `userId`, in
exact arithmetic: `total` is the rational `quantity * price`.  It is
`postTradeWith id`; `postTradeWith binary64` is the handler with the arithmetic
of JavaScript numbers. -/
def postTrade (userId : UserId) (req : TradeRequest) : Prog Response :=
  Prog.tryCatch
    (if validTrade req then do
      let total := req.quantity * req.price
      Prog.await .connect
      Prog.tryFinally
        (Prog.tryCatch (tradeTransaction userId req total)
          (fun error => do
            Prog.await (.query .rollback)
            Prog.throw error))
        (Prog.await .release)
    else pure .invalidInput)
    (fun error => pure (.failed "Trade execution failed" error))

/-- No storage call fails. -/
def noFailure : Nat → Bool := fun _ => false

/-- A world at rest on the tables `L`: no open transaction, empty log. -/
def World.idle (L : Ledger) : World :=
  { committed := L
    txn := none
    nextId := L.trades.length + 1
    clock := 0
    log := []
    globals :=
      { mockPortfolio := { balance := 100000, position := 0, trades := [] }
        currentMarketPrice := []
        now := 0 } }

/-! ## What `postTrade` computes when no storage call fails -/

/-- The tables once the user's portfolio row exists (lines 83-98). -/
def Ledger.withPortfolio (L : Ledger) (u : UserId) : Ledger :=
  if (L.portfolioRows u).length = 0 then (Sql.insertPortfolio u 100000).effect 0 L else L

/-- The answer and the tables after the trade record is inserted and committed,
`V` being the tables as the transaction sees them. -/
def recordOutcome (V : Ledger) (nextId : Nat) (u : UserId) (req : TradeRequest) (total : ℚ)
    (message : String) : Response × Ledger :=
  (.executed message
      ⟨nextId, u, req.symbol, req.side, req.quantity, req.price, total⟩,
    (Sql.insertTrade u req.symbol req.side req.quantity req.price total).effect nextId V)

/-- Outcome of `buyBranch`: `L` are the committed tables, `V` the tables as the
transaction sees them. -/
def buyOutcome (L V : Ledger) (nextId : Nat) (u : UserId) (req : TradeRequest)
    (total currentBalance : ℚ) (message : String) : Response × Ledger :=
  if currentBalance < total then (.insufficientBalance total currentBalance, L)
  else
    let V1 := (Sql.debitBalance total u).effect nextId V
    match (V1.positionRows u req.symbol).head? with
    | some current =>
      recordOutcome
        ((Sql.updatePositionBuy (current.quantity + req.quantity)
          ((current.quantity * current.avg_price + total) / (current.quantity + req.quantity))
          req.price u req.symbol).effect nextId V1) nextId u req total message
    | none =>
      recordOutcome
        ((Sql.insertPosition u req.symbol req.quantity req.price req.price).effect nextId V1)
        nextId u req total message

/-- Outcome of `sellBranch`. -/
def sellOutcome (L V : Ledger) (nextId : Nat) (u : UserId) (req : TradeRequest) (total : ℚ)
    (message : String) : Response × Ledger :=
  match (V.positionRows u req.symbol).head? with
  | none => (.insufficientShares req.quantity 0, L)
  | some held =>
    if held.quantity < req.quantity then (.insufficientShares req.quantity held.quantity, L)
    else
      let V1 := (Sql.creditBalance total u).effect nextId V
      if held.quantity - req.quantity ≤ 0 then
        recordOutcome ((Sql.deletePosition u req.symbol).effect nextId V1) nextId u req total message
      else
        recordOutcome
          ((Sql.updatePositionSell (held.quantity - req.quantity) req.price u
            req.symbol).effect nextId V1) nextId u req total message

/-- The answer of `postTrade` and the committed tables after it, from the
committed tables `L` before it, when no storage call fails
(`postTrade_noFailure` proves that the handler computes this). -/
def tradeOutcome (L : Ledger) (nextId : Nat) (u : UserId) (req : TradeRequest) :
    Response × Ledger :=
  if validTrade req then
    let total := req.quantity * req.price
    let V := L.withPortfolio u
    match (V.portfolioRows u).head? with
    | none => (.failed "Trade execution failed" .typeError, L)
    | some row =>
      if req.side = "BUY" then
        buyOutcome L V nextId u req total row.balance "Trade executed successfully"
      else if req.side = "SELL" then
        sellOutcome L V nextId u req total "Trade executed successfully"
      else recordOutcome V nextId u req total "Trade executed successfully"
  else (.invalidInput, L)

/-- Inside an open transaction: committed tables `L`, the transaction sees `V`. -/
def World.Mid (w : World) (L V : Ledger) (n : Nat) (g : Globals) : Prop :=
  w.committed = L ∧ w.nextId = n ∧ w.globals = g ∧ ∃ f, w.txn = some f ∧ f L = V

/-- At rest on committed tables `L`. -/
def World.Done (w : World) (L : Ledger) (g : Globals) : Prop :=
  w.committed = L ∧ w.globals = g ∧ w.txn = none

/-- Without storage failures `m` returns `a` in a world satisfying `P`. -/
def Yields {α : Type} (m : Prog α) (w : World) (a : α) (P : World → Prop) : Prop :=
  ∃ w1, Prog.run noFailure m w = (.ok a, w1) ∧ P w1

/-! ## Observations on the ledger -/

/-- The user's cash balance: the balance of the portfolio row that the routes
read (`portfolio.rows[0]`), and the starting balance 100000 while the user has
no portfolio row yet. -/
def Ledger.cashBalance (L : Ledger) (u : UserId) : ℚ :=
  match (L.portfolioRows u).head? with
  | some row => row.balance
  | none => 100000

/-- The user's position in a symbol: the row that the routes read
(`position.rows[0]`), if there is one. -/
def Ledger.position? (L : Ledger) (u : UserId) (s : Symbol) : Option PositionRow :=
  (L.positionRows u s).head?

/-- The quantity the user holds of a symbol, 0 without a position row. -/
def Ledger.held (L : Ledger) (u : UserId) (s : Symbol) : ℚ :=
  match L.position? u s with
  | some row => row.quantity
  | none => 0

/-- A sequence of `POST /trade` requests, one after the other, without storage
failures. -/
def runTrades : List (UserId × TradeRequest) → World → World
  | [], w => w
  | (u, req) :: rest, w => runTrades rest (Prog.run noFailure (postTrade u req) w).2

/-! ## `POST /api/trading/buy` and `POST /api/trading/sell` -/

/-- The environment variables the routes read. -/
structure Env where
  NODE_ENV : Option String
  POSTGRES_HOST : Option String
  deriving DecidableEq, Repr

/-- `process.env.NODE_ENV === "development" || !process.env.POSTGRES_HOST`: the
routes answer from `global.mockPortfolio`. -/
def Env.mock (env : Env) : Bool :=
  decide (env.NODE_ENV = some "development") ||
    (match env.POSTGRES_HOST with
      | none => true
      | some host => host.isEmpty)

/-- The body of `POST /buy` and of `POST /sell`. -/
structure OrderRequest where
  symbol : String
  quantity : ℚ
  price : ℚ
  deriving DecidableEq, Repr

/-- The validation chain of `POST /buy` and `POST /sell`: a non-empty `symbol`,
`quantity >= 0.00000001`, `price >= 0.01`. -/
def validOrder (req : OrderRequest) : Bool :=
  decide (1 ≤ req.symbol.length)
    && decide ((1 : ℚ) / 100000000 ≤ req.quantity)
    && decide ((1 : ℚ) / 100 ≤ req.price)

/-- Lines 346-378 of `trading.js`: the mock branch of `POST /buy`. -/
def mockBuy (userId : UserId) (req : OrderRequest) (total : ℚ) (g : Globals) :
    Response × Globals :=
  if g.mockPortfolio.balance < total then
    (.insufficientBalance total g.mockPortfolio.balance, g)
  else
    let trade : TradeRow := ⟨g.now, userId, req.symbol, "BUY", req.quantity, req.price, total⟩
    (.executed "Buy order executed successfully" trade,
      { g with
        mockPortfolio :=
          { balance := g.mockPortfolio.balance - total
            position := g.mockPortfolio.position + req.quantity
            trades := trade :: g.mockPortfolio.trades } })

/-- Lines 544-576 of `trading.js`: the mock branch of `POST /sell`. -/
def mockSell (userId : UserId) (req : OrderRequest) (total : ℚ) (g : Globals) :
    Response × Globals :=
  if g.mockPortfolio.position < req.quantity then
    (.insufficientShares req.quantity g.mockPortfolio.position, g)
  else
    let trade : TradeRow := ⟨g.now, userId, req.symbol, "SELL", req.quantity, req.price, total⟩
    (.executed "Sell order executed successfully" trade,
      { g with
        mockPortfolio :=
          { balance := g.mockPortfolio.balance + total
            position := g.mockPortfolio.position - req.quantity
            trades := trade :: g.mockPortfolio.trades } })

/-- Lines 385-488 of `trading.js`: the body of the inner `try` of `POST /buy`. -/
def buyTransaction (userId : UserId) (req : OrderRequest) (total : ℚ) : Prog Response := do
  Prog.await (.query .begin)
  let portfolio ← getOrCreatePortfolio userId
  match portfolio.head? with
  | none => Prog.throw .typeError
  | some row =>
    buyBranch userId ⟨req.symbol, "BUY", req.quantity, req.price⟩ total row.balance
      "Buy order executed successfully"

/-- Lines 582-656 of `trading.js`: the body of the inner `try` of `POST /sell`. -/
def sellTransaction (userId : UserId) (req : OrderRequest) (total : ℚ) : Prog Response := do
  Prog.await (.query .begin)
  sellBranch userId ⟨req.symbol, "SELL", req.quantity, req.price⟩ total
    "Sell order executed successfully"

/-- The handler of `POST /api/trading/buy`. -/
def postBuy (env : Env) (userId : UserId) (req : OrderRequest) : Prog Response :=
  Prog.tryCatch
    (if validOrder req then
      let total := req.quantity * req.price
      if env.mock then Prog.await (.sync (mockBuy userId req total))
      else do
        Prog.await .connect
        Prog.tryFinally
          (Prog.tryCatch (buyTransaction userId req total)
            (fun error => do
              Prog.await (.query .rollback)
              Prog.throw error))
          (Prog.await .release)
    else pure .invalidInput)
    (fun error => pure (.failed "Buy order failed" error))

/-- The handler of `POST /api/trading/sell`. -/
def postSell (env : Env) (userId : UserId) (req : OrderRequest) : Prog Response :=
  Prog.tryCatch
    (if validOrder req then
      let total := req.quantity * req.price
      if env.mock then Prog.await (.sync (mockSell userId req total))
      else do
        Prog.await .connect
        Prog.tryFinally
          (Prog.tryCatch (sellTransaction userId req total)
            (fun error => do
              Prog.await (.query .rollback)
              Prog.throw error))
          (Prog.await .release)
    else pure .invalidInput)
    (fun error => pure (.failed "Sell order failed" error))

/-- A request to one of the simplified routes. -/
inductive Order where
  | buy (userId : UserId) (req : OrderRequest)
  | sell (userId : UserId) (req : OrderRequest)
  deriving DecidableEq, Repr

/-- The handler that serves the request. -/
def Order.handler (env : Env) : Order → Prog Response
  | .buy u req => postBuy env u req
  | .sell u req => postSell env u req

/-- A sequence of `POST /buy` and `POST /sell` requests, one after the other,
without storage failures. -/
def runOrders (env : Env) : List Order → World → World
  | [], w => w
  | o :: rest, w => runOrders env rest (Prog.run noFailure (o.handler env) w).2

/-- Every user has at most one portfolio row (`portfolios.user_id` is unique). -/
def Ledger.OnePortfolioPerUser (L : Ledger) : Prop :=
  ∀ u, (L.portfolioRows u).length ≤ 1

/-- No portfolio row has a negative balance. -/
def Ledger.BalancesNonneg (L : Ledger) : Prop :=
  ∀ r ∈ L.portfolios, 0 ≤ r.balance

/-! ## Storage failures -/

/-- No storage call with an index after `c0` and before the next one failed. -/
def World.Clean (w : World) (fails : Nat → Bool) (c0 : Nat) : Prop :=
  ∀ i, c0 < i → i < w.clock → fails i = false

/-- Inside the transaction that a request opened in the world `w0`: nothing is
committed yet and no statement has failed. -/
def World.InTxn (w : World) (fails : Nat → Bool) (w0 : World) : Prop :=
  w.committed = w0.committed ∧ w.txn.isSome = true ∧ w0.clock < w.clock ∧
    w.Clean fails w0.clock

/-- A step inside the transaction: it stays inside or raises with nothing
committed. -/
def KeepsPost {α : Type} (fails : Nat → Bool) (w0 : World) : Except Err α × World → Prop
  | (.ok _, w1) => w1.InTxn fails w0
  | (.error _, w1) => w1.committed = w0.committed

/-- The end of the transaction: it returns with no failed statement or raises
with nothing committed. -/
def EndsPost {α : Type} (fails : Nat → Bool) (w0 : World) : Except Err α × World → Prop
  | (.ok _, w1) => w1.Clean fails w0.clock
  | (.error _, w1) => w1.committed = w0.committed

/-- The script is a step inside the transaction. -/
def Keeps {α : Type} (fails : Nat → Bool) (w0 : World) (m : Prog α) : Prop :=
  ∀ w, w.InTxn fails w0 → KeepsPost fails w0 (Prog.run fails m w)

/-- The script ends the transaction. -/
def Ends {α : Type} (fails : Nat → Bool) (w0 : World) (m : Prog α) : Prop :=
  ∀ w, w.InTxn fails w0 → EndsPost fails w0 (Prog.run fails m w)

/-! ## Two requests at once -/

/-- A request in progress: what is left of its handler, and the open
transaction on the client it holds.  Each request has its own client; the
committed tables, the sequences, the clock and the log are shared. -/
structure Session where
  prog : Prog Response
  txn : Option (Ledger → Ledger)

/-- The session makes its next awaited call against the shared world (the
`txn` field of the world is the slot for the calling client's transaction).
A finished handler makes no call. -/
def Session.step (fails : Nat → Bool) (s : Session) (w : World) : Session × World :=
  match s.prog with
  | .act a k =>
    let r := perform fails a { w with txn := s.txn }
    ({ prog := k r.1, txn := r.2.txn }, { r.2 with txn := none })
  | _ => (s, w)

/-- Two sessions run under a schedule: `true` lets the first one make its next
call, `false` the second one. -/
def interleave (fails : Nat → Bool) : List Bool → Session × Session × World →
    Session × Session × World
  | [], st => st
  | true :: rest, (a, b, w) => interleave fails rest ((a.step fails w).1, b, (a.step fails w).2)
  | false :: rest, (a, b, w) => interleave fails rest (a, (b.step fails w).1, (b.step fails w).2)

/-- The answer of a finished handler. -/
def Session.answer (s : Session) : Option Response :=
  match s.prog with
  | .ret r => some r
  | _ => none

/-- The first session reads (`getClient`, `BEGIN`, `SELECT` of the portfolio),
the second request then runs from its first call to `client.release()`, and
the first session makes its remaining calls.  Under this schedule no session
ever waits for a row locked by the other. -/
def readThenWait : List Bool :=
  List.replicate 3 true ++ List.replicate 10 false ++ List.replicate 7 true

/-! ## Net quantity, conservation of cash -/

/-- The quantity a trade record adds to the position: `+quantity` for a BUY,
`-quantity` for a SELL. -/
def TradeRow.signedQuantity (t : TradeRow) : ℚ :=
  if t.side = "BUY" then t.quantity else if t.side = "SELL" then -t.quantity else 0

/-- The sum of the quantities of the user's BUY records for the symbol minus the
sum of the quantities of the SELL records. -/
def Ledger.netQuantity (L : Ledger) (u : UserId) (s : Symbol) : ℚ :=
  ((L.trades.filter (fun t => t.user_id = u ∧ t.symbol = s)).map
    TradeRow.signedQuantity).sum

/-- Every user has at most one position row per symbol (`positions` is unique on
`user_id, symbol`). -/
def Ledger.OnePositionPerKey (L : Ledger) : Prop :=
  ∀ u s, (L.positionRows u s).length ≤ 1

/-- The stored quantities are the net of the executions. -/
def Ledger.QuantitiesAreNet (L : Ledger) : Prop :=
  L.OnePositionPerKey ∧ (∀ r ∈ L.positions, 0 < r.quantity) ∧
    ∀ u s, L.held u s = L.netQuantity u s

/-! ## `GET /api/trading/history` -/

/-- `parseInt(param) || fallback`, the parameter being the result of `parseInt`
(`none` for `NaN`). -/
def orDefault (param : Option Int) (fallback : Int) : Int :=
  match param with
  | none => fallback
  | some n => if n = 0 then fallback else n

/-- `Array.prototype.slice(start, end)` -/
def jsSlice {α : Type} (l : List α) (start stop : Int) : List α :=
  let len : Int := l.length
  let k := if start < 0 then max (len + start) 0 else min start len
  let fin := if stop < 0 then max (len + stop) 0 else min stop len
  (l.drop k.toNat).take (fin - k).toNat

/-- What `GET /history` answers. -/
inductive HistoryResponse where
  /-- `200 {trades, total, limit, offset}` -/
  | page (trades : List TradeRow) (total : Nat) (limit offset : Int)
  /-- `500 {error, message}` -/
  | failed (error : String) (cause : Err)
  deriving DecidableEq, Repr

/-- The handler of `GET /api/trading/history`; `limit` and `offset` are
`parseInt(req.query.limit)` and `parseInt(req.query.offset)`.  The database
rejects a negative `LIMIT` or `OFFSET`. -/
def getHistory (env : Env) (userId : UserId) (limitParam offsetParam : Option Int) :
    Prog HistoryResponse :=
  Prog.tryCatch
    (let limit := orDefault limitParam 50
     let offset := orDefault offsetParam 0
     if env.mock then do
       let mockData ← Prog.await (.sync (fun g => (g.mockPortfolio, g)))
       pure (.page (jsSlice mockData.trades offset (offset + limit)) mockData.trades.length
         limit offset)
     else if limit < 0 ∨ offset < 0 then
       Prog.throw (.rejected "LIMIT and OFFSET must not be negative")
     else do
       let rows ← Prog.await (.poolQuery (.selectTradesPage userId limit.toNat offset.toNat))
       pure (.page rows rows.length limit offset))
    (fun error => pure (.failed "Failed to get trade history" error))

/-! ## `GET /api/portfolio` and `POST /api/portfolio/reset` -/

/-- A timestamp in an answer: the clock at the time of the call
(`new Date().toISOString()`), or the value stored in a column of the user's
portfolio row, which the database sets. -/
inductive Stamp where
  | clock (now : Nat)
  | created_at (userId : UserId)
  | updated_at (userId : UserId)
  deriving DecidableEq, Repr

/-- The body of the portfolio summary. -/
structure Summary where
  balance : ℚ
  totalPositionValue : ℚ
  totalValue : ℚ
  totalPnL : ℚ
  totalUnrealizedPnL : ℚ
  positionsCount : Nat
  createdAt : Stamp
  updatedAt : Stamp
  deriving DecidableEq, Repr

/-- What the portfolio routes answer. -/
inductive PortfolioResponse where
  /-- `200` with the summary -/
  | summary (body : Summary)
  /-- `200 {message, newBalance}` -/
  | reset (message : String) (newBalance : ℚ)
  /-- `500 {error, message}` -/
  | failed (error : String) (cause : Err)
  deriving DecidableEq, Repr

/-- Lines 25-38 of `portfolio.js`: the cached price of `BTCUSDT` when it is set
and truthy (neither `NaN` nor 0), else the price of the most recent mock trade,
else 107000. -/
def getCurrentBTCPrice (g : Globals) : ℚ :=
  let fallback : ℚ :=
    match g.mockPortfolio.trades.head? with
    | some trade => trade.price
    | none => 107000
  match g.price "BTCUSDT" with
  | some (some p) => if p = 0 then fallback else p
  | _ => fallback

/-- Lines 56-70 of `portfolio.js`: the mock branch of the summary. -/
def mockSummary (g : Globals) : Summary :=
  let mockData := g.mockPortfolio
  let positionValue := mockData.position * getCurrentBTCPrice g
  let totalValue := mockData.balance + positionValue
  let totalPnL := totalValue - 100000
  { balance := mockData.balance
    totalPositionValue := positionValue
    totalValue := totalValue
    totalPnL := totalPnL
    totalUnrealizedPnL := totalPnL
    positionsCount := if mockData.position > 0 then 1 else 0
    createdAt := .clock g.now
    updatedAt := .clock g.now }

/-- Lines 106-136 of `portfolio.js`: the summary from the portfolio row and the
position rows.  Every statement of the routes that writes a position row sets
its `current_price`, so `position.current_price || position.avg_price` is
`position.current_price`. -/
def storedSummary (userId : UserId) (portfolioData : PortfolioRow)
    (positions : List PositionRow) : Summary :=
  let totalPositionValue :=
    positions.foldl (fun acc position => acc + position.quantity * position.current_price) 0
  let totalUnrealizedPnL :=
    positions.foldl (fun acc position =>
      acc + position.quantity * (position.current_price - position.avg_price)) 0
  let totalValue := portfolioData.balance + totalPositionValue
  let totalPnL := totalValue - 100000
  { balance := portfolioData.balance
    totalPositionValue := totalPositionValue
    totalValue := totalValue
    totalPnL := totalPnL
    totalUnrealizedPnL := totalUnrealizedPnL
    positionsCount := positions.length
    createdAt := .created_at userId
    updatedAt := .updated_at userId }

/-- The handler of `GET /api/portfolio`. -/
def getPortfolio (env : Env) (userId : UserId) : Prog PortfolioResponse :=
  Prog.tryCatch
    (if env.mock then do
      let g ← Prog.await (.sync (fun g => (g, g)))
      pure (.summary (mockSummary g))
    else do
      let found ← Prog.await (.poolQuery (.selectPortfolio userId))
      let portfolio ←
        if found.length = 0 then do
          Prog.await (.poolQuery (.insertPortfolio userId 100000))
          Prog.await (.poolQuery (.selectPortfolio userId))
        else pure found
      let positions ← Prog.await (.poolQuery (.selectPositions userId))
      match portfolio.head? with
      | none => Prog.throw .typeError
      | some portfolioData => pure (.summary (storedSummary userId portfolioData positions)))
    (fun error => pure (.failed "Failed to get portfolio" error))

/-- Lines 306-341 of `portfolio.js`: the body of the inner `try` of the reset. -/
def resetTransaction (userId : UserId) : Prog PortfolioResponse := do
  Prog.await (.query .begin)
  Prog.await (.query (.deletePositions userId))
  Prog.await (.query (.deleteTrades userId))
  Prog.await (.query (.setBalance 100000 userId))
  Prog.await (.query .commit)
  pure (.reset "Portfolio reset successfully" 100000)

/-- The handler of `POST /api/portfolio/reset`. -/
def postReset (userId : UserId) : Prog PortfolioResponse :=
  Prog.tryCatch
    (do
      Prog.await .connect
      Prog.tryFinally
        (Prog.tryCatch (resetTransaction userId)
          (fun error => do
            Prog.await (.query .rollback)
            Prog.throw error))
        (Prog.await .release))
    (fun error => pure (.failed "Failed to reset portfolio" error))

/-! ## What a user observes -/

/-- The rows of user `v` are the same in both ledgers. -/
def Ledger.SameFor (v : UserId) (L L1 : Ledger) : Prop :=
  L1.portfolioRows v = L.portfolioRows v ∧ L1.positionsOf v = L.positionsOf v ∧
    L1.tradesOf v = L.tradesOf v

/-- The statement is one of those the routes issue for the user `u`: its
`WHERE user_id = ` parameter, or the `user_id` of the row it inserts, is `u`. -/
def Sql.isFor {β : Type} (u : UserId) : Sql β → Prop
  | .begin => True
  | .commit => True
  | .rollback => True
  | .selectPortfolio _ => True
  | .insertPortfolio w _ => w = u
  | .debitBalance _ w => w = u
  | .creditBalance _ w => w = u
  | .setBalance _ w => w = u
  | .selectPosition _ _ => True
  | .selectPositions _ => True
  | .updatePositionBuy _ _ _ w _ => w = u
  | .insertPosition w _ _ _ _ => w = u
  | .deletePosition w _ => w = u
  | .deletePositions w => w = u
  | .updatePositionSell _ _ w _ => w = u
  | .insertTrade w _ _ _ _ _ => w = u
  | .deleteTrades w => w = u
  | .selectTradesPage _ _ _ => True

/-! ## What `postBuy` and `postSell` compute on the database -/

/-- The answer of `postBuy` on the database and the committed tables after it
(`postBuy_noFailure`). -/
def buyOrderOutcome (L : Ledger) (nextId : Nat) (u : UserId) (req : OrderRequest) :
    Response × Ledger :=
  if validOrder req then
    match ((L.withPortfolio u).portfolioRows u).head? with
    | none => (.failed "Buy order failed" .typeError, L)
    | some row =>
      buyOutcome L (L.withPortfolio u) nextId u ⟨req.symbol, "BUY", req.quantity, req.price⟩
        (req.quantity * req.price) row.balance "Buy order executed successfully"
  else (.invalidInput, L)

/-- The answer of `postSell` on the database and the committed tables after it
(`postSell_noFailure`). -/
def sellOrderOutcome (L : Ledger) (nextId : Nat) (u : UserId) (req : OrderRequest) :
    Response × Ledger :=
  if validOrder req then
    sellOutcome L L nextId u ⟨req.symbol, "SELL", req.quantity, req.price⟩
      (req.quantity * req.price) "Sell order executed successfully"
  else (.invalidInput, L)

/-! ## Notifications -/

/-- The `trade-executed` notifications recorded in a log, in order. -/
def emitsOf (log : List Event) : List (UserId × TradeRow) :=
  log.filterMap (fun e =>
    match e with
    | .tradeExecuted u t => some (u, t)
    | _ => none)

/-- The script emits no notification. -/
def Quiet {α : Type} (fails : Nat → Bool) (m : Prog α) : Prop :=
  ∀ w, emitsOf (Prog.run fails m w).2.log = emitsOf w.log

/-- After a script that started with the notifications `E0`: either it answers
`executed` with a trade that is in the committed trade table, the log ending
with the successful `COMMIT` and then the notification of this trade to `u`,
and nothing else was emitted; or it answers otherwise, or raises, and nothing
was emitted. -/
def EmitPost (E0 : List (UserId × TradeRow)) (u : UserId) :
    Except Err Response × World → Prop
  | (.ok resp, w1) =>
    (∃ msg trade t, resp = .executed msg trade ∧
        w1.log = t ++ [.query .commit true, .tradeExecuted u trade] ∧ emitsOf t = E0 ∧
        trade ∈ w1.committed.trades) ∨
      ((∀ msg trade, resp ≠ .executed msg trade) ∧ emitsOf w1.log = E0)
  | (.error _, w1) => emitsOf w1.log = E0

/-- The script notifies only after its `COMMIT`. -/
def Emits (fails : Nat → Bool) (E0 : List (UserId × TradeRow)) (u : UserId)
    (m : Prog Response) : Prop :=
  ∀ w, emitsOf w.log = E0 → EmitPost E0 u (Prog.run fails m w)

/-- Whether the call is the `trade-executed` notification. -/
def Action.isEmit {β : Type} : Action β → Bool
  | .emitTradeExecuted _ _ => true
  | .connect => false
  | .query _ => false
  | .poolQuery _ => false
  | .release => false
  | .sync _ => false

/-- What a trade route leaves, having started with the notifications `E0`:
either it answers `executed` with a trade of the committed trade table, its log
ending with the successful `COMMIT`, the notification of this trade to `u` and
`client.release()`, nothing else being emitted; or nothing was emitted. -/
def Notified (E0 : List (UserId × TradeRow)) (u : UserId) :
    Except Err Response × World → Prop
  | (.ok resp, w1) =>
    (∃ msg trade t, resp = .executed msg trade ∧
        w1.log = t ++ [.query .commit true, .tradeExecuted u trade, .release] ∧
        emitsOf t = E0 ∧ trade ∈ w1.committed.trades) ∨
      emitsOf w1.log = E0
  | (.error _, w1) => emitsOf w1.log = E0

/-! ## What the reset computes -/

/-- The committed tables after a reset of the user `u`: the statements of lines
309-332 of `portfolio.js` in order. -/
def resetOutcome (L : Ledger) (n : Nat) (u : UserId) : Ledger :=
  (Sql.setBalance 100000 u).effect n
    ((Sql.deleteTrades u).effect n ((Sql.deletePositions u).effect n L))

/-- The monetary fields of a summary: all of it but the two timestamps. -/
def Summary.values (s : Summary) : ℚ × ℚ × ℚ × ℚ × ℚ × Nat :=
  (s.balance, s.totalPositionValue, s.totalValue, s.totalPnL, s.totalUnrealizedPnL,
    s.positionsCount)

/-- A later moment: the world with the clock of `Date.now()` at `t`. -/
def World.atTime (w : World) (t : Nat) : World :=
  { w with globals := { w.globals with now := t } }

/-! ## The order of the history -/

/-- Descending `id` is a total order on trade rows. -/
instance newestFirst_total : IsTotal TradeRow (fun a b => b.id ≤ a.id) :=
  ⟨fun a b => Nat.le_total b.id a.id⟩

instance newestFirst_trans : IsTrans TradeRow (fun a b => b.id ≤ a.id) :=
  ⟨fun _ _ _ h1 h2 => Nat.le_trans h2 h1⟩

/-! ## The market-data relay (`socketService.js`) -/

/-- The id Socket.IO gives a client connection. -/
abbrev SocketId := Nat

/-- A Socket.IO room: the room of a socket's own id, which the library puts
every socket in, `market:${symbol}` or `user:${userId}`. -/
inductive Room where
  | own (id : SocketId)
  | market (symbol : Symbol)
  | user (userId : UserId)
  deriving DecidableEq, Repr

/-- A candle as the data server sends it.  A missing `symbol` is `""`: both are
falsy.  The price and volume fields are kept as sent, to be read by
`parseFloat`. -/
structure RawCandle where
  timestamp : Nat
  symbol : Symbol
  interval : String
  open_ : String
  high : String
  low : String
  close : String
  volume : String
  is_closed : Bool
  deriving DecidableEq, Repr

/-- The candle sent to the clients (`formattedCandle`). -/
structure Candle where
  timestamp : Nat
  symbol : Symbol
  interval : String
  open_ : JsNumber
  high : JsNumber
  low : JsNumber
  close : JsNumber
  volume : JsNumber
  is_closed : Bool
  deriving DecidableEq, Repr

/-- An event emitted to a client. -/
inductive Message where
  /-- `"candle"` -/
  | candle (c : Candle)
  /-- `"trade-executed"` -/
  | tradeExecuted (trade : TradeRow)
  deriving DecidableEq, Repr

/-- A connected client socket.  `owner` is the user whose browser opened the
connection; the server never reads it. -/
structure Socket where
  id : SocketId
  owner : UserId
  rooms : List Room
  deriving DecidableEq, Repr

/-- `socket.join(room)` -/
def Socket.join (sk : Socket) (room : Room) : Socket :=
  if room ∈ sk.rooms then sk else { sk with rooms := sk.rooms ++ [room] }

/-- `socket.leave(room)` -/
def Socket.leave (sk : Socket) (room : Room) : Socket :=
  { sk with rooms := sk.rooms.filter (fun r => ¬ (r = room)) }

/-- The module state of `socketService.js` with what it has sent: `io` is set,
the connected client sockets, the set `connectedSymbols` in insertion order,
`marketDataSocket.connected`, the symbols of the `request_historical_data`
emitted upstream, the events emitted to clients, and the process globals. -/
structure Relay where
  io : Bool
  sockets : List Socket
  connectedSymbols : List Symbol
  upstreamConnected : Bool
  requests : List Symbol
  delivered : List (SocketId × Message)
  globals : Globals
  deriving DecidableEq, Repr

/-- The state after `setupSocketHandlers(io)` (lines 21-25), before any event. -/
def Relay.setup (g : Globals) : Relay :=
  ⟨true, [], [], false, [], [], g⟩

/-- A socket with this id is connected. -/
def Relay.connected (r : Relay) (id : SocketId) : Bool :=
  r.sockets.any (fun sk => sk.id = id)

/-- Apply `f` to the socket `id`. -/
def Relay.updateSocket (r : Relay) (id : SocketId) (f : Socket → Socket) : Relay :=
  { r with sockets := r.sockets.map (fun sk => if sk.id = id then f sk else sk) }

/-- `io.to(room).emit(...)`: the message goes to every connected socket in the room. -/
def Relay.emitTo (r : Relay) (room : Room) (m : Message) : Relay :=
  { r with
    delivered :=
      r.delivered ++ (r.sockets.filter (fun sk => room ∈ sk.rooms)).map (fun sk => (sk.id, m)) }

/-- Lines 182-210: `requestHistoricalData(symbol)`; the request is recorded by
its symbol. -/
def requestHistoricalData (symbol : Symbol) (r : Relay) : Relay :=
  if ¬ r.upstreamConnected then r else { r with requests := r.requests ++ [symbol] }

/-- Lines 219-229: `formattedCandle`. -/
def formatCandle (parseFloat : String → JsNumber) (candle : RawCandle) : Candle :=
  { timestamp := candle.timestamp
    symbol := candle.symbol
    interval := candle.interval
    open_ := parseFloat candle.open_
    high := parseFloat candle.high
    low := parseFloat candle.low
    close := parseFloat candle.close
    volume := parseFloat candle.volume
    is_closed := candle.is_closed }

/-- Lines 216-237: `broadcastCandleToClients(candle)`. -/
def broadcastCandleToClients (parseFloat : String → JsNumber) (candle : RawCandle)
    (r : Relay) : Relay :=
  if r.io ∧ candle.symbol ≠ "" then
    let formattedCandle := formatCandle parseFloat candle
    let r1 := { r with globals := r.globals.setPrice candle.symbol formattedCandle.close }
    r1.emitTo (.market candle.symbol) (.candle formattedCandle)
  else r

/-- Lines 260-267: `emitTradeExecuted(userId, trade)`. -/
def emitTradeExecuted (userId : UserId) (trade : TradeRow) (r : Relay) : Relay :=
  if r.io then r.emitTo (.user userId) (.tradeExecuted trade) else r

/-- Lines 41-56: the body of the `forEach` of the `subscribe` handler. -/
def subscribeSymbol (id : SocketId) (r : Relay) (symbol : Symbol) : Relay :=
  let r1 := r.updateSocket id (fun sk => sk.join (.market symbol))
  let r2 :=
    { r1 with
      connectedSymbols :=
        if symbol ∈ r1.connectedSymbols then r1.connectedSymbols
        else r1.connectedSymbols ++ [symbol] }
  if r2.upstreamConnected then requestHistoricalData symbol r2 else r2

/-- Lines 66-73: the body of the `forEach` of the `unsubscribe` handler. -/
def unsubscribeSymbol (id : SocketId) (r : Relay) (symbol : Symbol) : Relay :=
  r.updateSocket id (fun sk => sk.leave (.market symbol))

/-- What reaches the service. -/
inductive SocketEvent where
  /-- a client connects (`io.on("connection")`) -/
  | connection (id : SocketId) (owner : UserId)
  /-- `socket.on("subscribe")` -/
  | subscribe (id : SocketId) (symbols : List Symbol)
  /-- `socket.on("unsubscribe")` -/
  | unsubscribe (id : SocketId) (symbols : List Symbol)
  /-- `socket.on("disconnect")` -/
  | disconnect (id : SocketId)
  /-- `marketDataSocket.on("connect")` -/
  | upstreamConnect
  /-- `marketDataSocket.on("disconnect")` -/
  | upstreamDisconnect
  /-- `marketDataSocket.on("historical_data_response")`; `data` is `none` when
  `data.data` is missing or not an array -/
  | historicalDataResponse (data : Option (List RawCandle))
  /-- `marketDataSocket.on("candle_update")` -/
  | candleUpdate (candle : RawCandle)
  /-- a route calls `emitTradeExecuted` -/
  | tradeExecuted (userId : UserId) (trade : TradeRow)
  deriving DecidableEq, Repr

/-- The handler of one event.  The handlers of a client socket are registered
when it connects, so an event of a socket that is not connected reaches no
handler; on disconnect the library takes the socket out of its rooms; the
client library sets `marketDataSocket.connected` before it fires `connect`. -/
def Relay.step (parseFloat : String → JsNumber) (r : Relay) : SocketEvent → Relay
  | .connection id owner =>
    if r.connected id then r else { r with sockets := r.sockets ++ [⟨id, owner, [.own id]⟩] }
  | .subscribe id symbols =>
    if r.connected id then symbols.foldl (subscribeSymbol id) r else r
  | .unsubscribe id symbols =>
    if r.connected id then symbols.foldl (unsubscribeSymbol id) r else r
  | .disconnect id => { r with sockets := r.sockets.filter (fun sk => ¬ (sk.id = id)) }
  | .upstreamConnect =>
    let r1 := requestHistoricalData "BTCUSDT" { r with upstreamConnected := true }
    r1.connectedSymbols.foldl (fun r2 symbol => requestHistoricalData symbol r2) r1
  | .upstreamDisconnect => { r with upstreamConnected := false }
  | .historicalDataResponse data =>
    match data with
    | none => r
    | some candles => candles.foldl (fun r1 candle => broadcastCandleToClients parseFloat candle r1) r
  | .candleUpdate candle => broadcastCandleToClients parseFloat candle r
  | .tradeExecuted userId trade => emitTradeExecuted userId trade r

/-- The handlers of a sequence of events, in order. -/
def Relay.run (parseFloat : String → JsNumber) (r : Relay) (events : List SocketEvent) : Relay :=
  events.foldl (Relay.step parseFloat) r

/-- No connected socket is in a `user:` room. -/
def Relay.NoUserRoom (r : Relay) : Prop :=
  ∀ sk ∈ r.sockets, ∀ u, Room.user u ∉ sk.rooms

/-! ## Comparing the routes -/

/-- The answer without its wording: the `message` of a `201` and the `error` of
a `500` are dropped. -/
def Response.outcome : Response → Response
  | .invalidInput => .invalidInput
  | .insufficientBalance required available => .insufficientBalance required available
  | .insufficientShares requested available => .insufficientShares requested available
  | .executed _ trade => .executed "" trade
  | .failed _ cause => .failed "" cause

/-- Every position row belongs to a user with a portfolio row. -/
def Ledger.PositionsHavePortfolio (L : Ledger) : Prop :=
  ∀ r ∈ L.positions, ∃ p ∈ L.portfolios, p.user_id = r.user_id

/-- Whether the socket `id` is subscribed to `symbol` after the events, having
been so (`before`) or not at the start: the last `subscribe` or `unsubscribe`
of the socket that lists the symbol decides. -/
def subscribedAfter (id : SocketId) (symbol : Symbol) (before : Bool) :
    List SocketEvent → Bool
  | [] => before
  | .subscribe i symbols :: rest =>
    subscribedAfter id symbol (if i = id ∧ symbol ∈ symbols then true else before) rest
  | .unsubscribe i symbols :: rest =>
    subscribedAfter id symbol (if i = id ∧ symbol ∈ symbols then false else before) rest
  | _ :: rest => subscribedAfter id symbol before rest

/-- The event leaves the set of connected sockets as it is: it is neither a
connection nor a disconnect. -/
def SocketEvent.keepsSockets : SocketEvent → Bool
  | .connection _ _ => false
  | .disconnect _ => false
  | _ => true

/-- The `candle` events that a tick sends from the state `r`: one to each
socket in the room of the symbol, none when the tick is dropped. -/
def broadcastsOf (parseFloat : String → JsNumber) (r : Relay) (candle : RawCandle) :
    List (SocketId × Message) :=
  if r.io ∧ candle.symbol ≠ "" then
    (r.sockets.filter (fun sk => Room.market candle.symbol ∈ sk.rooms)).map
      (fun sk => (sk.id, Message.candle (formatCandle parseFloat candle)))
  else []

/-- The symbols listed by the `subscribe` events that reach a handler: those of
sockets connected at the time. -/
def everSubscribed (parseFloat : String → JsNumber) : Relay → List SocketEvent → List Symbol
  | _, [] => []
  | r, .subscribe id symbols :: rest =>
    (if r.connected id then symbols else []) ++
      everSubscribed parseFloat (r.step parseFloat (.subscribe id symbols)) rest
  | r, e :: rest => everSubscribed parseFloat (r.step parseFloat e) rest

/-! ## `transaction(callback)` (`connection.js`) -/

/-- Lines 105-113 of `connection.js`: the `try` block of `transaction`. -/
def transactionBody {α : Type} (callback : Prog α) : Prog α := do
  Prog.await (.query .begin)
  let result ← callback
  Prog.await (.query .commit)
  pure result

/-- Lines 101-122 of `connection.js`: `transaction(callback)`. -/
def transaction {α : Type} (callback : Prog α) : Prog α := do
  Prog.await .connect
  Prog.tryFinally
    (Prog.tryCatch (transactionBody callback)
      (fun error => do
        Prog.await (.query .rollback)
        Prog.throw error))
    (Prog.await .release)

/-- The world once `getClient()` has returned a client. -/
def World.acquired (w : World) : World :=
  { w with clock := w.clock + 1, log := w.log ++ [.connect true] }

/-- The world once `client.release()` has been called. -/
def World.released (w : World) : World :=
  { w with log := w.log ++ [.release] }

/-- The world after a statement that failed. -/
def World.refused {β : Type} (w : World) (s : Sql β) : World :=
  { w with clock := w.clock + 1, log := w.log ++ [.query s.verb false] }

/-! ## The trade model of the frontend (`models/trade.js`) -/

/-- `const COMMISSION_ASSET = "USDT"` -/
def COMMISSION_ASSET : String := "USDT"

/-- `const COMMISSION_PERCENTAGE = 0.0005` -/
def COMMISSION_PERCENTAGE : ℚ := 5 / 10000

/-- `const SYMBOL = "BTCUSDT"` -/
def SYMBOL : String := "BTCUSDT"

/-- The rest of `s` after the prefix `pattern`, if `s` starts with it. -/
def dropPrefix? : List Char → List Char → Option (List Char)
  | s, [] => some s
  | [], _ :: _ => none
  | c :: s, p :: pattern => if c = p then dropPrefix? s pattern else none

/-- `String.prototype.replace(pattern, replacement)` with a string pattern: the
first occurrence is replaced. -/
def replaceFirst (pattern replacement : List Char) : List Char → List Char
  | [] => if pattern = [] then replacement else []
  | c :: s =>
    match dropPrefix? (c :: s) pattern with
    | some rest => replacement ++ rest
    | none => c :: replaceFirst pattern replacement s

/-- `toUpperCase()` on the characters of an ASCII string. -/
def toUpperCase (s : List Char) : List Char :=
  s.map Char.toUpper

/-- The fields of the constructor argument that `getNetValue` depends on;
`quantity` and `price` are `parseFloat(data.quantity)` and
`parseFloat(data.price)`. -/
structure TradeData where
  symbol : Option String
  side : Option String
  quantity : JsNumber
  price : JsNumber
  deriving DecidableEq, Repr

/-- A `Trade` object, with the fields that `getNetValue` reads. -/
structure Trade where
  symbol : String
  side : String
  quantity : ℚ
  price : ℚ
  commission : ℚ
  commission_asset : String
  deriving DecidableEq, Repr

/-- `value || fallback` for a string. -/
def orString (value : Option String) (fallback : String) : String :=
  match value with
  | some s => if s = "" then fallback else s
  | none => fallback

/-- `parseFloat(x) || 0` -/
def orZero (value : JsNumber) : ℚ :=
  match value with
  | some x => x
  | none => 0

/-- Lines 26-28: `getTotalValue()`. -/
def Trade.getTotalValue (t : Trade) : ℚ :=
  t.quantity * t.price

/-- Lines 11-21: the constructor. -/
def Trade.new (data : TradeData) : Trade :=
  let quantity := orZero data.quantity
  let price := orZero data.price
  { symbol := orString data.symbol SYMBOL
    side := orString data.side "BUY"
    quantity := quantity
    price := price
    commission := COMMISSION_PERCENTAGE * (quantity * price)
    commission_asset := COMMISSION_ASSET }

/-- Lines 35-48: `getNetValue()`. -/
def Trade.getNetValue (t : Trade) : ℚ :=
  if toUpperCase t.commission_asset.toList =
        toUpperCase (replaceFirst "USDT".toList [] t.symbol.toList) ∨
      t.commission_asset = "USD" then
    if t.side = "BUY" then t.getTotalValue + t.commission
    else t.getTotalValue - t.commission
  else t.getTotalValue

/-! ## Cash -/

/-- The sum of the totals of the user's trade records of one side. -/
def Ledger.totalOf (L : Ledger) (u : UserId) (side : String) : ℚ :=
  (((L.tradesOf u).filter (fun t => t.side = side)).map (fun t => t.total)).sum

/-- Every user's cash balance is 100000 less what the user's BUY records
total, plus what the SELL records total. -/
def Ledger.CashConserved (L : Ledger) : Prop :=
  ∀ u, L.cashBalance u = 100000 - L.totalOf u "BUY" + L.totalOf u "SELL"

/-! ## The numbers of JavaScript -/

/-- Round to the nearest integer, a tie to the even one. -/
def roundHalfEven (y : ℚ) : ℤ :=
  let f := ⌊y⌋
  if y - f < 1 / 2 then f
  else if 1 / 2 < y - f then f + 1
  else if f % 2 = 0 then f
  else f + 1

/-- The JavaScript number (IEEE 754 binary64) for the real `x`: `x` rounded to
53 significant bits, to nearest, a tie to the even significand.  It is what
`parseFloat` gives for a decimal and what an arithmetic operation gives for its
exact result.  The exponent range is not modelled (no `Infinity`, no subnormal
numbers): the amounts of the routes are far from it. -/
def binary64 (x : ℚ) : ℚ :=
  if x = 0 then 0
  else
    let e := Int.log 2 |x| - 52
    (roundHalfEven (x / 2 ^ e) : ℚ) * 2 ^ e

/-! ## `POST /trade` with its arithmetic

The handler computes in JavaScript numbers: `quantity * price` (line 63), the
sums, the product and the quotient of lines 131-138, the difference of line
192, and `parseFloat` of the columns it reads.  In the definitions below
`number x` is the JavaScript number for the real `x`; with `number := binary64`
they are the handler as it runs, and with `number := id` they are `buyBranch`,
`sellBranch`, `tradeTransaction` and `postTrade` above, the handler in exact
arithmetic.  What the statements do in the database (`balance - $1`,
`balance + $1`) is arithmetic on the column.  A number bound to a statement
reaches the database as its shortest decimal string: for `quantity` and `price`
that is the decimal the client sent, which the model stores, and for a computed
number it is a decimal that `parseFloat` reads back as that number, and the
model stores the number. -/

/-- Lines 103-158 of `trading.js` (the `BUY` branch), then the trade record;
`total` and `currentBalance` are the numbers of lines 63 and 100. -/
def buyBranchWith (number : ℚ → ℚ) (userId : UserId) (req : TradeRequest)
    (total currentBalance : ℚ) (message : String) : Prog Response :=
  if currentBalance < total then do
    Prog.await (.query .rollback)
    pure (.insufficientBalance total currentBalance)
  else do
    Prog.await (.query (.debitBalance total userId))
    let existingPosition ← Prog.await (.query (.selectPosition userId req.symbol))
    match existingPosition.head? with
    | some current =>
      let newQuantity := number (number current.quantity + number req.quantity)
      let newAvgPrice :=
        number (number (number (number current.quantity * number current.avg_price) + total) /
          newQuantity)
      Prog.await (.query (.updatePositionBuy newQuantity newAvgPrice req.price userId
        req.symbol))
      recordTrade userId req total message
    | none =>
      Prog.await (.query (.insertPosition userId req.symbol req.quantity req.price req.price))
      recordTrade userId req total message

/-- Lines 160-214 of `trading.js` (the `SELL` branch), then the trade record. -/
def sellBranchWith (number : ℚ → ℚ) (userId : UserId) (req : TradeRequest) (total : ℚ)
    (message : String) : Prog Response := do
  let position ← Prog.await (.query (.selectPosition userId req.symbol))
  match position.head? with
  | none =>
    Prog.await (.query .rollback)
    pure (.insufficientShares req.quantity 0)
  | some held =>
    if number held.quantity < number req.quantity then do
      Prog.await (.query .rollback)
      pure (.insufficientShares req.quantity held.quantity)
    else do
      Prog.await (.query (.creditBalance total userId))
      let newQuantity := number (number held.quantity - number req.quantity)
      if newQuantity ≤ 0 then do
        Prog.await (.query (.deletePosition userId req.symbol))
        recordTrade userId req total message
      else do
        Prog.await (.query (.updatePositionSell newQuantity req.price userId req.symbol))
        recordTrade userId req total message

/-- Lines 73-239 of `trading.js`: the body of the inner `try`. -/
def tradeTransactionWith (number : ℚ → ℚ) (userId : UserId) (req : TradeRequest) (total : ℚ) :
    Prog Response := do
  Prog.await (.query .begin)
  let portfolio ← getOrCreatePortfolio userId
  match portfolio.head? with
  | none => Prog.throw .typeError
  | some row =>
    let currentBalance := number row.balance
    if req.side = "BUY" then
      buyBranchWith number userId req total currentBalance "Trade executed successfully"
    else if req.side = "SELL" then
      sellBranchWith number userId req total "Trade executed successfully"
    else recordTrade userId req total "Trade executed successfully"

/-- The handler of `POST /api/trading/trade` for the authenticated `userId`. -/
def postTradeWith (number : ℚ → ℚ) (userId : UserId) (req : TradeRequest) : Prog Response :=
  Prog.tryCatch
    (if validTrade req then do
      let total := number (number req.quantity * number req.price)
      Prog.await .connect
      Prog.tryFinally
        (Prog.tryCatch (tradeTransactionWith number userId req total)
          (fun error => do
            Prog.await (.query .rollback)
            Prog.throw error))
        (Prog.await .release)
    else pure .invalidInput)
    (fun error => pure (.failed "Trade execution failed" error))

/-- A sequence of `POST /trade` requests, one after the other, without storage
failures. -/
def runTradesWith (number : ℚ → ℚ) : List (UserId × TradeRequest) → World → World
  | [], w => w
  | (u, req) :: rest, w =>
    runTradesWith number rest (Prog.run noFailure (postTradeWith number u req) w).2

/-- Outcome of `buyBranchWith`: `L` are the committed tables, `V` the tables as
the transaction sees them. -/
def buyOutcomeWith (number : ℚ → ℚ) (L V : Ledger) (nextId : Nat) (u : UserId)
    (req : TradeRequest) (total currentBalance : ℚ) (message : String) : Response × Ledger :=
  if currentBalance < total then (.insufficientBalance total currentBalance, L)
  else
    let V1 := (Sql.debitBalance total u).effect nextId V
    match (V1.positionRows u req.symbol).head? with
    | some current =>
      recordOutcome
        ((Sql.updatePositionBuy (number (number current.quantity + number req.quantity))
          (number (number (number (number current.quantity * number current.avg_price) + total) /
            number (number current.quantity + number req.quantity)))
          req.price u req.symbol).effect nextId V1) nextId u req total message
    | none =>
      recordOutcome
        ((Sql.insertPosition u req.symbol req.quantity req.price req.price).effect nextId V1)
        nextId u req total message

/-- Outcome of `sellBranchWith`. -/
def sellOutcomeWith (number : ℚ → ℚ) (L V : Ledger) (nextId : Nat) (u : UserId)
    (req : TradeRequest) (total : ℚ) (message : String) : Response × Ledger :=
  match (V.positionRows u req.symbol).head? with
  | none => (.insufficientShares req.quantity 0, L)
  | some held =>
    if number held.quantity < number req.quantity then
      (.insufficientShares req.quantity held.quantity, L)
    else
      let V1 := (Sql.creditBalance total u).effect nextId V
      if number (number held.quantity - number req.quantity) ≤ 0 then
        recordOutcome ((Sql.deletePosition u req.symbol).effect nextId V1) nextId u req total message
      else
        recordOutcome
          ((Sql.updatePositionSell (number (number held.quantity - number req.quantity)) req.price
            u req.symbol).effect nextId V1) nextId u req total message

/-- The answer of `postTradeWith` and the committed tables after it, from the
committed tables `L` before it, when no storage call fails
(`postTradeWith_noFailure`). -/
def tradeOutcomeWith (number : ℚ → ℚ) (L : Ledger) (nextId : Nat) (u : UserId)
    (req : TradeRequest) : Response × Ledger :=
  if validTrade req then
    let total := number (number req.quantity * number req.price)
    let V := L.withPortfolio u
    match (V.portfolioRows u).head? with
    | none => (.failed "Trade execution failed" .typeError, L)
    | some row =>
      if req.side = "BUY" then
        buyOutcomeWith number L V nextId u req total (number row.balance)
          "Trade executed successfully"
      else if req.side = "SELL" then
        sellOutcomeWith number L V nextId u req total "Trade executed successfully"
      else recordOutcome V nextId u req total "Trade executed successfully"
  else (.invalidInput, L)

/-! # Theorems -/

/-! ## The script semantics -/

namespace Prog

@[simp] theorem run_pure {α : Type} (fails : Nat → Bool) (a : α) (w : World) :
    run fails (pure a : Prog α) w = (.ok a, w) := rfl

@[simp] theorem run_throw {α : Type} (fails : Nat → Bool) (e : Err) (w : World) :
    run fails (throw e : Prog α) w = (.error e, w) := rfl

theorem run_bind {α β : Type} (fails : Nat → Bool) (m : Prog α) (f : α → Prog β) (w : World) :
    run fails (m >>= f) w =
      match run fails m w with
      | (.ok a, w1) => run fails (f a) w1
      | (.error e, w1) => (.error e, w1) := by
  show run fails (Prog.bind m f) w = _
  induction m generalizing w with
  | ret a => rfl
  | throw e => rfl
  | act a k ih => simp only [Prog.bind, run]; exact ih _ _

theorem run_await {β : Type} (fails : Nat → Bool) (a : Action β) (w : World) :
    run fails (await a) w = perform fails a w := by
  simp only [await, run]
  rcases perform fails a w with ⟨r, w1⟩
  cases r <;> rfl

theorem run_tryCatch {α : Type} (fails : Nat → Bool) (m : Prog α) (h : Err → Prog α) (w : World) :
    run fails (tryCatch m h) w =
      match run fails m w with
      | (.ok a, w1) => (.ok a, w1)
      | (.error e, w1) => run fails (h e) w1 := by
  induction m generalizing w with
  | ret a => rfl
  | throw e => rfl
  | act a k ih => simp only [tryCatch, run]; exact ih _ _

theorem run_tryFinally {α : Type} (fails : Nat → Bool) (m : Prog α) (fin : Prog Unit) (w : World) :
    run fails (tryFinally m fin) w =
      match run fails fin (run fails m w).2 with
      | (.ok _, w2) => ((run fails m w).1, w2)
      | (.error e, w2) => (.error e, w2) := by
  induction m generalizing w with
  | ret a =>
    simp only [tryFinally, run]
    have := run_bind fails fin (fun _ => ret a) w
    simp only [Bind.bind] at this
    rw [this]; rcases run fails fin w with ⟨r, w2⟩; cases r <;> rfl
  | throw e =>
    simp only [tryFinally, run]
    have := run_bind fails fin (fun _ => (throw e : Prog α)) w
    simp only [Bind.bind] at this
    rw [this]; rcases run fails fin w with ⟨r, w2⟩; cases r <;> rfl
  | act a k ih => simp only [tryFinally, run]; exact ih _ _

end Prog

theorem yields_bind {α β : Type} {m : Prog α} {f : α → Prog β} {w : World} {a : α} {b : β}
    {P Q : World → Prop} (h : Yields m w a P) (hf : ∀ w1, P w1 → Yields (f a) w1 b Q) :
    Yields (m >>= f) w b Q := by
  obtain ⟨w1, h1, hP⟩ := h
  obtain ⟨w2, h2, hQ⟩ := hf w1 hP
  exact ⟨w2, by rw [Prog.run_bind, h1]; exact h2, hQ⟩

theorem yields_pure {α : Type} {w : World} {a : α} {P : World → Prop} (h : P w) :
    Yields (pure a : Prog α) w a P := ⟨w, rfl, h⟩

/-- A data statement inside an open transaction. -/
theorem yields_data {β : Type} (s : Sql β) {w : World} {L V : Ledger} {n : Nat} {g : Globals}
    (h : w.Mid L V n g) (hb : s.verb ≠ .begin) (hc : s.verb ≠ .commit)
    (hr : s.verb ≠ .rollback) (hd : s.drawsId = false) :
    Yields (Prog.await (.query s)) w (s.rows V n) (fun w1 => w1.Mid L (s.effect n V) n g) := by
  obtain ⟨h1, h2, h3, f, h4, h5⟩ := h
  subst h1 h2 h3 h5
  refine ⟨w.exec s, ?_, ?_⟩
  · rw [Prog.run_await]
    simp only [perform, noFailure, Bool.false_eq_true, if_false, World.view, h4]
  · simp only [World.Mid, World.exec, hd, h4]
    cases hv : s.verb <;> simp_all

/-- `ROLLBACK` ends the transaction and leaves the committed tables. -/
theorem yields_rollback {w : World} {L V : Ledger} {n : Nat} {g : Globals}
    (h : w.Mid L V n g) :
    Yields (Prog.await (.query .rollback)) w () (fun w1 => w1.Done L g) := by
  obtain ⟨h1, h2, h3, f, h4, h5⟩ := h
  subst h1 h2 h3 h5
  refine ⟨w.exec .rollback, ?_, ?_⟩
  · rw [Prog.run_await]
    simp only [perform, noFailure, Bool.false_eq_true, if_false, Sql.rows]
  · simp [World.Done, World.exec, Sql.verb]

/-- `BEGIN` on a client at rest. -/
theorem yields_begin {w : World} {L : Ledger} {g : Globals} (h : w.Done L g) :
    Yields (Prog.await (.query .begin)) w () (fun w1 => w1.Mid L L w.nextId g) := by
  obtain ⟨h1, h2, h3⟩ := h
  subst h1 h2
  refine ⟨w.exec .begin, ?_, ?_⟩
  · rw [Prog.run_await]
    simp only [perform, noFailure, Bool.false_eq_true, if_false, Sql.rows]
  · simp [World.Mid, World.exec, Sql.verb, Sql.drawsId, h3]

/-- The trade record inside an open transaction. -/
theorem yields_insertTrade (u : UserId) (s : Symbol) (side : String) (q p t : ℚ)
    {w : World} {L V : Ledger} {n : Nat} {g : Globals} (h : w.Mid L V n g) :
    Yields (Prog.await (.query (.insertTrade u s side q p t))) w ⟨n, u, s, side, q, p, t⟩
      (fun w1 => w1.Mid L ((Sql.insertTrade u s side q p t).effect n V) (n + 1) g) := by
  obtain ⟨h1, h2, h3, f, h4, h5⟩ := h
  subst h1 h2 h3 h5
  refine ⟨w.exec (.insertTrade u s side q p t), ?_, ?_⟩
  · rw [Prog.run_await]
    simp only [perform, noFailure, Bool.false_eq_true, if_false, Sql.rows]
  · simp [World.Mid, World.exec, Sql.verb, Sql.drawsId, h4]

/-- `COMMIT` makes what the transaction sees the committed tables. -/
theorem yields_commit {w : World} {L V : Ledger} {n : Nat} {g : Globals}
    (h : w.Mid L V n g) :
    Yields (Prog.await (.query .commit)) w () (fun w1 => w1.Done V g) := by
  obtain ⟨h1, h2, h3, f, h4, h5⟩ := h
  subst h1 h2 h3 h5
  refine ⟨w.exec .commit, ?_, ?_⟩
  · rw [Prog.run_await]
    simp only [perform, noFailure, Bool.false_eq_true, if_false, Sql.rows]
  · simp [World.Done, World.exec, World.view, Sql.verb, h4]

/-- The notification changes no table. -/
theorem yields_emitTradeExecuted (u : UserId) (trade : TradeRow) {w : World} {L : Ledger}
    {g : Globals} (h : w.Done L g) :
    Yields (Prog.await (.emitTradeExecuted u trade)) w () (fun w1 => w1.Done L g) := by
  refine ⟨_, by rw [Prog.run_await]; rfl, ?_⟩
  exact h

/-- `client.release()` changes no table. -/
theorem yields_release {w : World} {L : Ledger} {g : Globals} (h : w.Done L g) :
    Yields (Prog.await .release) w () (fun w1 => w1.Done L g) := by
  refine ⟨_, by rw [Prog.run_await]; rfl, ?_⟩
  exact h

/-- `getClient()` changes no table. -/
theorem yields_connect {w : World} {L : Ledger} {g : Globals} (h : w.Done L g) :
    Yields (Prog.await .connect) w () (fun w1 => w1.Done L g ∧ w1.nextId = w.nextId) := by
  refine ⟨(perform noFailure .connect w).2, by rw [Prog.run_await]; rfl, ?_⟩
  exact ⟨h, rfl⟩

/-- The trade record, `COMMIT`, the notification and the answer. -/
theorem yields_recordTrade (u : UserId) (req : TradeRequest) (total : ℚ) (msg : String)
    {w : World} {L V : Ledger} {n : Nat} {g : Globals} (h : w.Mid L V n g) :
    Yields (recordTrade u req total msg) w
      (recordOutcome V n u req total msg).1
      (fun w1 => w1.Done (recordOutcome V n u req total msg).2 g) := by
  unfold TradingSim.recordTrade
  refine yields_bind (yields_insertTrade u req.symbol req.side req.quantity req.price total h)
    (fun w1 h1 => ?_)
  refine yields_bind (yields_commit h1) (fun w2 h2 => ?_)
  exact yields_bind (yields_emitTradeExecuted u _ h2) (fun w3 h3 => yields_pure h3)

/-- Lines 75-98 without storage failures. -/
theorem yields_getOrCreatePortfolio (u : UserId) {w : World} {L V : Ledger} {n : Nat}
    {g : Globals} (h : w.Mid L V n g) :
    Yields (getOrCreatePortfolio u) w ((V.withPortfolio u).portfolioRows u)
      (fun w1 => w1.Mid L (V.withPortfolio u) n g) := by
  unfold TradingSim.getOrCreatePortfolio
  refine yields_bind (yields_data (.selectPortfolio u) h (by simp [Sql.verb]) (by simp [Sql.verb])
    (by simp [Sql.verb]) rfl) (fun w1 h1 => ?_)
  simp only [Sql.rows, Sql.effect] at h1 ⊢
  unfold Ledger.withPortfolio
  split
  · refine yields_bind (yields_data (.insertPortfolio u 100000) h1 (by simp [Sql.verb])
      (by simp [Sql.verb]) (by simp [Sql.verb]) rfl) (fun w2 h2 => ?_)
    have := yields_data (.selectPortfolio u) h2 (by simp [Sql.verb]) (by simp [Sql.verb])
      (by simp [Sql.verb]) rfl
    simpa only [Sql.rows, Sql.effect] using this
  · exact yields_pure h1

theorem yields_buyBranch (u : UserId) (req : TradeRequest) (total bal : ℚ) (msg : String)
    {w : World} {L V : Ledger} {n : Nat} {g : Globals} (h : w.Mid L V n g) :
    Yields (buyBranch u req total bal msg) w (buyOutcome L V n u req total bal msg).1
      (fun w1 => w1.Done (buyOutcome L V n u req total bal msg).2 g) := by
  unfold TradingSim.buyBranch buyOutcome
  split
  · exact yields_bind (yields_rollback h) (fun w1 h1 => yields_pure h1)
  · refine yields_bind (yields_data (.debitBalance total u) h (by simp [Sql.verb])
      (by simp [Sql.verb]) (by simp [Sql.verb]) rfl) (fun w1 h1 => ?_)
    refine yields_bind (yields_data (.selectPosition u req.symbol) h1 (by simp [Sql.verb])
      (by simp [Sql.verb]) (by simp [Sql.verb]) rfl) (fun w2 h2 => ?_)
    simp only [Sql.rows] at h2 ⊢
    have h2' : w2.Mid L ((Sql.debitBalance total u).effect n V) n g := h2
    cases hp : (((Sql.debitBalance total u).effect n V).positionRows u req.symbol).head? with
    | none =>
      exact yields_bind (yields_data (.insertPosition u req.symbol req.quantity req.price req.price)
        h2' (by simp [Sql.verb]) (by simp [Sql.verb]) (by simp [Sql.verb]) rfl)
        (fun w3 h3 => yields_recordTrade u req total msg h3)
    | some current =>
      exact yields_bind (yields_data (.updatePositionBuy _ _ req.price u req.symbol)
        h2' (by simp [Sql.verb]) (by simp [Sql.verb]) (by simp [Sql.verb]) rfl)
        (fun w3 h3 => yields_recordTrade u req total msg h3)

theorem yields_sellBranch (u : UserId) (req : TradeRequest) (total : ℚ) (msg : String)
    {w : World} {L V : Ledger} {n : Nat} {g : Globals} (h : w.Mid L V n g) :
    Yields (sellBranch u req total msg) w (sellOutcome L V n u req total msg).1
      (fun w1 => w1.Done (sellOutcome L V n u req total msg).2 g) := by
  unfold TradingSim.sellBranch sellOutcome
  refine yields_bind (yields_data (.selectPosition u req.symbol) h (by simp [Sql.verb])
    (by simp [Sql.verb]) (by simp [Sql.verb]) rfl) (fun w1 h1 => ?_)
  simp only [Sql.rows] at h1 ⊢
  have h1' : w1.Mid L V n g := h1
  cases hp : (V.positionRows u req.symbol).head? with
  | none => exact yields_bind (yields_rollback h1') (fun w2 h2 => yields_pure h2)
  | some held =>
    by_cases hq : held.quantity < req.quantity
    · simp only [if_pos hq]
      exact yields_bind (yields_rollback h1') (fun w2 h2 => yields_pure h2)
    · simp only [if_neg hq]
      refine yields_bind (yields_data (.creditBalance total u) h1' (by simp [Sql.verb])
        (by simp [Sql.verb]) (by simp [Sql.verb]) rfl) (fun w2 h2 => ?_)
      by_cases hz : held.quantity - req.quantity ≤ 0
      · simp only [if_pos hz]
        exact yields_bind (yields_data (.deletePosition u req.symbol) h2 (by simp [Sql.verb])
          (by simp [Sql.verb]) (by simp [Sql.verb]) rfl)
          (fun w3 h3 => yields_recordTrade u req total msg h3)
      · simp only [if_neg hz]
        exact yields_bind (yields_data (.updatePositionSell _ req.price u req.symbol) h2
          (by simp [Sql.verb]) (by simp [Sql.verb]) (by simp [Sql.verb]) rfl)
          (fun w3 h3 => yields_recordTrade u req total msg h3)

theorem yields_tradeTransaction (u : UserId) (req : TradeRequest)
    {w : World} {L : Ledger} {g : Globals} (h : w.Done L g)
    (hv : validTrade req = true)
    (hrow : ((L.withPortfolio u).portfolioRows u).head? ≠ none) :
    Yields (tradeTransaction u req (req.quantity * req.price)) w
      (tradeOutcome L w.nextId u req).1
      (fun w1 => w1.Done (tradeOutcome L w.nextId u req).2 g) := by
  unfold TradingSim.tradeTransaction tradeOutcome
  simp only [hv, if_true]
  refine yields_bind (yields_begin h) (fun w1 h1 => ?_)
  refine yields_bind (yields_getOrCreatePortfolio u h1) (fun w2 h2 => ?_)
  cases hp : ((L.withPortfolio u).portfolioRows u).head? with
  | none => exact absurd hp hrow
  | some row =>
    simp only [hp]
    by_cases hb : req.side = "BUY"
    · simp only [if_pos hb]
      exact yields_buyBranch u req _ _ _ h2
    · simp only [if_neg hb]
      by_cases hs : req.side = "SELL"
      · simp only [if_pos hs]
        exact yields_sellBranch u req _ _ h2
      · simp only [if_neg hs]
        exact yields_recordTrade u req _ _ h2

theorem yields_tryCatch {α : Type} {m : Prog α} {h : Err → Prog α} {w : World} {a : α}
    {P : World → Prop} (hm : Yields m w a P) : Yields (Prog.tryCatch m h) w a P := by
  obtain ⟨w1, h1, hP⟩ := hm
  exact ⟨w1, by rw [Prog.run_tryCatch, h1], hP⟩

theorem yields_tryFinally {α : Type} {m : Prog α} {fin : Prog Unit} {w : World} {a : α}
    {P Q : World → Prop} (hm : Yields m w a P) (hf : ∀ w1, P w1 → Yields fin w1 () Q) :
    Yields (Prog.tryFinally m fin) w a Q := by
  obtain ⟨w1, h1, hP⟩ := hm
  obtain ⟨w2, h2, hQ⟩ := hf w1 hP
  exact ⟨w2, by rw [Prog.run_tryFinally, h1]; simp only [h2], hQ⟩

/-- After lines 75-98 the user has a portfolio row. -/
theorem withPortfolio_head (L : Ledger) (u : UserId) :
    ((L.withPortfolio u).portfolioRows u).head? ≠ none := by
  unfold Ledger.withPortfolio
  split
  · simp [Sql.effect, Ledger.portfolioRows, List.filter_append]
  · rename_i h
    intro h0
    apply h
    cases hl : L.portfolioRows u with
    | nil => rfl
    | cons a l => rw [hl] at h0; simp at h0

/-- Without storage failures the handler of `POST /trade` answers and commits
what `tradeOutcome` says, and leaves the client with no open transaction. -/
theorem postTrade_noFailure (u : UserId) (req : TradeRequest) (w : World) (h : w.txn = none) :
    Yields (postTrade u req) w (tradeOutcome w.committed w.nextId u req).1
      (fun w1 => w1.Done (tradeOutcome w.committed w.nextId u req).2 w.globals) := by
  have hd : w.Done w.committed w.globals := ⟨rfl, rfl, h⟩
  unfold postTrade
  apply yields_tryCatch
  by_cases hv : validTrade req = true
  · simp only [if_pos hv]
    refine yields_bind (yields_connect hd) (fun w1 h1 => ?_)
    refine yields_tryFinally (yields_tryCatch ?_) (fun w2 h2 => yields_release h2)
    have := yields_tradeTransaction u req h1.1 hv (withPortfolio_head _ u)
    rw [h1.2] at this
    exact this
  · simp only [if_neg hv]
    have : tradeOutcome w.committed w.nextId u req = (.invalidInput, w.committed) := by
      simp only [tradeOutcome, if_neg hv]
    rw [this]
    exact yields_pure hd

/-! ## Rejections -/

/-- After lines 75-98 the row read as `portfolio.rows[0]` carries the user's
cash balance. -/
theorem withPortfolio_head_balance (L : Ledger) (u : UserId) :
    ∃ row, ((L.withPortfolio u).portfolioRows u).head? = some row ∧
      row.balance = L.cashBalance u := by
  unfold Ledger.withPortfolio Ledger.cashBalance
  cases hl : L.portfolioRows u with
  | nil =>
    refine ⟨⟨u, 100000⟩, ?_, rfl⟩
    unfold Ledger.portfolioRows at hl
    simp [Sql.effect, Ledger.portfolioRows, List.filter_append, hl]
  | cons a l => exact ⟨a, by simp [hl], rfl⟩

/-- The position rows are those of the committed tables once the portfolio
row exists. -/
theorem withPortfolio_positions (L : Ledger) (u : UserId) :
    (L.withPortfolio u).positions = L.positions := by
  unfold Ledger.withPortfolio
  split <;> rfl

/-- The outcome of a valid BUY that the balance does not cover. -/
theorem tradeOutcome_buy_reject (L : Ledger) (n : Nat) (u : UserId) (req : TradeRequest)
    (hv : validTrade req = true) (hs : req.side = "BUY")
    (hlt : L.cashBalance u < req.quantity * req.price) :
    tradeOutcome L n u req =
      (.insufficientBalance (req.quantity * req.price) (L.cashBalance u), L) := by
  obtain ⟨row, hrow, hbal⟩ := withPortfolio_head_balance L u
  simp only [tradeOutcome, hv, if_true, hrow, hs, buyOutcome, hbal, if_pos hlt]

/-- C2. A valid BUY whose total exceeds the user's cash balance is answered
`Insufficient balance` with the total and the balance, and the tables
(portfolios, positions, trades) are left as they were. -/
theorem C2_buy_over_balance_rejected (w : World) (u : UserId) (req : TradeRequest)
    (hw : w.txn = none) (hv : validTrade req = true) (hs : req.side = "BUY")
    (hlt : w.committed.cashBalance u < req.quantity * req.price) :
    (Prog.run noFailure (postTrade u req) w).1 =
        .ok (.insufficientBalance (req.quantity * req.price) (w.committed.cashBalance u)) ∧
      (Response.insufficientBalance (req.quantity * req.price)
          (w.committed.cashBalance u)).error = some "Insufficient balance" ∧
      (Prog.run noFailure (postTrade u req) w).2.committed = w.committed := by
  obtain ⟨w1, h1, hd, -, -⟩ := postTrade_noFailure u req w hw
  rw [h1, hd, tradeOutcome_buy_reject w.committed w.nextId u req hv hs hlt]
  exact ⟨rfl, rfl, rfl⟩

theorem C2_buy_over_balance_rejected_witness :
    (Prog.run noFailure (postTrade "alice" ⟨"BTCUSDT", "BUY", 2, 100000⟩)
        (World.idle Ledger.empty)).1 = .ok (.insufficientBalance (2 * 100000) (Ledger.empty.cashBalance "alice")) ∧
      (Prog.run noFailure (postTrade "alice" ⟨"BTCUSDT", "BUY", 2, 100000⟩)
        (World.idle Ledger.empty)).2.committed = Ledger.empty :=
  have h := C2_buy_over_balance_rejected (World.idle Ledger.empty) "alice"
    ⟨"BTCUSDT", "BUY", 2, 100000⟩ rfl (by norm_num [validTrade]; decide) rfl
    (by norm_num [Ledger.cashBalance, Ledger.portfolioRows, Ledger.empty, World.idle])
  ⟨h.1, h.2.2⟩

/-- The rows read as the position are those of the committed tables once the
portfolio row exists. -/
theorem withPortfolio_positionRows (L : Ledger) (u v : UserId) (s : Symbol) :
    (L.withPortfolio u).positionRows v s = L.positionRows v s := by
  unfold Ledger.positionRows
  rw [withPortfolio_positions]

/-- The outcome of a valid SELL that the position does not cover. -/
theorem tradeOutcome_sell_reject (L : Ledger) (n : Nat) (u : UserId) (req : TradeRequest)
    (hv : validTrade req = true) (hs : req.side = "SELL")
    (hq : L.position? u req.symbol = none ∨ L.held u req.symbol < req.quantity) :
    tradeOutcome L n u req = (.insufficientShares req.quantity (L.held u req.symbol), L) := by
  obtain ⟨row, hrow, -⟩ := withPortfolio_head_balance L u
  have hb : ¬ req.side = "BUY" := by rw [hs]; decide
  simp only [tradeOutcome, hv, if_true, hrow, if_neg hb, hs, sellOutcome,
    withPortfolio_positionRows]
  unfold Ledger.held Ledger.position? at *
  cases hp : (L.positionRows u req.symbol).head? with
  | none => rfl
  | some held =>
    rw [hp] at hq
    simp only [reduceCtorEq, false_or] at hq
    simp only [if_pos hq]
    rfl

/-- C3. A valid SELL of a symbol the user has no position in, or holds less of
than requested, is answered `Insufficient shares to sell` with the requested
and the held quantity (0 without a position), and the tables are left as they
were. -/
theorem C3_sell_over_holdings_rejected (w : World) (u : UserId) (req : TradeRequest)
    (hw : w.txn = none) (hv : validTrade req = true) (hs : req.side = "SELL")
    (hq : w.committed.position? u req.symbol = none ∨
      w.committed.held u req.symbol < req.quantity) :
    (Prog.run noFailure (postTrade u req) w).1 =
        .ok (.insufficientShares req.quantity (w.committed.held u req.symbol)) ∧
      (Response.insufficientShares req.quantity (w.committed.held u req.symbol)).error =
        some "Insufficient shares to sell" ∧
      (Prog.run noFailure (postTrade u req) w).2.committed = w.committed := by
  obtain ⟨w1, h1, hd, -, -⟩ := postTrade_noFailure u req w hw
  rw [h1, hd, tradeOutcome_sell_reject w.committed w.nextId u req hv hs hq]
  exact ⟨rfl, rfl, rfl⟩

theorem C3_sell_over_holdings_rejected_witness :
    (Prog.run noFailure (postTrade "alice" ⟨"BTCUSDT", "SELL", 1, 110000⟩)
        (World.idle ⟨[⟨"alice", 50000⟩], [⟨"alice", "BTCUSDT", 1 / 2, 100000, 100000⟩], []⟩)).1 =
      .ok (.insufficientShares 1 (1 / 2)) :=
  have h := C3_sell_over_holdings_rejected
    (World.idle ⟨[⟨"alice", 50000⟩], [⟨"alice", "BTCUSDT", 1 / 2, 100000, 100000⟩], []⟩) "alice"
    ⟨"BTCUSDT", "SELL", 1, 110000⟩ rfl (by norm_num [validTrade]; decide) rfl
    (Or.inr (by norm_num [Ledger.held, Ledger.position?, Ledger.positionRows, World.idle]))
  by
    have h1 := h.1
    norm_num [Ledger.held, Ledger.position?, Ledger.positionRows, World.idle] at h1
    exact h1

/-! ## Invariants along sequences of requests -/

/-- A property of the committed tables that every request preserves holds
after every sequence of requests. -/
theorem runTrades_invariant (I : Ledger → Prop)
    (hI : ∀ L n u req, I L → I (tradeOutcome L n u req).2)
    (reqs : List (UserId × TradeRequest)) (w : World) (hw : w.txn = none)
    (h0 : I w.committed) :
    (runTrades reqs w).txn = none ∧ I (runTrades reqs w).committed := by
  induction reqs generalizing w with
  | nil => exact ⟨hw, h0⟩
  | cons r rest ih =>
    obtain ⟨u, req⟩ := r
    obtain ⟨w1, h1, hd, -, ht⟩ := postTrade_noFailure u req w hw
    simp only [runTrades, h1]
    exact ih w1 ht (hd ▸ hI _ _ _ _ h0)

/-- A validated quantity is positive. -/
theorem validTrade_quantity_pos (req : TradeRequest) (hv : validTrade req = true) :
    0 < req.quantity := by
  simp only [validTrade, Bool.and_eq_true, decide_eq_true_eq] at hv
  have := hv.1.2
  linarith [show (0 : ℚ) < 1 / 100000000 by norm_num]

/-- A validated price is positive. -/
theorem validTrade_price_pos (req : TradeRequest) (hv : validTrade req = true) :
    0 < req.price := by
  simp only [validTrade, Bool.and_eq_true, decide_eq_true_eq] at hv
  have := hv.2
  linarith [show (0 : ℚ) < 1 / 100 by norm_num]

/-- A validated side is `BUY` or `SELL`. -/
theorem validTrade_side (req : TradeRequest) (hv : validTrade req = true) :
    req.side = "BUY" ∨ req.side = "SELL" := by
  simp only [validTrade, Bool.and_eq_true, Bool.or_eq_true, decide_eq_true_eq] at hv
  exact hv.1.1.2

/-- The first row of a selection is a row of the table. -/
theorem mem_of_head?_filter {α : Type} (p : α → Bool) (l : List α) (a : α)
    (h : (l.filter p).head? = some a) : a ∈ l ∧ p a = true := by
  have : a ∈ l.filter p := List.mem_of_mem_head? h
  exact List.mem_filter.mp this

/-- Every request keeps the stored quantities positive. -/
theorem tradeOutcome_quantities_pos (L : Ledger) (n : Nat) (u : UserId) (req : TradeRequest)
    (h : ∀ r ∈ L.positions, 0 < r.quantity) :
    ∀ r ∈ (tradeOutcome L n u req).2.positions, 0 < r.quantity := by
  unfold tradeOutcome
  by_cases hv : validTrade req = true
  swap
  · simpa only [if_neg hv] using h
  have hq := validTrade_quantity_pos req hv
  simp only [if_pos hv]
  have hV : ∀ r ∈ (L.withPortfolio u).positions, 0 < r.quantity := by
    rw [withPortfolio_positions]; exact h
  generalize L.withPortfolio u = V at hV
  cases (V.portfolioRows u).head? with
  | none => exact h
  | some row =>
    simp only
    split
    · unfold buyOutcome
      split
      · exact h
      · simp only [Sql.effect, Ledger.positionRows]
        cases hp : (V.positions.filter (fun r => r.user_id = u ∧ r.symbol = req.symbol)).head? with
        | none =>
          simp only [recordOutcome, Sql.effect]
          intro r hr
          rcases List.mem_append.mp hr with hr | hr
          · exact hV r hr
          · simp only [List.mem_singleton] at hr
            rw [hr]; exact hq
        | some current =>
          have hc := hV current (mem_of_head?_filter _ _ _ hp).1
          simp only [recordOutcome, Sql.effect]
          intro r hr
          obtain ⟨r0, hr0, rfl⟩ := List.mem_map.mp hr
          split
          · show 0 < current.quantity + req.quantity
            linarith
          · exact hV r0 hr0
    · split
      · unfold sellOutcome
        cases hp : (V.positionRows u req.symbol).head? with
        | none => exact h
        | some held =>
          simp only
          split
          · exact h
          · split
            · simp only [recordOutcome, Sql.effect]
              intro r hr
              exact hV r (List.mem_filter.mp hr).1
            · rename_i hz
              simp only [recordOutcome, Sql.effect]
              intro r hr
              obtain ⟨r0, hr0, rfl⟩ := List.mem_map.mp hr
              split
              · show 0 < held.quantity - req.quantity
                linarith
              · exact hV r0 hr0
      · simpa only [recordOutcome, Sql.effect] using hV

/-- The outcome of a valid BUY that the balance covers. -/
theorem tradeOutcome_buy (L : Ledger) (n : Nat) (u : UserId) (req : TradeRequest)
    (hv : validTrade req = true) (hs : req.side = "BUY")
    (hb : ¬ L.cashBalance u < req.quantity * req.price) :
    tradeOutcome L n u req =
      match L.position? u req.symbol with
      | some current =>
        recordOutcome
          ((Sql.updatePositionBuy (current.quantity + req.quantity)
            ((current.quantity * current.avg_price + req.quantity * req.price) /
              (current.quantity + req.quantity))
            req.price u req.symbol).effect n
            ((Sql.debitBalance (req.quantity * req.price) u).effect n (L.withPortfolio u)))
          n u req (req.quantity * req.price) "Trade executed successfully"
      | none =>
        recordOutcome
          ((Sql.insertPosition u req.symbol req.quantity req.price req.price).effect n
            ((Sql.debitBalance (req.quantity * req.price) u).effect n (L.withPortfolio u)))
          n u req (req.quantity * req.price) "Trade executed successfully" := by
  obtain ⟨row, hrow, hbal⟩ := withPortfolio_head_balance L u
  rw [← hbal] at hb
  have hp : ((Sql.debitBalance (req.quantity * req.price) u).effect n
      (L.withPortfolio u)).positionRows u req.symbol = L.positionRows u req.symbol :=
    withPortfolio_positionRows L u u req.symbol
  simp only [tradeOutcome, hv, if_true, hrow, if_pos hs, buyOutcome, if_neg hb, hp,
    Ledger.position?]

/-- The outcome of a valid SELL that the position covers. -/
theorem tradeOutcome_sell (L : Ledger) (n : Nat) (u : UserId) (req : TradeRequest)
    (hv : validTrade req = true) (hs : req.side = "SELL") (held : PositionRow)
    (hp : L.position? u req.symbol = some held) (hq : ¬ held.quantity < req.quantity) :
    tradeOutcome L n u req =
      if held.quantity - req.quantity ≤ 0 then
        recordOutcome
          ((Sql.deletePosition u req.symbol).effect n
            ((Sql.creditBalance (req.quantity * req.price) u).effect n (L.withPortfolio u)))
          n u req (req.quantity * req.price) "Trade executed successfully"
      else
        recordOutcome
          ((Sql.updatePositionSell (held.quantity - req.quantity) req.price u req.symbol).effect n
            ((Sql.creditBalance (req.quantity * req.price) u).effect n (L.withPortfolio u)))
          n u req (req.quantity * req.price) "Trade executed successfully" := by
  obtain ⟨row, hrow, -⟩ := withPortfolio_head_balance L u
  have hb : ¬ req.side = "BUY" := by rw [hs]; decide
  unfold Ledger.position? at hp
  simp only [tradeOutcome, hv, if_true, hrow, if_neg hb, if_pos hs, sellOutcome,
    withPortfolio_positionRows, hp, if_neg hq]

/-- A SELL of exactly the held quantity leaves no position row for the symbol. -/
theorem tradeOutcome_sell_all (L : Ledger) (n : Nat) (u : UserId) (req : TradeRequest)
    (hv : validTrade req = true) (hs : req.side = "SELL") (held : PositionRow)
    (hp : L.position? u req.symbol = some held) (hq : held.quantity = req.quantity) :
    (tradeOutcome L n u req).2.positionRows u req.symbol = [] := by
  have h1 : ¬ held.quantity < req.quantity := by rw [hq]; exact lt_irrefl _
  have h2 : held.quantity - req.quantity ≤ 0 := by rw [hq]; simp
  rw [tradeOutcome_sell L n u req hv hs held hp h1, if_pos h2]
  simp only [recordOutcome, Sql.effect, Ledger.positionRows]
  rw [List.filter_filter, List.filter_eq_nil_iff]
  intro a _
  simp

/-- C4. In every state reached from the empty ledger by `POST /trade` requests
every stored position row has a positive quantity, and there a valid SELL of
exactly the held quantity leaves no position row for the symbol. -/
theorem C4_no_zero_quantity_positions (reqs : List (UserId × TradeRequest)) :
    (∀ r ∈ (runTrades reqs (World.idle Ledger.empty)).committed.positions, 0 < r.quantity) ∧
      ∀ (u : UserId) (req : TradeRequest) (held : PositionRow),
        validTrade req = true → req.side = "SELL" →
        (runTrades reqs (World.idle Ledger.empty)).committed.position? u req.symbol = some held →
        held.quantity = req.quantity →
        (Prog.run noFailure (postTrade u req)
          (runTrades reqs (World.idle Ledger.empty))).2.committed.positionRows u req.symbol
          = [] := by
  obtain ⟨ht, hpos⟩ := runTrades_invariant (fun L => ∀ r ∈ L.positions, 0 < r.quantity)
    (fun L n u req h => tradeOutcome_quantities_pos L n u req h) reqs
    (World.idle Ledger.empty) rfl (by intro r hr; cases hr)
  refine ⟨hpos, fun u req held hv hs hp hq => ?_⟩
  obtain ⟨w1, h1, hd, -, -⟩ := postTrade_noFailure u req _ ht
  rw [h1, hd]
  exact tradeOutcome_sell_all _ _ u req hv hs held hp hq

theorem C4_no_zero_quantity_positions_witness :
    (Prog.run noFailure (postTrade "alice" ⟨"BTCUSDT", "SELL", 1, 110000⟩)
      (runTrades [("alice", ⟨"BTCUSDT", "BUY", 1, 100000⟩)]
        (World.idle Ledger.empty))).2.committed.positionRows "alice" "BTCUSDT" = [] := by
  have hw : (runTrades [("alice", ⟨"BTCUSDT", "BUY", 1, 100000⟩)]
      (World.idle Ledger.empty)).committed =
      ⟨[⟨"alice", 0⟩], [⟨"alice", "BTCUSDT", 1, 100000, 100000⟩],
        [⟨1, "alice", "BTCUSDT", "BUY", 1, 100000, 100000⟩]⟩ := by
    obtain ⟨w1, h1, hd, -, -⟩ := postTrade_noFailure "alice" ⟨"BTCUSDT", "BUY", 1, 100000⟩
      (World.idle Ledger.empty) rfl
    simp only [runTrades, h1, hd]
    have hv : validTrade ⟨"BTCUSDT", "BUY", 1, 100000⟩ = true := by
      norm_num [validTrade]; decide
    norm_num [tradeOutcome, hv, Ledger.withPortfolio, Ledger.portfolioRows, World.idle,
      Ledger.empty, Sql.effect, buyOutcome, Ledger.positionRows, recordOutcome]
  exact (C4_no_zero_quantity_positions [("alice", ⟨"BTCUSDT", "BUY", 1, 100000⟩)]).2 "alice"
    ⟨"BTCUSDT", "SELL", 1, 110000⟩ ⟨"alice", "BTCUSDT", 1, 100000, 100000⟩
    (by norm_num [validTrade]; decide) rfl
    (by rw [hw]; simp [Ledger.position?, Ledger.positionRows]) rfl

/-! ## Balances -/

/-- The portfolio rows after a request: untouched, debited, credited, or only
completed by the user's new row. -/
theorem tradeOutcome_portfolios (L : Ledger) (n : Nat) (u : UserId) (req : TradeRequest) :
    (tradeOutcome L n u req).2.portfolios = L.portfolios ∨
    (validTrade req = true ∧ ¬ L.cashBalance u < req.quantity * req.price ∧
      (tradeOutcome L n u req).2.portfolios =
        ((Sql.debitBalance (req.quantity * req.price) u).effect n
          (L.withPortfolio u)).portfolios) ∨
    (validTrade req = true ∧
      (tradeOutcome L n u req).2.portfolios =
        ((Sql.creditBalance (req.quantity * req.price) u).effect n
          (L.withPortfolio u)).portfolios) := by
  by_cases hv : validTrade req = true
  swap
  · left; simp only [tradeOutcome, if_neg hv]
  rcases validTrade_side req hv with hs | hs
  · by_cases hb : L.cashBalance u < req.quantity * req.price
    · left
      obtain ⟨row, hrow, hbal⟩ := withPortfolio_head_balance L u
      simp only [tradeOutcome, hv, if_true, hrow, if_pos hs, buyOutcome, hbal, if_pos hb]
    · right; left
      refine ⟨hv, hb, ?_⟩
      rw [tradeOutcome_buy L n u req hv hs hb]
      cases L.position? u req.symbol <;> rfl
  · cases hp : L.position? u req.symbol with
    | none =>
      left
      have := (tradeOutcome_sell_reject L n u req hv hs (Or.inl hp))
      rw [this]
    | some held =>
      by_cases hq : held.quantity < req.quantity
      · left
        have := (tradeOutcome_sell_reject L n u req hv hs (Or.inr (by simp only [Ledger.held, hp]; exact hq)))
        rw [this]
      · right; right
        refine ⟨hv, ?_⟩
        rw [tradeOutcome_sell L n u req hv hs held hp hq]
        split <;> rfl

/-- Creating the missing portfolio row keeps one row per user. -/
theorem withPortfolio_onePerUser (L : Ledger) (u : UserId) (h : L.OnePortfolioPerUser) :
    (L.withPortfolio u).OnePortfolioPerUser := by
  unfold Ledger.withPortfolio
  split
  · rename_i h0
    intro v
    simp only [Sql.effect, Ledger.portfolioRows, List.filter_append, List.length_append]
    by_cases hv : u = v
    · subst hv
      unfold Ledger.portfolioRows at h0
      simp [h0]
    · have := h v
      unfold Ledger.portfolioRows at this
      simp [hv, this]
  · exact h

/-- Creating the missing portfolio row keeps the balances non-negative. -/
theorem withPortfolio_nonneg (L : Ledger) (u : UserId) (h : L.BalancesNonneg) :
    (L.withPortfolio u).BalancesNonneg := by
  unfold Ledger.withPortfolio
  split
  · intro r hr
    simp only [Sql.effect, List.mem_append, List.mem_singleton] at hr
    rcases hr with hr | hr
    · exact h r hr
    · rw [hr]; norm_num
  · exact h

/-- An update of the balance column selects the same rows, updated. -/
theorem portfolioRows_map (f : PortfolioRow → PortfolioRow) (hf : ∀ r, (f r).user_id = r.user_id)
    (l : List PortfolioRow) (v : UserId) :
    (l.map f).filter (fun r => r.user_id = v) = (l.filter (fun r => r.user_id = v)).map f := by
  induction l with
  | nil => rfl
  | cons a l ih =>
    simp only [List.map_cons, List.filter_cons, hf]
    split
    · simp only [List.map_cons, ih]
    · exact ih

/-- With one row per user, each row of the user is the row read as
`portfolio.rows[0]`. -/
theorem eq_head_of_onePerUser (L : Ledger) (u : UserId) (h : L.OnePortfolioPerUser)
    (r : PortfolioRow) (hr : r ∈ L.portfolios) (hu : r.user_id = u) :
    (L.portfolioRows u).head? = some r := by
  have hm : r ∈ L.portfolioRows u := by
    unfold Ledger.portfolioRows
    exact List.mem_filter.mpr ⟨hr, by simp [hu]⟩
  have hl := h u
  cases hrows : L.portfolioRows u with
  | nil => rw [hrows] at hm; cases hm
  | cons a l =>
    rw [hrows] at hm hl
    cases l with
    | nil =>
      simp only [List.mem_singleton] at hm
      rw [hm]; rfl
    | cons b l => simp at hl

/-- Every request keeps one portfolio row per user and the balances
non-negative. -/
theorem tradeOutcome_balances (L : Ledger) (n : Nat) (u : UserId) (req : TradeRequest)
    (h : L.OnePortfolioPerUser ∧ L.BalancesNonneg) :
    (tradeOutcome L n u req).2.OnePortfolioPerUser ∧
      (tradeOutcome L n u req).2.BalancesNonneg := by
  have h1 := withPortfolio_onePerUser L u h.1
  have h2 := withPortfolio_nonneg L u h.2
  obtain ⟨row, hrow, hbal⟩ := withPortfolio_head_balance L u
  unfold Ledger.OnePortfolioPerUser Ledger.BalancesNonneg Ledger.portfolioRows at *
  rcases tradeOutcome_portfolios L n u req with hp | ⟨hv, hb, hp⟩ | ⟨hv, hp⟩
  · rw [hp]; exact h
  · rw [hp]
    simp only [Sql.effect]
    constructor
    · intro v
      rw [portfolioRows_map _ (by intro r; split <;> rfl), List.length_map]
      exact h1 v
    · intro r hr
      obtain ⟨r0, hr0, rfl⟩ := List.mem_map.mp hr
      split
      · rename_i hu
        have := eq_head_of_onePerUser (L.withPortfolio u) u h1 r0 hr0 hu
        unfold Ledger.portfolioRows at this
        rw [hrow] at this
        cases this
        show 0 ≤ row.balance - req.quantity * req.price
        rw [hbal]; linarith
      · exact h2 r0 hr0
  · rw [hp]
    simp only [Sql.effect]
    have hq := validTrade_quantity_pos req hv
    have hpr := validTrade_price_pos req hv
    constructor
    · intro v
      rw [portfolioRows_map _ (by intro r; split <;> rfl), List.length_map]
      exact h1 v
    · intro r hr
      obtain ⟨r0, hr0, rfl⟩ := List.mem_map.mp hr
      split
      · show 0 ≤ r0.balance + req.quantity * req.price
        have := h2 r0 hr0
        positivity
      · exact h2 r0 hr0

/-- The cash balance is non-negative when no stored balance is negative. -/
theorem cashBalance_nonneg (L : Ledger) (h : L.BalancesNonneg) (u : UserId) :
    0 ≤ L.cashBalance u := by
  unfold Ledger.cashBalance
  cases hp : (L.portfolioRows u).head? with
  | none => norm_num
  | some row => exact h row (mem_of_head?_filter _ _ _ hp).1

/-- In mock mode `POST /buy` is the synchronous block `mockBuy`. -/
theorem postBuy_mock (env : Env) (u : UserId) (req : OrderRequest) (w : World)
    (he : env.mock = true) :
    (Prog.run noFailure (postBuy env u req) w).2.globals =
      if validOrder req then (mockBuy u req (req.quantity * req.price) w.globals).2
      else w.globals := by
  unfold postBuy
  rw [Prog.run_tryCatch]
  by_cases hv : validOrder req = true
  · simp only [if_pos hv, he, if_true, Prog.run_await, perform]
  · simp only [if_neg hv, Prog.run_pure]

/-- In mock mode `POST /sell` is the synchronous block `mockSell`. -/
theorem postSell_mock (env : Env) (u : UserId) (req : OrderRequest) (w : World)
    (he : env.mock = true) :
    (Prog.run noFailure (postSell env u req) w).2.globals =
      if validOrder req then (mockSell u req (req.quantity * req.price) w.globals).2
      else w.globals := by
  unfold postSell
  rw [Prog.run_tryCatch]
  by_cases hv : validOrder req = true
  · simp only [if_pos hv, he, if_true, Prog.run_await, perform]
  · simp only [if_neg hv, Prog.run_pure]

/-- A validated order has a positive total. -/
theorem validOrder_total_pos (req : OrderRequest) (hv : validOrder req = true) :
    0 < req.quantity * req.price := by
  simp only [validOrder, Bool.and_eq_true, decide_eq_true_eq] at hv
  have h1 : 0 < req.quantity := by linarith [hv.1.2, show (0 : ℚ) < 1 / 100000000 by norm_num]
  have h2 : 0 < req.price := by linarith [hv.2, show (0 : ℚ) < 1 / 100 by norm_num]
  positivity

/-- A mock request keeps the mock balance non-negative. -/
theorem mock_balance_nonneg (env : Env) (o : Order) (w : World) (he : env.mock = true)
    (h : 0 ≤ w.globals.mockPortfolio.balance) :
    0 ≤ (Prog.run noFailure (o.handler env) w).2.globals.mockPortfolio.balance := by
  cases o with
  | buy u req =>
    simp only [Order.handler, postBuy_mock env u req w he]
    split
    · unfold mockBuy
      split
      · exact h
      · rename_i hb
        show 0 ≤ w.globals.mockPortfolio.balance - req.quantity * req.price
        linarith
    · exact h
  | sell u req =>
    simp only [Order.handler, postSell_mock env u req w he]
    split
    · rename_i hv
      unfold mockSell
      split
      · exact h
      · show 0 ≤ w.globals.mockPortfolio.balance + req.quantity * req.price
        linarith [validOrder_total_pos req hv]
    · exact h

/-- C1. Balance non-negativity.  On tables with one portfolio row per user and
no negative balance, after every sequence of `POST /trade` requests no stored
balance is negative and every user's cash balance is at least 0; and after every
sequence of mock `POST /buy` and `POST /sell` requests on a non-negative mock
balance the mock balance is at least 0. -/
theorem C1_balance_nonneg :
    (∀ (w : World) (reqs : List (UserId × TradeRequest)),
      w.txn = none → w.committed.OnePortfolioPerUser → w.committed.BalancesNonneg →
        (runTrades reqs w).committed.BalancesNonneg ∧
          ∀ u, 0 ≤ (runTrades reqs w).committed.cashBalance u) ∧
    (∀ (env : Env) (w : World) (orders : List Order),
      env.mock = true → 0 ≤ w.globals.mockPortfolio.balance →
        0 ≤ (runOrders env orders w).globals.mockPortfolio.balance) := by
  constructor
  · intro w reqs hw h1 h2
    have := (runTrades_invariant (fun L => L.OnePortfolioPerUser ∧ L.BalancesNonneg)
      (fun L n u req h => tradeOutcome_balances L n u req h) reqs w hw ⟨h1, h2⟩).2.2
    exact ⟨this, cashBalance_nonneg _ this⟩
  · intro env w orders he
    induction orders generalizing w with
    | nil => exact id
    | cons o rest ih =>
      intro h
      exact ih _ (mock_balance_nonneg env o w he h)

theorem C1_balance_nonneg_witness :
    (0 : ℚ) ≤ (runTrades [("alice", ⟨"BTCUSDT", "BUY", 1, 100000⟩),
        ("alice", ⟨"BTCUSDT", "BUY", 1, 100000⟩)]
        (World.idle Ledger.empty)).committed.cashBalance "alice" ∧
      (0 : ℚ) ≤ (runOrders ⟨some "development", none⟩
        [.buy "alice" ⟨"BTCUSDT", 1, 100000⟩, .buy "alice" ⟨"BTCUSDT", 1, 100000⟩]
        (World.idle Ledger.empty)).globals.mockPortfolio.balance :=
  ⟨(C1_balance_nonneg.1 (World.idle Ledger.empty) _ rfl
      (by intro u; simp [Ledger.portfolioRows, World.idle, Ledger.empty])
      (by intro r hr; cases hr)).2 "alice",
    C1_balance_nonneg.2 ⟨some "development", none⟩ (World.idle Ledger.empty) _ (by decide)
      (by norm_num [World.idle])⟩

/-! ## Committed trades -/

/-- An update that keeps the selected columns selects the updated rows. -/
theorem filter_map_of_keeps {α : Type} (p : α → Bool) (f : α → α) (hf : ∀ r, p (f r) = p r)
    (l : List α) : (l.map f).filter p = (l.filter p).map f := by
  induction l with
  | nil => rfl
  | cons a l ih =>
    simp only [List.map_cons, List.filter_cons, hf]
    split
    · simp only [List.map_cons, ih]
    · exact ih

/-- The cash balance after the debit of a BUY. -/
theorem cashBalance_debit (L : Ledger) (n : Nat) (u : UserId) (t : ℚ) :
    ((Sql.debitBalance t u).effect n (L.withPortfolio u)).cashBalance u =
      L.cashBalance u - t := by
  obtain ⟨row, hrow, hbal⟩ := withPortfolio_head_balance L u
  unfold Ledger.cashBalance Ledger.portfolioRows at *
  simp only [Sql.effect]
  rw [filter_map_of_keeps _ _ (by intro r; split <;> rfl), List.head?_map, hrow]
  have hu : row.user_id = u := by
    have := (mem_of_head?_filter _ _ _ hrow).2
    simpa using this
  simp only [Option.map_some', hu, if_true]
  rw [← hbal]

/-- The cash balance after the credit of a SELL. -/
theorem cashBalance_credit (L : Ledger) (n : Nat) (u : UserId) (t : ℚ) :
    ((Sql.creditBalance t u).effect n (L.withPortfolio u)).cashBalance u =
      L.cashBalance u + t := by
  obtain ⟨row, hrow, hbal⟩ := withPortfolio_head_balance L u
  unfold Ledger.cashBalance Ledger.portfolioRows at *
  simp only [Sql.effect]
  rw [filter_map_of_keeps _ _ (by intro r; split <;> rfl), List.head?_map, hrow]
  have hu : row.user_id = u := by
    have := (mem_of_head?_filter _ _ _ hrow).2
    simpa using this
  simp only [Option.map_some', hu, if_true]
  rw [← hbal]

/-- The outcome of a valid BUY that the balance covers, for a user without a
position in the symbol: the balance is debited, one position row is added. -/
theorem tradeOutcome_buy_new (L : Ledger) (n : Nat) (u : UserId) (req : TradeRequest)
    (hv : validTrade req = true) (hs : req.side = "BUY")
    (hb : ¬ L.cashBalance u < req.quantity * req.price)
    (hp : L.position? u req.symbol = none) :
    (tradeOutcome L n u req).1 = .executed "Trade executed successfully"
        ⟨n, u, req.symbol, "BUY", req.quantity, req.price, req.quantity * req.price⟩ ∧
      (tradeOutcome L n u req).2.cashBalance u = L.cashBalance u - req.quantity * req.price ∧
      (tradeOutcome L n u req).2.positions =
        L.positions ++ [⟨u, req.symbol, req.quantity, req.price, req.price⟩] ∧
      (tradeOutcome L n u req).2.trades = L.trades ++
        [⟨n, u, req.symbol, "BUY", req.quantity, req.price, req.quantity * req.price⟩] := by
  rw [tradeOutcome_buy L n u req hv hs hb, hp]
  refine ⟨?_, ?_, ?_, ?_⟩
  · simp only [recordOutcome, hs]
  · exact cashBalance_debit L n u _
  · simp only [recordOutcome, Sql.effect, withPortfolio_positions]
  · simp only [recordOutcome, Sql.effect, hs]
    unfold Ledger.withPortfolio
    split <;> rfl

/-- The outcome of a valid BUY that the balance covers, for a user with a
position in the symbol: the rows of the position get the summed quantity and
the weighted average price. -/
theorem tradeOutcome_buy_more (L : Ledger) (n : Nat) (u : UserId) (req : TradeRequest)
    (hv : validTrade req = true) (hs : req.side = "BUY")
    (hb : ¬ L.cashBalance u < req.quantity * req.price)
    (current : PositionRow) (hp : L.position? u req.symbol = some current) :
    (tradeOutcome L n u req).2.cashBalance u = L.cashBalance u - req.quantity * req.price ∧
      (tradeOutcome L n u req).2.positions =
        L.positions.map (fun r =>
          if r.user_id = u ∧ r.symbol = req.symbol then
            { r with
              quantity := current.quantity + req.quantity
              avg_price := (current.quantity * current.avg_price + req.quantity * req.price) /
                (current.quantity + req.quantity)
              current_price := req.price }
          else r) := by
  rw [tradeOutcome_buy L n u req hv hs hb, hp]
  refine ⟨?_, ?_⟩
  · exact cashBalance_debit L n u _
  · simp only [recordOutcome, Sql.effect, withPortfolio_positions]

/-- No row is selected when no first row is. -/
theorem filter_eq_nil_of_head? {α : Type} (p : α → Bool) (l : List α)
    (h : (l.filter p).head? = none) : l.filter p = [] := by
  cases hl : l.filter p with
  | nil => rfl
  | cons a t => rw [hl] at h; cases h

/-- C5. Average price: for a user without a position in the symbol whose cash
balance covers both totals, after two committed BUYs of `q1 @ p1` then
`q2 @ p2` of the symbol the position has quantity `q1 + q2` and average price
`(q1 * p1 + q2 * p2) / (q1 + q2)`. -/
theorem C5_average_price (w : World) (u : UserId) (sym : Symbol) (q1 p1 q2 p2 : ℚ)
    (hw : w.txn = none)
    (hv1 : validTrade ⟨sym, "BUY", q1, p1⟩ = true)
    (hv2 : validTrade ⟨sym, "BUY", q2, p2⟩ = true)
    (hp : w.committed.position? u sym = none)
    (hb : q1 * p1 + q2 * p2 ≤ w.committed.cashBalance u) :
    (runTrades [(u, ⟨sym, "BUY", q1, p1⟩), (u, ⟨sym, "BUY", q2, p2⟩)] w).committed.position?
        u sym =
      some ⟨u, sym, q1 + q2, (q1 * p1 + q2 * p2) / (q1 + q2), p2⟩ := by
  have hq1 := validTrade_quantity_pos _ hv1
  have hq2 := validTrade_quantity_pos _ hv2
  have hp1 := validTrade_price_pos _ hv1
  have hp2 := validTrade_price_pos _ hv2
  simp only at hq1 hq2 hp1 hp2
  have ht2 : 0 < q2 * p2 := by positivity
  have ht1 : 0 < q1 * p1 := by positivity
  obtain ⟨w1, h1, hd1, -, hn1⟩ := postTrade_noFailure u ⟨sym, "BUY", q1, p1⟩ w hw
  obtain ⟨w2, h2, hd2, -, -⟩ := postTrade_noFailure u ⟨sym, "BUY", q2, p2⟩ w1 hn1
  simp only [runTrades, h1, h2]
  obtain ⟨-, hc1, hpos1, -⟩ := tradeOutcome_buy_new w.committed w.nextId u ⟨sym, "BUY", q1, p1⟩
    hv1 rfl (by simp only; linarith) hp
  rw [← hd1] at hc1 hpos1
  simp only at hc1 hpos1
  have hrows : w.committed.positions.filter (fun r => r.user_id = u ∧ r.symbol = sym) = [] :=
    filter_eq_nil_of_head? _ _ hp
  have hcur : w1.committed.position? u sym = some ⟨u, sym, q1, p1, p1⟩ := by
    simp only [Ledger.position?, Ledger.positionRows, hpos1, List.filter_append, hrows]
    simp
  obtain ⟨-, hpos2⟩ := tradeOutcome_buy_more w1.committed w1.nextId u ⟨sym, "BUY", q2, p2⟩
    hv2 rfl (by simp only; rw [hc1]; linarith) _ hcur
  rw [← hd2] at hpos2
  simp only at hpos2
  simp only [Ledger.position?, Ledger.positionRows, hpos2, hpos1]
  rw [filter_map_of_keeps _ _ (by intro r; split <;> simp_all), List.filter_append, hrows]
  simp

theorem C5_average_price_witness :
    (runTrades [("alice", ⟨"BTCUSDT", "BUY", 1, 100000⟩),
        ("alice", ⟨"BTCUSDT", "BUY", 1, 120000⟩)]
        (World.idle ⟨[⟨"alice", 250000⟩], [], []⟩)).committed.position? "alice" "BTCUSDT" =
      some ⟨"alice", "BTCUSDT", 2, 110000, 120000⟩ := by
  have h := C5_average_price (World.idle ⟨[⟨"alice", 250000⟩], [], []⟩) "alice" "BTCUSDT"
    1 100000 1 120000 rfl (by norm_num [validTrade]; decide) (by norm_num [validTrade]; decide)
    rfl (by norm_num [World.idle, Ledger.cashBalance, Ledger.portfolioRows])
  norm_num at h
  exact h

/-- The outcome of a valid SELL that the position covers: the trade is
recorded and the balance credited; the rows of the position are deleted when
nothing remains and get the remaining quantity and the price otherwise. -/
theorem tradeOutcome_sell_ok (L : Ledger) (n : Nat) (u : UserId) (req : TradeRequest)
    (hv : validTrade req = true) (hs : req.side = "SELL") (held : PositionRow)
    (hp : L.position? u req.symbol = some held) (hq : ¬ held.quantity < req.quantity) :
    (tradeOutcome L n u req).1 = .executed "Trade executed successfully"
        ⟨n, u, req.symbol, "SELL", req.quantity, req.price, req.quantity * req.price⟩ ∧
      (tradeOutcome L n u req).2.cashBalance u = L.cashBalance u + req.quantity * req.price ∧
      (tradeOutcome L n u req).2.positions =
        (if held.quantity - req.quantity ≤ 0 then
          L.positions.filter (fun r => ¬ (r.user_id = u ∧ r.symbol = req.symbol))
        else
          L.positions.map (fun r =>
            if r.user_id = u ∧ r.symbol = req.symbol then
              { r with quantity := held.quantity - req.quantity, current_price := req.price }
            else r)) ∧
      (tradeOutcome L n u req).2.trades = L.trades ++
        [⟨n, u, req.symbol, "SELL", req.quantity, req.price, req.quantity * req.price⟩] := by
  rw [tradeOutcome_sell L n u req hv hs held hp hq]
  have ht : (L.withPortfolio u).trades = L.trades := by
    unfold Ledger.withPortfolio
    split <;> rfl
  split
  · refine ⟨?_, cashBalance_credit L n u _, ?_, ?_⟩
    · simp only [recordOutcome, hs]
    · simp only [recordOutcome, Sql.effect, withPortfolio_positions]
    · simp only [recordOutcome, Sql.effect, hs, ht]
  · refine ⟨?_, cashBalance_credit L n u _, ?_, ?_⟩
    · simp only [recordOutcome, hs]
    · simp only [recordOutcome, Sql.effect, withPortfolio_positions]
    · simp only [recordOutcome, Sql.effect, hs, ht]

/-- C6. A SELL never changes the average price: a committed SELL of less than
the held quantity leaves the `avg_price` of every position row as it was, and
the user's position keeps its `avg_price`. -/
theorem C6_sell_keeps_avg_price (w : World) (u : UserId) (req : TradeRequest)
    (held : PositionRow) (hw : w.txn = none) (hv : validTrade req = true)
    (hs : req.side = "SELL") (hp : w.committed.position? u req.symbol = some held)
    (hq : req.quantity < held.quantity) :
    (Prog.run noFailure (postTrade u req) w).1 = .ok (.executed "Trade executed successfully"
        ⟨w.nextId, u, req.symbol, "SELL", req.quantity, req.price,
          req.quantity * req.price⟩) ∧
      (Prog.run noFailure (postTrade u req) w).2.committed.positions.map (·.avg_price) =
        w.committed.positions.map (·.avg_price) ∧
      ((Prog.run noFailure (postTrade u req) w).2.committed.position? u req.symbol).map
        (·.avg_price) = some held.avg_price := by
  obtain ⟨w1, h1, hd, -, -⟩ := postTrade_noFailure u req w hw
  obtain ⟨hr, -, hpos, -⟩ := tradeOutcome_sell_ok w.committed w.nextId u req hv hs held hp
    (not_lt.mpr hq.le)
  rw [if_neg (by linarith)] at hpos
  rw [h1, hd]
  refine ⟨by rw [hr], ?_, ?_⟩
  · rw [hpos, List.map_map]
    apply List.map_congr_left
    intro r _
    simp only [Function.comp]
    split <;> rfl
  · unfold Ledger.position? Ledger.positionRows at hp ⊢
    rw [hpos, filter_map_of_keeps _ _ (by intro r; split <;> simp_all), List.head?_map, hp]
    have hk := (mem_of_head?_filter _ _ _ hp).2
    simp only [decide_eq_true_eq] at hk
    simp [hk]

theorem C6_sell_keeps_avg_price_witness :
    ((Prog.run noFailure (postTrade "alice" ⟨"BTCUSDT", "SELL", 1, 110000⟩)
        (World.idle ⟨[⟨"alice", 0⟩], [⟨"alice", "BTCUSDT", 2, 100000, 100000⟩], []⟩)
      ).2.committed.position? "alice" "BTCUSDT").map (·.avg_price) = some 100000 :=
  (C6_sell_keeps_avg_price
    (World.idle ⟨[⟨"alice", 0⟩], [⟨"alice", "BTCUSDT", 2, 100000, 100000⟩], []⟩) "alice"
    ⟨"BTCUSDT", "SELL", 1, 110000⟩ ⟨"alice", "BTCUSDT", 2, 100000, 100000⟩ rfl
    (by norm_num [validTrade]; decide) rfl rfl (by norm_num)).2.2

/-- C10. Committed SELL: when the user holds `h >= q` of the symbol, a valid
SELL of `q @ p` commits, raises the user's cash balance by exactly `q * p`,
appends one SELL trade record with total `q * p`, and when `h > q` leaves the
position with quantity `h - q` and current price `p`. -/
theorem C10_sell_postcondition (w : World) (u : UserId) (req : TradeRequest)
    (held : PositionRow) (hw : w.txn = none) (hv : validTrade req = true)
    (hs : req.side = "SELL") (hp : w.committed.position? u req.symbol = some held)
    (hq : req.quantity ≤ held.quantity) :
    (Prog.run noFailure (postTrade u req) w).1 = .ok (.executed "Trade executed successfully"
        ⟨w.nextId, u, req.symbol, "SELL", req.quantity, req.price,
          req.quantity * req.price⟩) ∧
      (Prog.run noFailure (postTrade u req) w).2.committed.cashBalance u =
        w.committed.cashBalance u + req.quantity * req.price ∧
      (Prog.run noFailure (postTrade u req) w).2.committed.trades = w.committed.trades ++
        [⟨w.nextId, u, req.symbol, "SELL", req.quantity, req.price,
          req.quantity * req.price⟩] ∧
      (req.quantity < held.quantity →
        (Prog.run noFailure (postTrade u req) w).2.committed.position? u req.symbol =
          some { held with
            quantity := held.quantity - req.quantity, current_price := req.price }) := by
  obtain ⟨w1, h1, hd, -, -⟩ := postTrade_noFailure u req w hw
  obtain ⟨hr, hc, hpos, htr⟩ := tradeOutcome_sell_ok w.committed w.nextId u req hv hs held hp
    (not_lt.mpr hq)
  rw [h1, hd]
  refine ⟨by rw [hr], hc, htr, fun hlt => ?_⟩
  rw [if_neg (by linarith)] at hpos
  unfold Ledger.position? Ledger.positionRows at hp ⊢
  rw [hpos, filter_map_of_keeps _ _ (by intro r; split <;> simp_all), List.head?_map, hp]
  have hk := (mem_of_head?_filter _ _ _ hp).2
  simp only [decide_eq_true_eq] at hk
  simp [hk]

theorem C10_sell_postcondition_witness :
    (Prog.run noFailure (postTrade "alice" ⟨"BTCUSDT", "SELL", 1, 110000⟩)
        (World.idle ⟨[⟨"alice", 0⟩], [⟨"alice", "BTCUSDT", 1, 100000, 100000⟩], []⟩)
      ).2.committed.cashBalance "alice" = 110000 := by
  have h := (C10_sell_postcondition
    (World.idle ⟨[⟨"alice", 0⟩], [⟨"alice", "BTCUSDT", 1, 100000, 100000⟩], []⟩) "alice"
    ⟨"BTCUSDT", "SELL", 1, 110000⟩ ⟨"alice", "BTCUSDT", 1, 100000, 100000⟩ rfl
    (by norm_num [validTrade]; decide) rfl rfl (by norm_num)).2.1
  exact h.trans (by norm_num [World.idle, Ledger.cashBalance, Ledger.portfolioRows])

/-! ## Atomicity under storage failures -/

/-- One more successful call keeps the record clean. -/
theorem clean_step (fails : Nat → Bool) (c0 : Nat) (w w1 : World) (h : w.Clean fails c0)
    (hf : fails w.clock = false) (hc : w1.clock = w.clock + 1) : w1.Clean fails c0 := by
  intro i h1 h2
  rw [hc] at h2
  rcases Nat.lt_succ_iff_lt_or_eq.mp h2 with h3 | h3
  · exact h i h1 h3
  · rw [h3]; exact hf

theorem keeps_data {β : Type} (fails : Nat → Bool) (w0 : World) (s : Sql β)
    (hb : s.verb ≠ .begin) (hc : s.verb ≠ .commit) (hr : s.verb ≠ .rollback) :
    Keeps fails w0 (Prog.await (.query s)) := by
  intro w ⟨h1, h2, h3, h4⟩
  rw [Prog.run_await]
  simp only [perform]
  cases hf : fails w.clock
  · simp only [Bool.false_eq_true, if_false, KeepsPost]
    obtain ⟨f, hf'⟩ := Option.isSome_iff_exists.mp h2
    refine ⟨?_, ?_, ?_, clean_step fails _ w _ h4 hf ?_⟩
    · simp only [World.exec, hf']
      cases hv : s.verb <;> simp_all
    · simp only [World.exec, hf']
      cases hv : s.verb <;> simp_all
    · simp only [World.exec, hf']
      cases hv : s.verb <;> simp_all <;> omega
    · simp only [World.exec, hf']
  · simp only [if_true, KeepsPost]
    exact h1

theorem keeps_bind {α β : Type} {fails : Nat → Bool} {w0 : World} {m : Prog α}
    {f : α → Prog β} (hm : Keeps fails w0 m) (hf : ∀ a, Keeps fails w0 (f a)) :
    Keeps fails w0 (m >>= f) := by
  intro w hw
  have := hm w hw
  rw [Prog.run_bind]
  rcases h : Prog.run fails m w with ⟨r, w1⟩
  rw [h] at this
  cases r with
  | ok a => exact hf a w1 this
  | error e => exact this

theorem ends_bind {α β : Type} {fails : Nat → Bool} {w0 : World} {m : Prog α}
    {f : α → Prog β} (hm : Keeps fails w0 m) (hf : ∀ a, Ends fails w0 (f a)) :
    Ends fails w0 (m >>= f) := by
  intro w hw
  have := hm w hw
  rw [Prog.run_bind]
  rcases h : Prog.run fails m w with ⟨r, w1⟩
  rw [h] at this
  cases r with
  | ok a => exact hf a w1 this
  | error e => exact this

theorem keeps_pure {α : Type} (fails : Nat → Bool) (w0 : World) (a : α) :
    Keeps fails w0 (pure a : Prog α) := fun _ hw => hw

theorem ends_throw {α : Type} (fails : Nat → Bool) (w0 : World) (e : Err) :
    Ends fails w0 (Prog.throw e : Prog α) := fun _ hw => hw.1

/-- A rejection: `ROLLBACK`, then the answer. -/
theorem ends_rollback {α : Type} (fails : Nat → Bool) (w0 : World) (a : α) :
    Ends fails w0 (Prog.await (.query .rollback) >>= fun _ => (pure a : Prog α)) := by
  intro w ⟨h1, h2, h3, h4⟩
  rw [Prog.run_bind, Prog.run_await]
  simp only [perform]
  cases hf : fails w.clock
  · simp only [Bool.false_eq_true, if_false, Prog.run_pure, EndsPost]
    exact clean_step fails _ w _ h4 hf (by simp [World.exec, Sql.verb])
  · simp only [if_true, EndsPost]
    exact h1

/-- The trade record, `COMMIT`, the notification, the answer. -/
theorem ends_recordTrade (fails : Nat → Bool) (w0 : World) (u : UserId) (req : TradeRequest)
    (total : ℚ) (msg : String) : Ends fails w0 (recordTrade u req total msg) := by
  unfold recordTrade
  refine ends_bind (keeps_data fails w0 _ (by simp [Sql.verb]) (by simp [Sql.verb])
    (by simp [Sql.verb])) (fun trade => ?_)
  intro w ⟨h1, h2, h3, h4⟩
  rw [Prog.run_bind, Prog.run_await]
  simp only [perform]
  cases hf : fails w.clock
  · simp only [Bool.false_eq_true, if_false, Prog.run_bind, Prog.run_await, perform,
      Prog.run_pure, EndsPost]
    exact clean_step fails _ w _ h4 hf (by simp [World.exec, Sql.verb])
  · simp only [if_true, EndsPost]
    exact h1

theorem keeps_getOrCreatePortfolio (fails : Nat → Bool) (w0 : World) (u : UserId) :
    Keeps fails w0 (getOrCreatePortfolio u) := by
  unfold getOrCreatePortfolio
  refine keeps_bind (keeps_data fails w0 _ (by simp [Sql.verb]) (by simp [Sql.verb])
    (by simp [Sql.verb])) (fun rows => ?_)
  split
  · exact keeps_bind (keeps_data fails w0 _ (by simp [Sql.verb]) (by simp [Sql.verb])
      (by simp [Sql.verb])) (fun _ => keeps_data fails w0 _ (by simp [Sql.verb])
      (by simp [Sql.verb]) (by simp [Sql.verb]))
  · exact keeps_pure fails w0 rows

theorem ends_buyBranch (fails : Nat → Bool) (w0 : World) (u : UserId) (req : TradeRequest)
    (total bal : ℚ) (msg : String) : Ends fails w0 (buyBranch u req total bal msg) := by
  unfold buyBranch
  split
  · exact ends_rollback fails w0 _
  · refine ends_bind (keeps_data fails w0 _ (by simp [Sql.verb]) (by simp [Sql.verb])
      (by simp [Sql.verb])) (fun _ => ?_)
    refine ends_bind (keeps_data fails w0 _ (by simp [Sql.verb]) (by simp [Sql.verb])
      (by simp [Sql.verb])) (fun rows => ?_)
    cases rows.head? with
    | none =>
      exact ends_bind (keeps_data fails w0 _ (by simp [Sql.verb]) (by simp [Sql.verb])
        (by simp [Sql.verb])) (fun _ => ends_recordTrade fails w0 u req total msg)
    | some current =>
      exact ends_bind (keeps_data fails w0 _ (by simp [Sql.verb]) (by simp [Sql.verb])
        (by simp [Sql.verb])) (fun _ => ends_recordTrade fails w0 u req total msg)

theorem ends_sellBranch (fails : Nat → Bool) (w0 : World) (u : UserId) (req : TradeRequest)
    (total : ℚ) (msg : String) : Ends fails w0 (sellBranch u req total msg) := by
  unfold sellBranch
  refine ends_bind (keeps_data fails w0 _ (by simp [Sql.verb]) (by simp [Sql.verb])
    (by simp [Sql.verb])) (fun rows => ?_)
  cases rows.head? with
  | none => exact ends_rollback fails w0 _
  | some held =>
    by_cases hq : held.quantity < req.quantity
    · simp only [if_pos hq]
      exact ends_rollback fails w0 _
    · simp only [if_neg hq]
      refine ends_bind (keeps_data fails w0 _ (by simp [Sql.verb]) (by simp [Sql.verb])
        (by simp [Sql.verb])) (fun _ => ?_)
      by_cases hz : held.quantity - req.quantity ≤ 0
      · simp only [if_pos hz]
        exact ends_bind (keeps_data fails w0 _ (by simp [Sql.verb]) (by simp [Sql.verb])
          (by simp [Sql.verb])) (fun _ => ends_recordTrade fails w0 u req total msg)
      · simp only [if_neg hz]
        exact ends_bind (keeps_data fails w0 _ (by simp [Sql.verb]) (by simp [Sql.verb])
          (by simp [Sql.verb])) (fun _ => ends_recordTrade fails w0 u req total msg)

/-- The part of `tradeTransaction` after `BEGIN`. -/
theorem ends_afterBegin (fails : Nat → Bool) (w0 : World) (u : UserId) (req : TradeRequest)
    (total : ℚ) :
    Ends fails w0 (getOrCreatePortfolio u >>= fun portfolio =>
      match portfolio.head? with
      | none => Prog.throw .typeError
      | some row =>
        if req.side = "BUY" then
          buyBranch u req total row.balance "Trade executed successfully"
        else if req.side = "SELL" then sellBranch u req total "Trade executed successfully"
        else recordTrade u req total "Trade executed successfully") := by
  refine ends_bind (keeps_getOrCreatePortfolio fails w0 u) (fun rows => ?_)
  cases rows.head? with
  | none => exact ends_throw fails w0 _
  | some row =>
    simp only
    split
    · exact ends_buyBranch fails w0 u req total _ _
    · split
      · exact ends_sellBranch fails w0 u req total _
      · exact ends_recordTrade fails w0 u req total _

/-- The transaction of `POST /trade` from a client at rest whose connection
call has index `w0.clock`: it returns with no failed statement or raises with
nothing committed. -/
theorem tradeTransaction_ends (fails : Nat → Bool) (w0 w : World) (u : UserId)
    (req : TradeRequest) (total : ℚ)
    (h1 : w.committed = w0.committed) (h3 : w.clock = w0.clock + 1) :
    EndsPost fails w0 (Prog.run fails (tradeTransaction u req total) w) := by
  unfold tradeTransaction
  rw [Prog.run_bind, Prog.run_await]
  simp only [perform]
  cases hf : fails w.clock
  · simp only [Bool.false_eq_true, if_false]
    apply ends_afterBegin fails w0 u req total
    refine ⟨?_, ?_, ?_, ?_⟩
    · simp [World.exec, Sql.verb, h1]
    · simp [World.exec, Sql.verb]
    · simp only [World.exec, Sql.verb, h3]
      omega
    · intro i hi1 hi2
      have : (w.exec Sql.begin).clock = w.clock + 1 := by simp [World.exec, Sql.verb]
      rw [this, h3] at hi2
      have : i = w.clock := by omega
      rw [this]; exact hf
  · simp only [if_true, EndsPost]
    exact h1

/-- A successful statement adds its record to the log. -/
theorem exec_log {β : Type} (w : World) (s : Sql β) :
    (w.exec s).log = w.log ++ [.query s.verb true] := by
  simp only [World.exec]
  cases s.verb <;> simp only <;> cases w.txn <;> rfl

/-- Only `COMMIT` and statements outside a transaction change the committed
tables; `ROLLBACK` does not. -/
theorem exec_rollback_committed (w : World) : (w.exec Sql.rollback).committed = w.committed := by
  simp [World.exec, Sql.verb]

/-- A call only appends to the log. -/
theorem perform_log {β : Type} (fails : Nat → Bool) (a : Action β) (w : World) :
    ∃ t, (perform fails a w).2.log = w.log ++ t := by
  cases a with
  | connect => simp only [perform]; split <;> exact ⟨_, rfl⟩
  | query s =>
    simp only [perform]
    split
    · exact ⟨_, rfl⟩
    · exact ⟨_, exec_log w s⟩
  | poolQuery s => simp only [perform]; split <;> exact ⟨_, rfl⟩
  | release => exact ⟨_, rfl⟩
  | emitTradeExecuted u t => exact ⟨_, rfl⟩
  | sync f => exact ⟨[], by simp [perform]⟩

/-- A handler only appends to the log. -/
theorem run_log {α : Type} (fails : Nat → Bool) (m : Prog α) (w : World) :
    ∃ t, (Prog.run fails m w).2.log = w.log ++ t := by
  induction m generalizing w with
  | ret a => exact ⟨[], by simp [Prog.run]⟩
  | throw e => exact ⟨[], by simp [Prog.run]⟩
  | act a k ih =>
    obtain ⟨t1, h1⟩ := perform_log fails a w
    obtain ⟨t2, h2⟩ := ih (perform fails a w).1 (perform fails a w).2
    exact ⟨t1 ++ t2, by simp only [Prog.run]; rw [h2, h1, List.append_assoc]⟩

/-- C7. Atomicity: when a storage call of `POST /trade` issued after the client
was acquired (`BEGIN` or any later statement, in particular one between the
balance update and the trade insert) fails, the request ends with `ROLLBACK`
and `client.release()`, answers `Trade execution failed`, and the committed
tables are those before the request. -/
theorem C7_atomicity (fails : Nat → Bool) (u : UserId) (req : TradeRequest) (w : World)
    (hv : validTrade req = true) (hc : fails w.clock = false)
    (hf : ∃ i, w.clock < i ∧ i < (Prog.run fails (postTrade u req) w).2.clock ∧
      fails i = true) :
    (∃ e, (Prog.run fails (postTrade u req) w).1 =
        .ok (.failed "Trade execution failed" e)) ∧
      (Prog.run fails (postTrade u req) w).2.committed = w.committed ∧
      ∃ t ok, (Prog.run fails (postTrade u req) w).2.log =
        w.log ++ t ++ [.query .rollback ok, .release] := by
  have hend := tradeTransaction_ends fails w
    { w with clock := w.clock + 1, log := w.log ++ [.connect true] } u req
    (req.quantity * req.price) rfl rfl
  obtain ⟨t, ht⟩ := run_log fails (tradeTransaction u req (req.quantity * req.price))
    { w with clock := w.clock + 1, log := w.log ++ [.connect true] }
  revert hf
  unfold postTrade
  simp only [if_pos hv, Prog.run_tryCatch, Prog.run_bind, Prog.run_await, perform, hc,
    Bool.false_eq_true, if_false, Prog.run_tryFinally]
  rcases hrun : Prog.run fails (tradeTransaction u req (req.quantity * req.price))
    { w with clock := w.clock + 1, log := w.log ++ [.connect true] } with ⟨r, w2⟩
  rw [hrun] at hend ht
  cases r with
  | ok resp =>
    simp only [EndsPost] at hend
    simp only [Prog.run]
    rintro ⟨i, h1, h2, h3⟩
    rw [hend i h1 h2] at h3
    cases h3
  | error e =>
    simp only [EndsPost] at hend
    simp only at ht
    intro _
    cases hr : fails w2.clock
    · simp only [hr, Bool.false_eq_true, if_false, Prog.run_throw, Prog.run_pure]
      refine ⟨⟨e, rfl⟩, by rw [exec_rollback_committed, hend], ?_⟩
      exact ⟨.connect true :: t, true, by
        simp only [exec_log, ht, Sql.verb, List.append_assoc, List.cons_append,
          List.nil_append]⟩
    · simp only [hr, if_true, Prog.run_pure]
      refine ⟨⟨_, rfl⟩, hend, ?_⟩
      exact ⟨.connect true :: t, false, by
        simp only [ht, Sql.verb, List.append_assoc, List.cons_append, List.nil_append]⟩

theorem C7_atomicity_witness :
    (Prog.run (fun i => i == 7) (postTrade "alice" ⟨"BTCUSDT", "BUY", 1, 100000⟩)
      (World.idle Ledger.empty)).2.committed = Ledger.empty := by
  have hv : validTrade ⟨"BTCUSDT", "BUY", 1, 100000⟩ = true := by
    norm_num [validTrade]; decide
  have hclock : (Prog.run (fun i => i == 7) (postTrade "alice" ⟨"BTCUSDT", "BUY", 1, 100000⟩)
      (World.idle Ledger.empty)).2.clock = 9 := by
    simp [postTrade, hv, tradeTransaction, getOrCreatePortfolio, buyBranch, recordTrade,
      Prog.run_bind, Prog.run_await, Prog.run_tryCatch, Prog.run_tryFinally, perform,
      World.exec, World.view, World.idle, Ledger.empty, Sql.verb, Sql.rows, Sql.effect,
      Sql.drawsId, Ledger.portfolioRows, Ledger.positionRows]
  exact (C7_atomicity (fun i => i == 7) "alice" ⟨"BTCUSDT", "BUY", 1, 100000⟩
    (World.idle Ledger.empty) hv rfl ⟨7, by decide, by rw [hclock]; decide, rfl⟩).2.1

/-! ## Two requests at once -/

/-- C8. The lost balance check.  Two `POST /trade` BUYs of 60000 for the same
user with balance 100000 overlap: the first reads the balance, the second then
runs to its end, the first goes on.  Both are answered `201` and the committed
balance is -20000: the plain `SELECT` inside `BEGIN ... COMMIT` does not
serialise the two executions. -/
theorem C8_concurrent_buys_overdraw :
    (interleave noFailure readThenWait
        (⟨postTrade "alice" ⟨"BTCUSDT", "BUY", 1, 60000⟩, none⟩,
          ⟨postTrade "alice" ⟨"BTCUSDT", "BUY", 1, 60000⟩, none⟩,
          World.idle ⟨[⟨"alice", 100000⟩], [], []⟩)).1.answer =
        some (.executed "Trade executed successfully"
          ⟨2, "alice", "BTCUSDT", "BUY", 1, 60000, 60000⟩) ∧
      (interleave noFailure readThenWait
        (⟨postTrade "alice" ⟨"BTCUSDT", "BUY", 1, 60000⟩, none⟩,
          ⟨postTrade "alice" ⟨"BTCUSDT", "BUY", 1, 60000⟩, none⟩,
          World.idle ⟨[⟨"alice", 100000⟩], [], []⟩)).2.1.answer =
        some (.executed "Trade executed successfully"
          ⟨1, "alice", "BTCUSDT", "BUY", 1, 60000, 60000⟩) ∧
      (interleave noFailure readThenWait
        (⟨postTrade "alice" ⟨"BTCUSDT", "BUY", 1, 60000⟩, none⟩,
          ⟨postTrade "alice" ⟨"BTCUSDT", "BUY", 1, 60000⟩, none⟩,
          World.idle ⟨[⟨"alice", 100000⟩], [], []⟩)).2.2.committed.portfolios =
        [⟨"alice", -20000⟩] := by
  have hv : validTrade ⟨"BTCUSDT", "BUY", 1, 60000⟩ = true := by
    norm_num [validTrade]; decide
  simp [interleave, readThenWait, List.replicate, Session.step, Session.answer, postTrade, hv,
    tradeTransaction, getOrCreatePortfolio, buyBranch, recordTrade, Prog.tryCatch,
    Prog.tryFinally, Prog.await, Bind.bind, Prog.bind, Pure.pure, perform, noFailure,
    World.exec, World.view, World.idle, Sql.verb, Sql.rows, Sql.effect,
    Sql.drawsId, Ledger.portfolioRows, Ledger.positionRows]
  norm_num

/-! ## Position quantity is the net of the executions -/

/-- An update of the rows of `(u, s)` that keeps `user_id` and `symbol` selects
the updated rows. -/
theorem positionRows_update (f : PositionRow → PositionRow)
    (hf : ∀ r, (f r).user_id = r.user_id ∧ (f r).symbol = r.symbol)
    (u v : UserId) (s s' : Symbol) (l : List PositionRow) :
    (l.map (fun r => if r.user_id = u ∧ r.symbol = s then f r else r)).filter
        (fun r => r.user_id = v ∧ r.symbol = s') =
      (l.filter (fun r => r.user_id = v ∧ r.symbol = s')).map
        (fun r => if r.user_id = u ∧ r.symbol = s then f r else r) := by
  apply filter_map_of_keeps
  intro r
  split
  · rw [(hf r).1, (hf r).2]
  · rfl

/-- Rows of another user or symbol are not changed by an update of the rows of
`(u, s)`. -/
theorem positionRows_update_other (f : PositionRow → PositionRow) (u v : UserId)
    (s s' : Symbol) (l : List PositionRow) (hk : ¬ (v = u ∧ s' = s)) :
    (l.filter (fun r => r.user_id = v ∧ r.symbol = s')).map
        (fun r => if r.user_id = u ∧ r.symbol = s then f r else r) =
      l.filter (fun r => r.user_id = v ∧ r.symbol = s') := by
  conv_rhs => rw [← List.map_id (l.filter (fun r => r.user_id = v ∧ r.symbol = s'))]
  apply List.map_congr_left
  intro r hr
  have hr' := (List.mem_filter.mp hr).2
  simp only [decide_eq_true_eq] at hr'
  have : ¬ (r.user_id = u ∧ r.symbol = s) := by
    rintro ⟨h1, h2⟩; exact hk ⟨hr'.1 ▸ h1, hr'.2 ▸ h2⟩
  rw [if_neg this]; rfl

/-- Rows of another user or symbol are selected as before a delete of the rows
of `(u, s)`. -/
theorem positionRows_delete_other (u v : UserId) (s s' : Symbol)
    (l : List PositionRow) (hk : ¬ (v = u ∧ s' = s)) :
    (l.filter (fun r => ¬ (r.user_id = u ∧ r.symbol = s))).filter
        (fun r => r.user_id = v ∧ r.symbol = s') =
      l.filter (fun r => r.user_id = v ∧ r.symbol = s') := by
  rw [List.filter_filter]
  apply List.filter_congr
  intro a _
  by_cases ha : a.user_id = v ∧ a.symbol = s'
  · simp only [ha, and_self, decide_True, Bool.and_true, decide_not, Bool.not_eq_true',
      decide_eq_false_iff_not]
    simp only [Bool.true_and, Bool.not_eq_true', decide_eq_false_iff_not]
    exact hk
  · simp [ha]

/-- With one row per user and symbol, the rows read as the position are the row
read as `position.rows[0]`. -/
theorem positionRows_eq_of_one (L : Ledger) (u : UserId) (s : Symbol)
    (h : L.OnePositionPerKey) (r : PositionRow) (hp : L.position? u s = some r) :
    L.positionRows u s = [r] := by
  unfold Ledger.position? at hp
  have hl := h u s
  cases hrows : L.positionRows u s with
  | nil => rw [hrows] at hp; cases hp
  | cons a l =>
    rw [hrows] at hp hl
    cases l with
    | nil => simp only [List.head?_cons, Option.some.injEq] at hp; rw [hp]
    | cons b l => simp at hl

/-- The net quantity after one more trade record. -/
theorem netQuantity_append (L L1 : Ledger) (t : TradeRow) (v : UserId) (s' : Symbol)
    (hT : L1.trades = L.trades ++ [t]) :
    L1.netQuantity v s' =
      L.netQuantity v s' +
        if t.user_id = v ∧ t.symbol = s' then t.signedQuantity else 0 := by
  unfold Ledger.netQuantity
  simp only [hT, List.filter_append, List.map_append, List.sum_append]
  congr 1
  by_cases hk : t.user_id = v ∧ t.symbol = s'
  · simp [hk]
  · simp [hk]

/-- The held quantity is that of the only row selected. -/
theorem held_of_rows (L : Ledger) (v : UserId) (s' : Symbol) (r : PositionRow)
    (h : L.positionRows v s' = [r]) : L.held v s' = r.quantity := by
  simp only [Ledger.held, Ledger.position?, h, List.head?_cons]

/-- Nothing is held without a row. -/
theorem held_of_no_rows (L : Ledger) (v : UserId) (s' : Symbol)
    (h : L.positionRows v s' = []) : L.held v s' = 0 := by
  simp only [Ledger.held, Ledger.position?, h, List.head?_nil]

/-- The held quantity depends on the selected rows only. -/
theorem held_congr (L L1 : Ledger) (v : UserId) (s' : Symbol)
    (h : L1.positionRows v s' = L.positionRows v s') : L1.held v s' = L.held v s' := by
  simp only [Ledger.held, Ledger.position?, h]

/-- The trade records are untouched by the creation of the portfolio row. -/
theorem withPortfolio_trades (L : Ledger) (u : UserId) :
    (L.withPortfolio u).trades = L.trades := by
  unfold Ledger.withPortfolio
  split <;> rfl

/-- A BUY on an existing position appends its trade record. -/
theorem tradeOutcome_buy_more_trades (L : Ledger) (n : Nat) (u : UserId) (req : TradeRequest)
    (hv : validTrade req = true) (hs : req.side = "BUY")
    (hb : ¬ L.cashBalance u < req.quantity * req.price)
    (current : PositionRow) (hp : L.position? u req.symbol = some current) :
    (tradeOutcome L n u req).1 = .executed "Trade executed successfully"
        ⟨n, u, req.symbol, "BUY", req.quantity, req.price, req.quantity * req.price⟩ ∧
      (tradeOutcome L n u req).2.trades = L.trades ++
        [⟨n, u, req.symbol, "BUY", req.quantity, req.price, req.quantity * req.price⟩] := by
  rw [tradeOutcome_buy L n u req hv hs hb, hp]
  simp only [recordOutcome, Sql.effect, hs, withPortfolio_trades, and_self]

/-- What a request does to the positions and the trade records: nothing; or a
BUY opens a position; or a BUY adds to one; or a SELL takes from one. -/
theorem tradeOutcome_cases (L : Ledger) (n : Nat) (u : UserId) (req : TradeRequest) :
    (tradeOutcome L n u req).2 = L ∨
    (validTrade req = true ∧ L.position? u req.symbol = none ∧
      (tradeOutcome L n u req).2.positions =
        L.positions ++ [⟨u, req.symbol, req.quantity, req.price, req.price⟩] ∧
      (tradeOutcome L n u req).2.trades = L.trades ++
        [⟨n, u, req.symbol, "BUY", req.quantity, req.price, req.quantity * req.price⟩]) ∨
    (validTrade req = true ∧ ∃ current, L.position? u req.symbol = some current ∧
      (tradeOutcome L n u req).2.positions =
        L.positions.map (fun r =>
          if r.user_id = u ∧ r.symbol = req.symbol then
            { r with
              quantity := current.quantity + req.quantity
              avg_price := (current.quantity * current.avg_price + req.quantity * req.price) /
                (current.quantity + req.quantity)
              current_price := req.price }
          else r) ∧
      (tradeOutcome L n u req).2.trades = L.trades ++
        [⟨n, u, req.symbol, "BUY", req.quantity, req.price, req.quantity * req.price⟩]) ∨
    (validTrade req = true ∧ ∃ held, L.position? u req.symbol = some held ∧
      req.quantity ≤ held.quantity ∧
      (tradeOutcome L n u req).2.positions =
        (if held.quantity - req.quantity ≤ 0 then
          L.positions.filter (fun r => ¬ (r.user_id = u ∧ r.symbol = req.symbol))
        else
          L.positions.map (fun r =>
            if r.user_id = u ∧ r.symbol = req.symbol then
              { r with quantity := held.quantity - req.quantity, current_price := req.price }
            else r)) ∧
      (tradeOutcome L n u req).2.trades = L.trades ++
        [⟨n, u, req.symbol, "SELL", req.quantity, req.price, req.quantity * req.price⟩]) := by
  by_cases hv : validTrade req = true
  swap
  · left; simp only [tradeOutcome, if_neg hv]
  rcases validTrade_side req hv with hs | hs
  · by_cases hb : L.cashBalance u < req.quantity * req.price
    · left; rw [tradeOutcome_buy_reject L n u req hv hs hb]
    · cases hp : L.position? u req.symbol with
      | none =>
        right; left
        obtain ⟨-, -, h3, h4⟩ := tradeOutcome_buy_new L n u req hv hs hb hp
        exact ⟨hv, rfl, h3, h4⟩
      | some current =>
        right; right; left
        exact ⟨hv, current, rfl, (tradeOutcome_buy_more L n u req hv hs hb current hp).2,
          (tradeOutcome_buy_more_trades L n u req hv hs hb current hp).2⟩
  · cases hp : L.position? u req.symbol with
    | none => left; rw [tradeOutcome_sell_reject L n u req hv hs (Or.inl hp)]
    | some held =>
      by_cases hq : held.quantity < req.quantity
      · left
        rw [tradeOutcome_sell_reject L n u req hv hs
          (Or.inr (by simp only [Ledger.held, hp]; exact hq))]
      · right; right; right
        obtain ⟨-, -, h3, h4⟩ := tradeOutcome_sell_ok L n u req hv hs held hp hq
        exact ⟨hv, held, rfl, not_lt.mp hq, h3, h4⟩

/-- Every request keeps the stored quantities equal to the net of the trade
records, with one positive row per user and symbol. -/
theorem tradeOutcome_net (L : Ledger) (n : Nat) (u : UserId) (req : TradeRequest)
    (h : L.QuantitiesAreNet) : (tradeOutcome L n u req).2.QuantitiesAreNet := by
  obtain ⟨h1, h2, h3⟩ := h
  have hpos := tradeOutcome_quantities_pos L n u req h2
  rcases tradeOutcome_cases L n u req with hc | ⟨hv, hp, hX, hT⟩ | ⟨hv, cur, hp, hX, hT⟩ |
    ⟨hv, held, hp, hq, hX, hT⟩
  · rw [hc]; exact ⟨h1, h2, h3⟩
  · -- a BUY opens the position
    have hnil : L.positionRows u req.symbol = [] := filter_eq_nil_of_head? _ _ hp
    have hrows : ∀ v s', (tradeOutcome L n u req).2.positionRows v s' =
        L.positionRows v s' ++
          if u = v ∧ req.symbol = s' then [⟨u, req.symbol, req.quantity, req.price, req.price⟩]
          else [] := by
      intro v s'
      unfold Ledger.positionRows
      rw [hX, List.filter_append]
      congr 1
      by_cases hk : u = v ∧ req.symbol = s'
      · simp [hk]
      · simp only [if_neg hk]
        rw [List.filter_eq_nil_iff]
        intro a ha
        simp only [List.mem_singleton] at ha
        subst ha
        simpa using hk
    refine ⟨fun v s' => ?_, hpos, fun v s' => ?_⟩
    · rw [hrows]
      by_cases hk : u = v ∧ req.symbol = s'
      · obtain ⟨rfl, rfl⟩ := hk
        simp [hnil]
      · simp only [if_neg hk, List.append_nil]; exact h1 v s'
    · rw [netQuantity_append L _ _ v s' hT]
      by_cases hk : u = v ∧ req.symbol = s'
      · obtain ⟨rfl, rfl⟩ := hk
        have h0 := h3 u req.symbol
        rw [held_of_no_rows L _ _ hnil] at h0
        rw [held_of_rows _ _ _ ⟨u, req.symbol, req.quantity, req.price, req.price⟩
          (by rw [hrows, hnil]; simp), ← h0]
        simp [TradeRow.signedQuantity]
      · rw [held_congr L _ v s' (by rw [hrows, if_neg hk, List.append_nil]), h3 v s']
        simp [hk]
  · -- a BUY adds to the position
    have hone := positionRows_eq_of_one L u req.symbol h1 cur hp
    have hrows : ∀ v s', (tradeOutcome L n u req).2.positionRows v s' =
        (L.positionRows v s').map (fun r =>
          if r.user_id = u ∧ r.symbol = req.symbol then
            { r with
              quantity := cur.quantity + req.quantity
              avg_price := (cur.quantity * cur.avg_price + req.quantity * req.price) /
                (cur.quantity + req.quantity)
              current_price := req.price }
          else r) := by
      intro v s'
      unfold Ledger.positionRows
      rw [hX]
      exact positionRows_update (fun r => { r with
          quantity := cur.quantity + req.quantity
          avg_price := (cur.quantity * cur.avg_price + req.quantity * req.price) /
            (cur.quantity + req.quantity)
          current_price := req.price })
        (fun r => ⟨rfl, rfl⟩) u v req.symbol s' L.positions
    have hk0 : cur.user_id = u ∧ cur.symbol = req.symbol := by
      have := (mem_of_head?_filter _ _ _ hp).2
      simpa using this
    refine ⟨fun v s' => ?_, hpos, fun v s' => ?_⟩
    · rw [hrows, List.length_map]; exact h1 v s'
    · rw [netQuantity_append L _ _ v s' hT]
      by_cases hk : v = u ∧ s' = req.symbol
      · obtain ⟨rfl, rfl⟩ := hk
        have h0 := h3 v req.symbol
        rw [held_of_rows L _ _ _ hone] at h0
        rw [held_of_rows _ _ _
          { cur with
            quantity := cur.quantity + req.quantity
            avg_price := (cur.quantity * cur.avg_price + req.quantity * req.price) /
              (cur.quantity + req.quantity)
            current_price := req.price }
          (by rw [hrows, hone]; simp only [List.map_cons, if_pos hk0, List.map_nil]), ← h0]
        simp [TradeRow.signedQuantity]
      · have hk' : ¬ (u = v ∧ req.symbol = s') := fun h => hk ⟨h.1.symm, h.2.symm⟩
        rw [held_congr L _ v s' (by
          rw [hrows]
          exact positionRows_update_other (fun r => { r with
          quantity := cur.quantity + req.quantity
          avg_price := (cur.quantity * cur.avg_price + req.quantity * req.price) /
            (cur.quantity + req.quantity)
          current_price := req.price })
            u v req.symbol s' L.positions hk), h3 v s']
        simp [hk']
  · -- a SELL takes from the position
    have hone := positionRows_eq_of_one L u req.symbol h1 held hp
    have hk0 : held.user_id = u ∧ held.symbol = req.symbol := by
      have := (mem_of_head?_filter _ _ _ hp).2
      simpa using this
    have hheld := h3 u req.symbol
    rw [held_of_rows L _ _ _ hone] at hheld
    by_cases hz : held.quantity - req.quantity ≤ 0
    · rw [if_pos hz] at hX
      have hrows : ∀ v s', (tradeOutcome L n u req).2.positionRows v s' =
          (L.positions.filter (fun r => ¬ (r.user_id = u ∧ r.symbol = req.symbol))).filter
            (fun r => r.user_id = v ∧ r.symbol = s') := by
        intro v s'
        unfold Ledger.positionRows
        rw [hX]
      refine ⟨fun v s' => ?_, hpos, fun v s' => ?_⟩
      · by_cases hk : v = u ∧ s' = req.symbol
        · obtain ⟨rfl, rfl⟩ := hk
          rw [hrows, List.filter_filter]
          have : L.positions.filter (fun a =>
              (decide (a.user_id = v ∧ a.symbol = req.symbol) &&
                decide ¬ (a.user_id = v ∧ a.symbol = req.symbol))) = [] := by
            rw [List.filter_eq_nil_iff]; intro a _; simp
          rw [this]; simp
        · rw [hrows, positionRows_delete_other u v req.symbol s' L.positions hk]
          exact h1 v s'
      · rw [netQuantity_append L _ _ v s' hT]
        by_cases hk : v = u ∧ s' = req.symbol
        · obtain ⟨rfl, rfl⟩ := hk
          have hnil : (tradeOutcome L n v req).2.positionRows v req.symbol = [] := by
            rw [hrows, List.filter_filter, List.filter_eq_nil_iff]; intro a _; simp
          rw [held_of_no_rows _ _ _ hnil, ← h3 v req.symbol, held_of_rows L _ _ _ hone]
          simp [TradeRow.signedQuantity]
          linarith
        · have hk' : ¬ (u = v ∧ req.symbol = s') := fun h => hk ⟨h.1.symm, h.2.symm⟩
          rw [held_congr L _ v s' (by
            rw [hrows]
            exact positionRows_delete_other u v req.symbol s' L.positions hk), h3 v s']
          simp [hk']
    · rw [if_neg hz] at hX
      have hrows : ∀ v s', (tradeOutcome L n u req).2.positionRows v s' =
          (L.positionRows v s').map (fun r =>
            if r.user_id = u ∧ r.symbol = req.symbol then
              { r with quantity := held.quantity - req.quantity, current_price := req.price }
            else r) := by
        intro v s'
        unfold Ledger.positionRows
        rw [hX]
        exact positionRows_update (fun r => { r with
            quantity := held.quantity - req.quantity, current_price := req.price })
          (fun r => ⟨rfl, rfl⟩) u v req.symbol s' L.positions
      refine ⟨fun v s' => ?_, hpos, fun v s' => ?_⟩
      · rw [hrows, List.length_map]; exact h1 v s'
      · rw [netQuantity_append L _ _ v s' hT]
        by_cases hk : v = u ∧ s' = req.symbol
        · obtain ⟨rfl, rfl⟩ := hk
          rw [held_of_rows _ _ _
            { held with quantity := held.quantity - req.quantity, current_price := req.price }
            (by rw [hrows, hone]; simp only [List.map_cons, if_pos hk0, List.map_nil]),
            ← h3 v req.symbol, held_of_rows L _ _ _ hone]
          simp [TradeRow.signedQuantity]
          ring
        · have hk' : ¬ (u = v ∧ req.symbol = s') := fun h => hk ⟨h.1.symm, h.2.symm⟩
          rw [held_congr L _ v s' (by
            rw [hrows]
            exact positionRows_update_other (fun r => { r with
            quantity := held.quantity - req.quantity, current_price := req.price })
              u v req.symbol s' L.positions hk), h3 v s']
          simp [hk']

/-- In exact arithmetic the position quantity is the net of the executions: in every state reached
from the empty ledger by `POST /trade` requests, for every user and symbol the
held quantity equals the sum of the quantities of the user's BUY records for the
symbol minus that of the SELL records, and there is no position row exactly when
this net is zero. -/
theorem quantity_is_net_exact (reqs : List (UserId × TradeRequest)) (u : UserId) (s : Symbol) :
    (runTrades reqs (World.idle Ledger.empty)).committed.held u s =
        (runTrades reqs (World.idle Ledger.empty)).committed.netQuantity u s ∧
      ((runTrades reqs (World.idle Ledger.empty)).committed.positionRows u s = [] ↔
        (runTrades reqs (World.idle Ledger.empty)).committed.netQuantity u s = 0) := by
  obtain ⟨-, h1, h2, h3⟩ := runTrades_invariant Ledger.QuantitiesAreNet
    (fun L n u req h => tradeOutcome_net L n u req h) reqs (World.idle Ledger.empty) rfl
    ⟨fun _ _ => Nat.zero_le _, fun r hr => (by cases hr), fun _ _ => rfl⟩
  refine ⟨h3 u s, ?_⟩
  rw [← h3 u s]
  constructor
  · exact held_of_no_rows _ u s
  · intro h0
    cases hrows : (runTrades reqs (World.idle Ledger.empty)).committed.positionRows u s with
    | nil => rfl
    | cons r l =>
      exfalso
      have hr : r ∈ (runTrades reqs (World.idle Ledger.empty)).committed.positions := by
        have : r ∈ (runTrades reqs (World.idle Ledger.empty)).committed.positionRows u s := by
          rw [hrows]; exact List.mem_cons_self _ _
        exact (List.mem_filter.mp this).1
      have hq := h2 r hr
      simp only [Ledger.held, Ledger.position?, hrows, List.head?_cons] at h0
      linarith

/-! ## Validation -/

/-- A request that fails validation is answered `Invalid input` and makes no
call. -/
theorem postTrade_invalid (fails : Nat → Bool) (u : UserId) (req : TradeRequest) (w : World)
    (hv : validTrade req = false) :
    Prog.run fails (postTrade u req) w = (.ok .invalidInput, w) := by
  unfold postTrade
  rw [Prog.run_tryCatch]
  simp only [hv, Bool.false_eq_true, if_false, Prog.run_pure]

/-- C12. Validation of side, quantity and price: a `POST /trade` request whose
side is neither BUY nor SELL, or whose quantity is at most 0, or whose price is
at most 0, is answered `400 Invalid input`, whatever the storage does, and the
world is left as it was: no client is acquired, no statement is issued (the log
is unchanged) and the tables are unchanged. -/
theorem C12_invalid_order_rejected (fails : Nat → Bool) (u : UserId) (req : TradeRequest)
    (w : World)
    (h : (req.side ≠ "BUY" ∧ req.side ≠ "SELL") ∨ req.quantity ≤ 0 ∨ req.price ≤ 0) :
    Prog.run fails (postTrade u req) w = (.ok .invalidInput, w) ∧
      Response.invalidInput.status = 400 ∧
      Response.invalidInput.error = some "Invalid input" := by
  refine ⟨postTrade_invalid fails u req w ?_, rfl, rfl⟩
  cases hv : validTrade req with
  | false => rfl
  | true =>
    exfalso
    rcases h with ⟨h1, h2⟩ | h | h
    · rcases validTrade_side req hv with h3 | h3
      · exact h1 h3
      · exact h2 h3
    · exact absurd (validTrade_quantity_pos req hv) (not_lt.mpr h)
    · exact absurd (validTrade_price_pos req hv) (not_lt.mpr h)

theorem C12_invalid_order_rejected_witness :
    Prog.run noFailure (postTrade "alice" ⟨"BTCUSDT", "HOLD", 1, 100000⟩)
      (World.idle Ledger.empty) = (.ok .invalidInput, World.idle Ledger.empty) :=
  (C12_invalid_order_rejected noFailure "alice" ⟨"BTCUSDT", "HOLD", 1, 100000⟩
    (World.idle Ledger.empty) (Or.inl ⟨by decide, by decide⟩)).1

/-- C13, as stated, fails: a BUY of `ETHUSDT`, which is not the supported
instrument, passes the validation of `POST /trade` and is executed. -/
theorem C13_other_symbol_executed :
    (Prog.run noFailure (postTrade "alice" ⟨"ETHUSDT", "BUY", 1, 100⟩)
        (World.idle Ledger.empty)).1 =
      .ok (.executed "Trade executed successfully" ⟨1, "alice", "ETHUSDT", "BUY", 1, 100, 100⟩) ∧
    ("ETHUSDT" : String) ≠ "BTCUSDT" := by
  have hv : validTrade ⟨"ETHUSDT", "BUY", 1, 100⟩ = true := by
    norm_num [validTrade]; decide
  obtain ⟨w1, h1, -⟩ := postTrade_noFailure "alice" ⟨"ETHUSDT", "BUY", 1, 100⟩
    (World.idle Ledger.empty) rfl
  rw [h1]
  refine ⟨?_, by decide⟩
  have := (tradeOutcome_buy_new (World.idle Ledger.empty).committed 1 "alice"
    ⟨"ETHUSDT", "BUY", 1, 100⟩ hv rfl
    (by norm_num [World.idle, Ledger.empty, Ledger.cashBalance, Ledger.portfolioRows]) rfl).1
  simpa using this

/-- C13, amended. A `POST /trade` request whose symbol is not 1 to 10 uppercase
letters is answered `400 Invalid input` and reaches no storage: the world is
left as it was. -/
theorem C13_malformed_symbol_rejected (fails : Nat → Bool) (u : UserId) (req : TradeRequest)
    (w : World)
    (h : ¬ (1 ≤ req.symbol.length ∧ req.symbol.length ≤ 10 ∧
      req.symbol.toList.all Char.isUpper = true)) :
    Prog.run fails (postTrade u req) w = (.ok .invalidInput, w) := by
  apply postTrade_invalid
  cases hv : validTrade req with
  | false => rfl
  | true =>
    exfalso
    apply h
    simp only [validTrade, Bool.and_eq_true, decide_eq_true_eq] at hv
    exact ⟨hv.1.1.1.1.1, hv.1.1.1.1.2, hv.1.1.1.2⟩

theorem C13_malformed_symbol_rejected_witness :
    Prog.run noFailure (postTrade "alice" ⟨"btcusdt", "BUY", 1, 100000⟩)
      (World.idle Ledger.empty) = (.ok .invalidInput, World.idle Ledger.empty) :=
  C13_malformed_symbol_rejected noFailure "alice" ⟨"btcusdt", "BUY", 1, 100000⟩
    (World.idle Ledger.empty) (by decide)

/-! ## The trade log -/

/-- A call does not turn the clock back. -/
theorem perform_clock {β : Type} (fails : Nat → Bool) (a : Action β) (w : World) :
    w.clock ≤ (perform fails a w).2.clock := by
  cases a with
  | connect => simp only [perform]; split <;> simp
  | query s =>
    simp only [perform]
    split
    · simp
    · simp only [World.exec]
      cases s.verb <;> simp only <;> cases w.txn <;> simp
  | poolQuery s => simp only [perform]; split <;> simp
  | release => exact Nat.le_refl _
  | emitTradeExecuted u t => exact Nat.le_refl _
  | sync f => exact Nat.le_refl _

/-- A handler does not turn the clock back. -/
theorem run_clock {α : Type} (fails : Nat → Bool) (m : Prog α) (w : World) :
    w.clock ≤ (Prog.run fails m w).2.clock := by
  induction m generalizing w with
  | ret a => exact Nat.le_refl _
  | throw e => exact Nat.le_refl _
  | act a k ih =>
    simp only [Prog.run]
    exact Nat.le_trans (perform_clock fails a w) (ih _ _)

/-- A call whose index does not fail goes as without failures. -/
theorem perform_eq_noFailure {β : Type} (fails : Nat → Bool) (a : Action β) (w : World)
    (h : (perform fails a w).2.clock = w.clock ∨ fails w.clock = false) :
    perform fails a w = perform noFailure a w := by
  cases a with
  | connect =>
    simp only [perform, noFailure]
    cases hf : fails w.clock
    · rfl
    · rcases h with h | h
      · simp only [perform, hf, if_true] at h
        omega
      · rw [hf] at h; cases h
  | query s =>
    simp only [perform, noFailure]
    cases hf : fails w.clock
    · rfl
    · rcases h with h | h
      · simp only [perform, hf, if_true] at h
        omega
      · rw [hf] at h; cases h
  | poolQuery s =>
    simp only [perform, noFailure]
    cases hf : fails w.clock
    · rfl
    · rcases h with h | h
      · simp only [perform, hf, if_true] at h
        omega
      · rw [hf] at h; cases h
  | release => rfl
  | emitTradeExecuted u t => rfl
  | sync f => rfl

/-- A handler none of whose issued calls fails runs as without failures. -/
theorem run_eq_noFailure {α : Type} (fails : Nat → Bool) (m : Prog α) (w : World)
    (h : ∀ i, w.clock ≤ i → i < (Prog.run fails m w).2.clock → fails i = false) :
    Prog.run fails m w = Prog.run noFailure m w := by
  induction m generalizing w with
  | ret a => rfl
  | throw e => rfl
  | act a k ih =>
    simp only [Prog.run] at h ⊢
    have hp : perform fails a w = perform noFailure a w := by
      apply perform_eq_noFailure
      by_cases hc : (perform fails a w).2.clock = w.clock
      · exact Or.inl hc
      · right
        apply h w.clock (Nat.le_refl _)
        have h1 := perform_clock fails a w
        have h2 := run_clock fails (k (perform fails a w).1) (perform fails a w).2
        omega
    rw [← hp]
    apply ih
    intro i h1 h2
    exact h i (Nat.le_trans (perform_clock fails a w) h1) h2

/-- Either no call issued by `POST /trade` fails, or the request is answered
`Trade execution failed` and the committed tables are those before it. -/
theorem postTrade_clean_or_failed (fails : Nat → Bool) (u : UserId) (req : TradeRequest)
    (w : World) :
    (∀ i, w.clock ≤ i → i < (Prog.run fails (postTrade u req) w).2.clock → fails i = false) ∨
      ((∃ e, (Prog.run fails (postTrade u req) w).1 =
          .ok (.failed "Trade execution failed" e)) ∧
        (Prog.run fails (postTrade u req) w).2.committed = w.committed) := by
  cases hv : validTrade req with
  | false =>
    left
    rw [postTrade_invalid fails u req w hv]
    intro i h1 h2
    exact absurd h2 (not_lt.mpr h1)
  | true =>
    cases hc : fails w.clock with
    | true =>
      right
      unfold postTrade
      simp only [if_pos hv, Prog.run_tryCatch, Prog.run_bind, Prog.run_await, perform, hc,
        if_true, Prog.run_pure]
      simp
    | false =>
      have hend := tradeTransaction_ends fails w
        { w with clock := w.clock + 1, log := w.log ++ [.connect true] } u req
        (req.quantity * req.price) rfl rfl
      unfold postTrade
      simp only [if_pos hv, Prog.run_tryCatch, Prog.run_bind, Prog.run_await, perform, hc,
        Bool.false_eq_true, if_false, Prog.run_tryFinally]
      rcases hrun : Prog.run fails (tradeTransaction u req (req.quantity * req.price))
        { w with clock := w.clock + 1, log := w.log ++ [.connect true] } with ⟨r, w2⟩
      rw [hrun] at hend
      cases r with
      | ok resp =>
        left
        simp only [EndsPost] at hend
        simp only [Prog.run]
        intro i h1 h2
        rcases Nat.eq_or_lt_of_le h1 with h3 | h3
        · rw [← h3]; exact hc
        · exact hend i h3 h2
      | error e =>
        right
        simp only [EndsPost] at hend
        cases hr : fails w2.clock
        · simp only [hr, Bool.false_eq_true, if_false, Prog.run_throw, Prog.run_pure]
          exact ⟨⟨e, rfl⟩, by rw [exec_rollback_committed, hend]⟩
        · simp only [hr, if_true, Prog.run_pure]
          exact ⟨⟨_, rfl⟩, hend⟩

/-- The trade records after a request: one more, carrying the request, when
the answer is `executed`; the same otherwise. -/
theorem tradeOutcome_trades (L : Ledger) (n : Nat) (u : UserId) (req : TradeRequest) :
    ((tradeOutcome L n u req).1 = .executed "Trade executed successfully"
        ⟨n, u, req.symbol, req.side, req.quantity, req.price, req.quantity * req.price⟩ ∧
      (tradeOutcome L n u req).2.trades = L.trades ++
        [⟨n, u, req.symbol, req.side, req.quantity, req.price, req.quantity * req.price⟩]) ∨
    ((∀ msg trade, (tradeOutcome L n u req).1 ≠ .executed msg trade) ∧
      (tradeOutcome L n u req).2 = L) := by
  by_cases hv : validTrade req = true
  swap
  · right
    rw [show tradeOutcome L n u req = (.invalidInput, L) by simp only [tradeOutcome, if_neg hv]]
    exact ⟨fun _ _ h => (by cases h), rfl⟩
  rcases validTrade_side req hv with hs | hs
  · by_cases hb : L.cashBalance u < req.quantity * req.price
    · right; rw [tradeOutcome_buy_reject L n u req hv hs hb]
      exact ⟨fun _ _ h => (by cases h), rfl⟩
    · left
      cases hp : L.position? u req.symbol with
      | none =>
        obtain ⟨h1, -, -, h4⟩ := tradeOutcome_buy_new L n u req hv hs hb hp
        rw [hs]; exact ⟨h1, h4⟩
      | some current =>
        rw [hs]; exact tradeOutcome_buy_more_trades L n u req hv hs hb current hp
  · cases hp : L.position? u req.symbol with
    | none =>
      right; rw [tradeOutcome_sell_reject L n u req hv hs (Or.inl hp)]
      exact ⟨fun _ _ h => (by cases h), rfl⟩
    | some held =>
      by_cases hq : held.quantity < req.quantity
      · right
        rw [tradeOutcome_sell_reject L n u req hv hs
          (Or.inr (by simp only [Ledger.held, hp]; exact hq))]
        exact ⟨fun _ _ h => (by cases h), rfl⟩
      · left
        obtain ⟨h1, -, -, h4⟩ := tradeOutcome_sell_ok L n u req hv hs held hp hq
        rw [hs]; exact ⟨h1, h4⟩

/-- A valid BUY that the cash balance covers and a valid SELL that the position
covers are executed. -/
theorem tradeOutcome_executes (L : Ledger) (n : Nat) (u : UserId) (req : TradeRequest)
    (hv : validTrade req = true)
    (hc : (req.side = "BUY" ∧ req.quantity * req.price ≤ L.cashBalance u) ∨
      (req.side = "SELL" ∧ ∃ held, L.position? u req.symbol = some held ∧
        req.quantity ≤ held.quantity)) :
    (tradeOutcome L n u req).1 = .executed "Trade executed successfully"
      ⟨n, u, req.symbol, req.side, req.quantity, req.price, req.quantity * req.price⟩ := by
  rcases hc with ⟨hs, hb⟩ | ⟨hs, held, hp, hq⟩
  · rw [hs]
    cases hp : L.position? u req.symbol with
    | none => exact (tradeOutcome_buy_new L n u req hv hs (not_lt.mpr hb) hp).1
    | some current =>
      exact (tradeOutcome_buy_more_trades L n u req hv hs (not_lt.mpr hb) current hp).1
  · rw [hs]
    exact (tradeOutcome_sell_ok L n u req hv hs held hp (not_lt.mpr hq)).1

/-- C14. Append-only trade log.  Whatever storage calls fail, a `POST /trade`
answered `executed` has added exactly one trade record, carrying the request's
user, symbol, side, quantity and price and `total = quantity * price`, after
the records there were, which are unchanged; a request answered otherwise
(rejected or failed) leaves the trade records as they were.  And when no
storage call fails, a valid BUY that the cash balance covers and a valid SELL
that the position covers are answered `executed`, so that the record is
added. -/
theorem C14_append_only_log (fails : Nat → Bool) (u : UserId) (req : TradeRequest) (w : World)
    (hw : w.txn = none) :
    (∀ msg trade, (Prog.run fails (postTrade u req) w).1 = .ok (.executed msg trade) →
      trade = ⟨w.nextId, u, req.symbol, req.side, req.quantity, req.price,
        req.quantity * req.price⟩ ∧
      (Prog.run fails (postTrade u req) w).2.committed.trades =
        w.committed.trades ++ [trade]) ∧
    ((∀ msg trade, (Prog.run fails (postTrade u req) w).1 ≠ .ok (.executed msg trade)) →
      (Prog.run fails (postTrade u req) w).2.committed.trades = w.committed.trades) ∧
    ((∀ i, fails i = false) → validTrade req = true →
      ((req.side = "BUY" ∧ req.quantity * req.price ≤ w.committed.cashBalance u) ∨
        (req.side = "SELL" ∧ ∃ held, w.committed.position? u req.symbol = some held ∧
          req.quantity ≤ held.quantity)) →
      (Prog.run fails (postTrade u req) w).1 = .ok (.executed "Trade executed successfully"
        ⟨w.nextId, u, req.symbol, req.side, req.quantity, req.price,
          req.quantity * req.price⟩) ∧
      (Prog.run fails (postTrade u req) w).2.committed.trades = w.committed.trades ++
        [⟨w.nextId, u, req.symbol, req.side, req.quantity, req.price,
          req.quantity * req.price⟩]) := by
  have hAB : (∀ msg trade, (Prog.run fails (postTrade u req) w).1 = .ok (.executed msg trade) →
      trade = ⟨w.nextId, u, req.symbol, req.side, req.quantity, req.price,
        req.quantity * req.price⟩ ∧
      (Prog.run fails (postTrade u req) w).2.committed.trades =
        w.committed.trades ++ [trade]) ∧
    ((∀ msg trade, (Prog.run fails (postTrade u req) w).1 ≠ .ok (.executed msg trade)) →
      (Prog.run fails (postTrade u req) w).2.committed.trades = w.committed.trades) := by
    rcases postTrade_clean_or_failed fails u req w with hclean | ⟨⟨e, he⟩, hc⟩
    · rw [run_eq_noFailure fails _ w hclean]
      obtain ⟨w1, h1, hd, -, -⟩ := postTrade_noFailure u req w hw
      rw [h1, hd]
      rcases tradeOutcome_trades w.committed w.nextId u req with ⟨hr, ht⟩ | ⟨hr, ht⟩
      · refine ⟨fun msg trade h => ?_, fun h => ?_⟩
        · rw [hr] at h
          simp only [Except.ok.injEq, Response.executed.injEq] at h
          rw [← h.2]; exact ⟨rfl, ht⟩
        · exact absurd (by rw [hr]) (h _ _)
      · refine ⟨fun msg trade h => ?_, fun _ => by rw [ht]⟩
        simp only [Except.ok.injEq] at h
        exact absurd h (hr msg trade)
    · rw [he, hc]
      exact ⟨fun msg trade h => (by cases h), fun _ => rfl⟩
  refine ⟨hAB.1, hAB.2, fun hf hv hc => ?_⟩
  have hrun : (Prog.run fails (postTrade u req) w).1 =
      .ok (.executed "Trade executed successfully"
        ⟨w.nextId, u, req.symbol, req.side, req.quantity, req.price,
          req.quantity * req.price⟩) := by
    rw [run_eq_noFailure fails _ w (fun i _ _ => hf i)]
    obtain ⟨w1, h1, -⟩ := postTrade_noFailure u req w hw
    rw [h1, tradeOutcome_executes w.committed w.nextId u req hv hc]
  exact ⟨hrun, (hAB.1 _ _ hrun).2⟩

theorem C14_append_only_log_witness :
    (Prog.run noFailure (postTrade "alice" ⟨"BTCUSDT", "BUY", 1, 50000⟩)
      (World.idle ⟨[⟨"bob", 99995⟩], [⟨"bob", "BTCUSDT", 1, 5, 5⟩],
        [⟨1, "bob", "BTCUSDT", "BUY", 1, 5, 5⟩]⟩)).2.committed.trades =
      [⟨1, "bob", "BTCUSDT", "BUY", 1, 5, 5⟩,
        ⟨2, "alice", "BTCUSDT", "BUY", 1, 50000, 1 * 50000⟩] :=
  ((C14_append_only_log noFailure "alice" ⟨"BTCUSDT", "BUY", 1, 50000⟩
    (World.idle ⟨[⟨"bob", 99995⟩], [⟨"bob", "BTCUSDT", 1, 5, 5⟩],
      [⟨1, "bob", "BTCUSDT", "BUY", 1, 5, 5⟩]⟩) rfl).2.2 (fun _ => rfl)
    (by norm_num [validTrade]; decide)
    (Or.inl ⟨rfl, by
      have h : ¬ ("bob" = "alice") := by decide
      norm_num [World.idle, Ledger.cashBalance, Ledger.portfolioRows, h]⟩)).2

/-! ## Per-user ledger -/

theorem sameFor_refl (v : UserId) (L : Ledger) : Ledger.SameFor v L L := ⟨rfl, rfl, rfl⟩

theorem sameFor_trans {v : UserId} {L L1 L2 : Ledger} (h1 : Ledger.SameFor v L L1)
    (h2 : Ledger.SameFor v L1 L2) : Ledger.SameFor v L L2 :=
  ⟨h2.1.trans h1.1, h2.2.1.trans h1.2.1, h2.2.2.trans h1.2.2⟩

/-- An update that fixes the selected rows leaves the selection. -/
theorem filter_map_fix {α : Type} (p : α → Bool) (g : α → α) (hp : ∀ r, p (g r) = p r)
    (hfix : ∀ r, p r = true → g r = r) (l : List α) : (l.map g).filter p = l.filter p := by
  rw [filter_map_of_keeps p g hp]
  conv_rhs => rw [← List.map_id (l.filter p)]
  apply List.map_congr_left
  intro r hr
  exact hfix r (List.mem_filter.mp hr).2

/-- An inserted row that is not selected leaves the selection. -/
theorem filter_append_other {α : Type} (p : α → Bool) (a : α) (h : p a = false)
    (l : List α) : (l ++ [a]).filter p = l.filter p := by
  rw [List.filter_append]
  simp [h]

/-- A delete that keeps the selected rows leaves the selection. -/
theorem filter_filter_keep {α : Type} (p q : α → Bool) (h : ∀ r, p r = true → q r = true)
    (l : List α) : (l.filter q).filter p = l.filter p := by
  rw [List.filter_filter]
  apply List.filter_congr
  intro r _
  cases hp : p r
  · rfl
  · simp [h r hp]

/-- A statement issued for the user `u` leaves the rows of every other user. -/
theorem effect_sameFor {β : Type} (s : Sql β) (u v : UserId) (h : s.isFor u) (huv : v ≠ u)
    (n : Nat) (L : Ledger) : Ledger.SameFor v L (s.effect n L) := by
  have hne : ∀ w : UserId, w = u → ¬ w = v := fun w h1 h2 => huv (h2 ▸ h1)
  cases s <;> simp only [Sql.isFor] at h <;>
    first
    | exact sameFor_refl v L
    | (subst h
       refine ⟨?_, ?_, ?_⟩ <;>
         simp only [Sql.effect, Ledger.portfolioRows, Ledger.positionsOf, Ledger.tradesOf] <;>
         first
         | rfl
         | (apply filter_append_other; simpa using (hne _ rfl))
         | (apply filter_map_fix
            · intro r; split <;> rfl
            · intro r hr
              simp only [decide_eq_true_eq] at hr
              rw [if_neg]
              intro hc
              first
              | exact hne _ hc (hr)
              | exact hne _ hc.1 hr)
         | (apply filter_filter_keep
            intro r hr
            simp only [decide_eq_true_eq] at hr
            simp only [decide_not, Bool.not_eq_true', decide_eq_false_iff_not]
            intro hc
            first
            | exact hne _ hc hr
            | exact hne _ hc.1 hr))

theorem withPortfolio_sameFor (L : Ledger) (u v : UserId) (huv : v ≠ u) :
    Ledger.SameFor v L (L.withPortfolio u) := by
  unfold Ledger.withPortfolio
  split
  · exact effect_sameFor (.insertPortfolio u 100000) u v rfl huv 0 L
  · exact sameFor_refl v L

theorem recordOutcome_sameFor (L V : Ledger) (n : Nat) (u v : UserId) (req : TradeRequest)
    (total : ℚ) (msg : String) (huv : v ≠ u) (h : Ledger.SameFor v L V) :
    Ledger.SameFor v L (recordOutcome V n u req total msg).2 :=
  sameFor_trans h (effect_sameFor (.insertTrade u req.symbol req.side req.quantity req.price
    total) u v rfl huv n V)

theorem buyOutcome_sameFor (L V : Ledger) (n : Nat) (u v : UserId) (req : TradeRequest)
    (total bal : ℚ) (msg : String) (huv : v ≠ u) (h : Ledger.SameFor v L V) :
    Ledger.SameFor v L (buyOutcome L V n u req total bal msg).2 := by
  unfold buyOutcome
  split
  · exact sameFor_refl v L
  · have h1 := sameFor_trans h (effect_sameFor (.debitBalance total u) u v rfl huv n V)
    simp only
    split
    · exact recordOutcome_sameFor L _ n u v req total msg huv
        (sameFor_trans h1 (effect_sameFor (.updatePositionBuy _ _ _ u req.symbol) u v (by exact rfl) huv n _))
    · exact recordOutcome_sameFor L _ n u v req total msg huv
        (sameFor_trans h1 (effect_sameFor (.insertPosition u req.symbol _ _ _) u v (by exact rfl) huv n _))

theorem sellOutcome_sameFor (L V : Ledger) (n : Nat) (u v : UserId) (req : TradeRequest)
    (total : ℚ) (msg : String) (huv : v ≠ u) (h : Ledger.SameFor v L V) :
    Ledger.SameFor v L (sellOutcome L V n u req total msg).2 := by
  unfold sellOutcome
  split
  · exact sameFor_refl v L
  · split
    · exact sameFor_refl v L
    · have h1 := sameFor_trans h (effect_sameFor (.creditBalance total u) u v rfl huv n V)
      simp only
      split
      · exact recordOutcome_sameFor L _ n u v req total msg huv
          (sameFor_trans h1 (effect_sameFor (.deletePosition u req.symbol) u v rfl huv n _))
      · exact recordOutcome_sameFor L _ n u v req total msg huv
          (sameFor_trans h1 (effect_sameFor (.updatePositionSell _ _ u req.symbol) u v (by exact rfl) huv n _))

/-- A `POST /trade` of `u` leaves the rows of every other user. -/
theorem tradeOutcome_sameFor (L : Ledger) (n : Nat) (u v : UserId) (req : TradeRequest)
    (huv : v ≠ u) : Ledger.SameFor v L (tradeOutcome L n u req).2 := by
  unfold tradeOutcome
  split
  · simp only
    split
    · exact sameFor_refl v L
    · split
      · exact buyOutcome_sameFor L _ n u v req _ _ _ huv (withPortfolio_sameFor L u v huv)
      · split
        · exact sellOutcome_sameFor L _ n u v req _ _ huv (withPortfolio_sameFor L u v huv)
        · exact recordOutcome_sameFor L _ n u v req _ _ huv (withPortfolio_sameFor L u v huv)
  · exact sameFor_refl v L

theorem buyOrderOutcome_sameFor (L : Ledger) (n : Nat) (u v : UserId) (req : OrderRequest)
    (huv : v ≠ u) : Ledger.SameFor v L (buyOrderOutcome L n u req).2 := by
  unfold buyOrderOutcome
  split
  · split
    · exact sameFor_refl v L
    · exact buyOutcome_sameFor L _ n u v _ _ _ _ huv (withPortfolio_sameFor L u v huv)
  · exact sameFor_refl v L

theorem sellOrderOutcome_sameFor (L : Ledger) (n : Nat) (u v : UserId) (req : OrderRequest)
    (huv : v ≠ u) : Ledger.SameFor v L (sellOrderOutcome L n u req).2 := by
  unfold sellOrderOutcome
  split
  · exact sellOutcome_sameFor L _ n u v _ _ _ huv (sameFor_refl v L)
  · exact sameFor_refl v L

/-- Without storage failures `POST /buy` on the database answers and commits
what `buyOrderOutcome` says. -/
theorem postBuy_noFailure (env : Env) (u : UserId) (req : OrderRequest) (w : World)
    (he : env.mock = false) (h : w.txn = none) :
    Yields (postBuy env u req) w (buyOrderOutcome w.committed w.nextId u req).1
      (fun w1 => w1.Done (buyOrderOutcome w.committed w.nextId u req).2 w.globals) := by
  have hd : w.Done w.committed w.globals := ⟨rfl, rfl, h⟩
  unfold postBuy buyOrderOutcome
  apply yields_tryCatch
  by_cases hv : validOrder req = true
  · simp only [if_pos hv, he, Bool.false_eq_true, if_false]
    refine yields_bind (yields_connect hd) (fun w1 h1 => ?_)
    refine yields_tryFinally (yields_tryCatch ?_) (fun w2 h2 => yields_release h2)
    unfold buyTransaction
    refine yields_bind (yields_begin h1.1) (fun w2 h2 => ?_)
    refine yields_bind (yields_getOrCreatePortfolio u h2) (fun w3 h3 => ?_)
    cases hp : ((w.committed.withPortfolio u).portfolioRows u).head? with
    | none => exact absurd hp (withPortfolio_head _ u)
    | some row =>
      simp only
      rw [← h1.2]
      exact yields_buyBranch u _ _ _ _ h3
  · simp only [if_neg hv]
    exact yields_pure hd

/-- Without storage failures `POST /sell` on the database answers and commits
what `sellOrderOutcome` says. -/
theorem postSell_noFailure (env : Env) (u : UserId) (req : OrderRequest) (w : World)
    (he : env.mock = false) (h : w.txn = none) :
    Yields (postSell env u req) w (sellOrderOutcome w.committed w.nextId u req).1
      (fun w1 => w1.Done (sellOrderOutcome w.committed w.nextId u req).2 w.globals) := by
  have hd : w.Done w.committed w.globals := ⟨rfl, rfl, h⟩
  unfold postSell sellOrderOutcome
  apply yields_tryCatch
  by_cases hv : validOrder req = true
  · simp only [if_pos hv, he, Bool.false_eq_true, if_false]
    refine yields_bind (yields_connect hd) (fun w1 h1 => ?_)
    refine yields_tryFinally (yields_tryCatch ?_) (fun w2 h2 => yields_release h2)
    unfold sellTransaction
    refine yields_bind (yields_begin h1.1) (fun w2 h2 => ?_)
    rw [← h1.2]
    exact yields_sellBranch u _ _ _ h2
  · simp only [if_neg hv]
    exact yields_pure hd

/-- C15, as stated, fails in mock mode: after user `alice` buys, the trade
history that user `bob` reads is no longer the one he read before. -/
theorem C15_mock_store_is_shared :
    (Prog.run noFailure (getHistory ⟨some "development", none⟩ "bob" none none)
        (Prog.run noFailure (postBuy ⟨some "development", none⟩ "alice"
          ⟨"BTCUSDT", 1, 100000⟩) (World.idle Ledger.empty)).2).1 =
      .ok (.page [⟨0, "alice", "BTCUSDT", "BUY", 1, 100000, 100000⟩] 1 50 0) ∧
    (Prog.run noFailure (getHistory ⟨some "development", none⟩ "bob" none none)
        (World.idle Ledger.empty)).1 = .ok (.page [] 0 50 0) ∧
    HistoryResponse.page [⟨0, "alice", "BTCUSDT", "BUY", 1, 100000, 100000⟩] 1 50 0 ≠
      .page [] 0 50 0 := by
  have hv : validOrder ⟨"BTCUSDT", 1, 100000⟩ = true := by
    norm_num [validOrder]; decide
  have he : Env.mock ⟨some "development", none⟩ = true := by decide
  refine ⟨?_, ?_, by simp⟩
  · simp [getHistory, postBuy, hv, he, Prog.run_tryCatch, Prog.run_bind, Prog.run_await,
      perform, mockBuy, World.idle, orDefault, jsSlice]
  · simp [getHistory, he, Prog.run_tryCatch, Prog.run_bind, Prog.run_await,
      perform, World.idle, orDefault, jsSlice]

/-- C15, amended. Per-user ledger on the database: a `POST /trade` request of
user `u`, and a `POST /buy` or `POST /sell` request of `u` in the
database-backed branch, leave the portfolio rows, the position rows and the
trade records of every other user `v` as they were. -/
theorem C15_other_users_unchanged (env : Env) (u v : UserId) (req : TradeRequest)
    (order : OrderRequest) (w : World) (huv : v ≠ u) (hw : w.txn = none) :
    Ledger.SameFor v w.committed (Prog.run noFailure (postTrade u req) w).2.committed ∧
      (env.mock = false →
        Ledger.SameFor v w.committed
            (Prog.run noFailure (postBuy env u order) w).2.committed ∧
          Ledger.SameFor v w.committed
            (Prog.run noFailure (postSell env u order) w).2.committed) := by
  refine ⟨?_, fun he => ⟨?_, ?_⟩⟩
  · obtain ⟨w1, h1, hd, -, -⟩ := postTrade_noFailure u req w hw
    rw [h1, hd]
    exact tradeOutcome_sameFor _ _ u v req huv
  · obtain ⟨w1, h1, hd, -, -⟩ := postBuy_noFailure env u order w he hw
    rw [h1, hd]
    exact buyOrderOutcome_sameFor _ _ u v order huv
  · obtain ⟨w1, h1, hd, -, -⟩ := postSell_noFailure env u order w he hw
    rw [h1, hd]
    exact sellOrderOutcome_sameFor _ _ u v order huv

theorem C15_other_users_unchanged_witness :
    Ledger.SameFor "bob" (World.idle ⟨[⟨"bob", 5⟩], [], []⟩).committed
      (Prog.run noFailure (postTrade "alice" ⟨"BTCUSDT", "BUY", 1, 100000⟩)
        (World.idle ⟨[⟨"bob", 5⟩], [], []⟩)).2.committed :=
  (C15_other_users_unchanged ⟨none, some "db"⟩ "alice" "bob" ⟨"BTCUSDT", "BUY", 1, 100000⟩
    ⟨"BTCUSDT", 1, 100000⟩ (World.idle ⟨[⟨"bob", 5⟩], [], []⟩) (by decide) rfl).1

/-! ## Emission after commit only -/

theorem emitsOf_append (l1 l2 : List Event) : emitsOf (l1 ++ l2) = emitsOf l1 ++ emitsOf l2 := by
  simp only [emitsOf, List.filterMap_append]

/-- A call other than the notification emits nothing. -/
theorem perform_quiet {β : Type} (fails : Nat → Bool) (a : Action β) (w : World)
    (h : a.isEmit = false) :
    emitsOf (perform fails a w).2.log = emitsOf w.log := by
  cases a with
  | connect => simp only [perform]; split <;> simp [emitsOf_append, emitsOf]
  | query s =>
    simp only [perform]
    split
    · simp [emitsOf_append, emitsOf]
    · rw [exec_log]; simp [emitsOf_append, emitsOf]
  | poolQuery s => simp only [perform]; split <;> simp [emitsOf_append, emitsOf]
  | release => simp [perform, emitsOf_append, emitsOf]
  | emitTradeExecuted u t => cases h
  | sync f => rfl

theorem quiet_await {β : Type} (fails : Nat → Bool) (a : Action β)
    (h : a.isEmit = false) : Quiet fails (Prog.await a) := by
  intro w
  rw [Prog.run_await]
  exact perform_quiet fails a w h

theorem quiet_query {β : Type} (fails : Nat → Bool) (s : Sql β) :
    Quiet fails (Prog.await (.query s)) :=
  quiet_await fails _ rfl

theorem quiet_pure {α : Type} (fails : Nat → Bool) (a : α) : Quiet fails (pure a : Prog α) :=
  fun _ => rfl

theorem quiet_throw {α : Type} (fails : Nat → Bool) (e : Err) :
    Quiet fails (Prog.throw e : Prog α) := fun _ => rfl

theorem quiet_bind {α β : Type} {fails : Nat → Bool} {m : Prog α} {f : α → Prog β}
    (hm : Quiet fails m) (hf : ∀ a, Quiet fails (f a)) : Quiet fails (m >>= f) := by
  intro w
  rw [Prog.run_bind]
  have h1 := hm w
  rcases h : Prog.run fails m w with ⟨r, w1⟩
  rw [h] at h1
  cases r with
  | ok a => exact (hf a w1).trans h1
  | error e => exact h1

theorem quiet_getOrCreatePortfolio (fails : Nat → Bool) (u : UserId) :
    Quiet fails (getOrCreatePortfolio u) := by
  unfold getOrCreatePortfolio
  refine quiet_bind (quiet_query fails _) (fun rows => ?_)
  split
  · exact quiet_bind (quiet_query fails _) (fun _ => quiet_query fails _)
  · exact quiet_pure fails rows

/-- The trade record, `COMMIT`, then the notification. -/
theorem emits_recordTrade (fails : Nat → Bool) (E0 : List (UserId × TradeRow)) (u : UserId)
    (req : TradeRequest) (total : ℚ) (msg : String) :
    Emits fails E0 u (recordTrade u req total msg) := by
  intro w hw
  unfold recordTrade
  simp only [Prog.run_bind, Prog.run_await, perform]
  cases h1 : fails w.clock
  swap
  · simp only [if_true, EmitPost, emitsOf_append, hw]
    simp [emitsOf]
  simp only [Bool.false_eq_true, if_false]
  cases h2 : fails (w.exec (Sql.insertTrade u req.symbol req.side req.quantity req.price
      total)).clock
  swap
  · simp only [if_true, EmitPost, emitsOf_append, exec_log, hw]
    simp [emitsOf]
  simp only [Bool.false_eq_true, if_false, Prog.run_pure, EmitPost]
  left
  refine ⟨msg, _, w.log ++ [.query .insert true], rfl, ?_, ?_, ?_⟩
  · simp only [exec_log, List.append_assoc, List.singleton_append, Sql.verb]
    rfl
  · simp only [emitsOf_append, hw]
    simp [emitsOf]
  · simp only [World.exec, Sql.verb, World.view, Sql.drawsId]
    cases w.txn <;> simp [Sql.effect, Sql.rows]

/-- A rejection emits nothing. -/
theorem emits_rollback (fails : Nat → Bool) (E0 : List (UserId × TradeRow)) (u : UserId)
    (resp : Response) (hr : ∀ msg trade, resp ≠ .executed msg trade) :
    Emits fails E0 u (Prog.await (.query .rollback) >>= fun _ => pure resp) := by
  intro w hw
  have hq := quiet_query fails Sql.rollback w
  rw [Prog.run_bind]
  rcases h : Prog.run fails (Prog.await (Action.query Sql.rollback)) w with ⟨r, w1⟩
  rw [h] at hq
  cases r with
  | ok a => exact Or.inr ⟨hr, hq.trans hw⟩
  | error e => exact hq.trans hw

theorem emits_bind {α : Type} {fails : Nat → Bool} {E0 : List (UserId × TradeRow)}
    {u : UserId} {m : Prog α} {f : α → Prog Response} (hm : Quiet fails m)
    (hf : ∀ a, Emits fails E0 u (f a)) : Emits fails E0 u (m >>= f) := by
  intro w hw
  rw [Prog.run_bind]
  have h1 := hm w
  rcases h : Prog.run fails m w with ⟨r, w1⟩
  rw [h] at h1
  cases r with
  | ok a => exact hf a w1 (h1.trans hw)
  | error e => exact h1.trans hw

theorem emits_throw (fails : Nat → Bool) (E0 : List (UserId × TradeRow)) (u : UserId)
    (e : Err) : Emits fails E0 u (Prog.throw e) := fun _ hw => hw

theorem emits_buyBranch (fails : Nat → Bool) (E0 : List (UserId × TradeRow)) (u : UserId)
    (req : TradeRequest) (total bal : ℚ) (msg : String) :
    Emits fails E0 u (buyBranch u req total bal msg) := by
  unfold buyBranch
  split
  · exact emits_rollback fails E0 u _ (fun _ _ h => by cases h)
  · refine emits_bind (quiet_query fails _) (fun _ => ?_)
    refine emits_bind (quiet_query fails _) (fun rows => ?_)
    cases rows.head? with
    | none => exact emits_bind (quiet_query fails _) (fun _ => emits_recordTrade fails E0 u _ _ _)
    | some current =>
      exact emits_bind (quiet_query fails _) (fun _ => emits_recordTrade fails E0 u _ _ _)

theorem emits_sellBranch (fails : Nat → Bool) (E0 : List (UserId × TradeRow)) (u : UserId)
    (req : TradeRequest) (total : ℚ) (msg : String) :
    Emits fails E0 u (sellBranch u req total msg) := by
  unfold sellBranch
  refine emits_bind (quiet_query fails _) (fun rows => ?_)
  cases rows.head? with
  | none => exact emits_rollback fails E0 u _ (fun _ _ h => by cases h)
  | some held =>
    by_cases hq : held.quantity < req.quantity
    · simp only [if_pos hq]
      exact emits_rollback fails E0 u _ (fun _ _ h => by cases h)
    · simp only [if_neg hq]
      refine emits_bind (quiet_query fails _) (fun _ => ?_)
      by_cases hz : held.quantity - req.quantity ≤ 0
      · simp only [if_pos hz]
        exact emits_bind (quiet_query fails _) (fun _ => emits_recordTrade fails E0 u _ _ _)
      · simp only [if_neg hz]
        exact emits_bind (quiet_query fails _) (fun _ => emits_recordTrade fails E0 u _ _ _)

theorem emits_tradeTransaction (fails : Nat → Bool) (E0 : List (UserId × TradeRow))
    (u : UserId) (req : TradeRequest) (total : ℚ) :
    Emits fails E0 u (tradeTransaction u req total) := by
  unfold tradeTransaction
  refine emits_bind (quiet_query fails _) (fun _ => ?_)
  refine emits_bind (quiet_getOrCreatePortfolio fails u) (fun rows => ?_)
  cases rows.head? with
  | none => exact emits_throw fails E0 u _
  | some row =>
    simp only
    split
    · exact emits_buyBranch fails E0 u req total _ _
    · split
      · exact emits_sellBranch fails E0 u req total _
      · exact emits_recordTrade fails E0 u req total _

theorem emits_buyTransaction (fails : Nat → Bool) (E0 : List (UserId × TradeRow))
    (u : UserId) (req : OrderRequest) (total : ℚ) :
    Emits fails E0 u (buyTransaction u req total) := by
  unfold buyTransaction
  refine emits_bind (quiet_query fails _) (fun _ => ?_)
  refine emits_bind (quiet_getOrCreatePortfolio fails u) (fun rows => ?_)
  cases rows.head? with
  | none => exact emits_throw fails E0 u _
  | some row => exact emits_buyBranch fails E0 u _ total _ _

theorem emits_sellTransaction (fails : Nat → Bool) (E0 : List (UserId × TradeRow))
    (u : UserId) (req : OrderRequest) (total : ℚ) :
    Emits fails E0 u (sellTransaction u req total) := by
  unfold sellTransaction
  exact emits_bind (quiet_query fails _) (fun _ => emits_sellBranch fails E0 u _ total _)

/-- An event other than the notification adds no notification. -/
theorem emitsOf_snoc (l : List Event) (e : Event) (h : ∀ u t, e ≠ .tradeExecuted u t) :
    emitsOf (l ++ [e]) = emitsOf l := by
  rw [emitsOf_append]
  cases e with
  | tradeExecuted u t => exact absurd rfl (h u t)
  | connect ok => simp [emitsOf]
  | query v ok => simp [emitsOf]
  | release => simp [emitsOf]

/-- A transaction that notifies only after its `COMMIT`, run on an acquired
client with the `catch` and `finally` blocks of the trade routes. -/
theorem notified_withClient (fails : Nat → Bool) (u : UserId) (m : Prog Response) (w : World)
    (hm : Emits fails (emitsOf w.log) u m) :
    Notified (emitsOf w.log) u
      (Prog.run fails
        (Prog.await .connect >>= fun _ =>
          Prog.tryFinally
            (Prog.tryCatch m (fun error =>
              Prog.await (.query .rollback) >>= fun _ => Prog.throw error))
            (Prog.await .release)) w) := by
  rw [Prog.run_bind, Prog.run_await]
  simp only [perform]
  cases hc : fails w.clock
  swap
  · simp only [if_true, Notified]
    exact emitsOf_snoc _ _ (fun _ _ h => by cases h)
  simp only [Bool.false_eq_true, if_false, Prog.run_tryFinally, Prog.run_tryCatch,
    Prog.run_await, perform]
  have hb := hm { w with clock := w.clock + 1, log := w.log ++ [.connect true] }
    (emitsOf_snoc _ _ (fun _ _ h => by cases h))
  rcases hrun : Prog.run fails m
    { w with clock := w.clock + 1, log := w.log ++ [.connect true] } with ⟨r, w2⟩
  rw [hrun] at hb
  cases r with
  | ok resp =>
    simp only [EmitPost] at hb
    simp only [Notified]
    rcases hb with ⟨msg, trade, t, h1, h2, h3, h4⟩ | ⟨h1, h2⟩
    · left
      exact ⟨msg, trade, t, h1, by simp [h2], h3, h4⟩
    · right
      exact (emitsOf_snoc _ _ (fun _ _ h => by cases h)).trans h2
  | error e =>
    simp only [EmitPost] at hb
    simp only [Prog.run_bind, Prog.run_await, perform]
    cases hr : fails w2.clock
    · simp only [Bool.false_eq_true, if_false, Prog.run_throw, Notified, exec_log]
      rw [emitsOf_snoc _ _ (fun _ _ h => by cases h),
        emitsOf_snoc _ _ (fun _ _ h => by cases h)]
      exact hb
    · simp only [if_true, Notified]
      rw [emitsOf_snoc _ _ (fun _ _ h => by cases h),
        emitsOf_snoc _ _ (fun _ _ h => by cases h)]
      exact hb

/-- The outer `catch` of a trade route answers `500`, which emits nothing. -/
theorem notified_catch (fails : Nat → Bool) (E0 : List (UserId × TradeRow)) (u : UserId)
    (m : Prog Response) (txt : String) (w : World) (h : Notified E0 u (Prog.run fails m w)) :
    Notified E0 u
      (Prog.run fails (Prog.tryCatch m (fun error => pure (.failed txt error))) w) := by
  rw [Prog.run_tryCatch]
  rcases hrun : Prog.run fails m w with ⟨r, w1⟩
  rw [hrun] at h
  cases r with
  | ok resp => exact h
  | error e => exact Or.inr h

/-- C16. Emission after commit only.  Whatever storage calls fail, a request to
`POST /trade`, `POST /buy` or `POST /sell` either emits nothing, or is answered
`executed` with a trade that is a record of the committed trade table, its log
ending with the successful `COMMIT`, then the `trade-executed` notification of
that trade to the user, then `client.release()`, nothing else being emitted; so
a request answered otherwise (invalid, rejected, failed) emits nothing. -/
theorem C16_emit_after_commit (fails : Nat → Bool) (env : Env) (u : UserId)
    (req : TradeRequest) (order : OrderRequest) (w : World) :
    Notified (emitsOf w.log) u (Prog.run fails (postTrade u req) w) ∧
      Notified (emitsOf w.log) u (Prog.run fails (postBuy env u order) w) ∧
      Notified (emitsOf w.log) u (Prog.run fails (postSell env u order) w) ∧
      ∀ resp, (Prog.run fails (postTrade u req) w).1 = .ok resp →
        (∀ msg trade, resp ≠ .executed msg trade) →
        emitsOf (Prog.run fails (postTrade u req) w).2.log = emitsOf w.log := by
  have h1 : Notified (emitsOf w.log) u (Prog.run fails (postTrade u req) w) := by
    unfold postTrade
    apply notified_catch
    split
    · exact notified_withClient fails u _ w (emits_tradeTransaction fails _ u req _)
    · exact Or.inr rfl
  refine ⟨h1, ?_, ?_, ?_⟩
  · unfold postBuy
    apply notified_catch
    split
    · simp only
      split
      · rw [Prog.run_await]
        exact Or.inr rfl
      · exact notified_withClient fails u _ w (emits_buyTransaction fails _ u order _)
    · exact Or.inr rfl
  · unfold postSell
    apply notified_catch
    split
    · simp only
      split
      · rw [Prog.run_await]
        exact Or.inr rfl
      · exact notified_withClient fails u _ w (emits_sellTransaction fails _ u order _)
    · exact Or.inr rfl
  · intro resp hr hne
    rcases hrun : Prog.run fails (postTrade u req) w with ⟨r, w1⟩
    rw [hrun] at h1 hr
    simp only at hr
    subst hr
    rcases h1 with ⟨msg, trade, t, h2, -⟩ | h2
    · exact absurd h2 (hne msg trade)
    · exact h2

theorem C16_emit_after_commit_witness :
    emitsOf (Prog.run noFailure (postTrade "alice" ⟨"BTCUSDT", "BUY", 2, 100000⟩)
      (World.idle Ledger.empty)).2.log = [] := by
  have hv : validTrade ⟨"BTCUSDT", "BUY", 2, 100000⟩ = true := by
    norm_num [validTrade]; decide
  obtain ⟨w1, h1, -⟩ := postTrade_noFailure "alice" ⟨"BTCUSDT", "BUY", 2, 100000⟩
    (World.idle Ledger.empty) rfl
  rw [tradeOutcome_buy_reject _ _ _ _ hv rfl
    (by norm_num [World.idle, Ledger.empty, Ledger.cashBalance, Ledger.portfolioRows])] at h1
  exact (C16_emit_after_commit noFailure ⟨none, some "db"⟩ "alice"
    ⟨"BTCUSDT", "BUY", 2, 100000⟩ ⟨"BTCUSDT", 1, 1⟩ (World.idle Ledger.empty)).2.2.2 _
    (by rw [h1]) (fun _ _ h => by cases h)

/-! ## Reset -/

/-- `BEGIN` on an acquired client, then a script that ends the transaction. -/
theorem begin_then_ends {α : Type} (fails : Nat → Bool) (w0 w : World) (rest : Prog α)
    (h1 : w.committed = w0.committed) (h3 : w.clock = w0.clock + 1)
    (hrest : Ends fails w0 rest) :
    EndsPost fails w0 (Prog.run fails (Prog.await (.query .begin) >>= fun _ => rest) w) := by
  rw [Prog.run_bind, Prog.run_await]
  simp only [perform]
  cases hf : fails w.clock
  · simp only [Bool.false_eq_true, if_false]
    apply hrest
    refine ⟨?_, ?_, ?_, ?_⟩
    · simp [World.exec, Sql.verb, h1]
    · simp [World.exec, Sql.verb]
    · simp only [World.exec, Sql.verb, h3]
      omega
    · intro i hi1 hi2
      have : (w.exec Sql.begin).clock = w.clock + 1 := by simp [World.exec, Sql.verb]
      rw [this, h3] at hi2
      have : i = w.clock := by omega
      rw [this]; exact hf
  · simp only [if_true, EndsPost]
    exact h1

/-- `COMMIT`, then the answer. -/
theorem ends_commit {α : Type} (fails : Nat → Bool) (w0 : World) (a : α) :
    Ends fails w0 (Prog.await (.query .commit) >>= fun _ => (pure a : Prog α)) := by
  intro w ⟨h1, h2, h3, h4⟩
  rw [Prog.run_bind, Prog.run_await]
  simp only [perform]
  cases hf : fails w.clock
  · simp only [Bool.false_eq_true, if_false, Prog.run_pure, EndsPost]
    exact clean_step fails _ w _ h4 hf (by simp [World.exec, Sql.verb])
  · simp only [if_true, EndsPost]
    exact h1

/-- A transaction run on an acquired client with the `catch` and `finally`
blocks of the routes: either no issued call fails, or the answer is the `500`
of the outer `catch` and the committed tables are those before. -/
theorem withClient_clean_or_failed {α : Type} (fails : Nat → Bool) (m : Prog α)
    (onError : Err → α) (w : World)
    (hm : ∀ w1, w1.committed = w.committed → w1.clock = w.clock + 1 →
      EndsPost fails w (Prog.run fails m w1)) :
    (∀ i, w.clock ≤ i →
        i < (Prog.run fails (Prog.tryCatch
          (Prog.await .connect >>= fun _ =>
            Prog.tryFinally
              (Prog.tryCatch m (fun error =>
                Prog.await (.query .rollback) >>= fun _ => Prog.throw error))
              (Prog.await .release))
          (fun error => pure (onError error))) w).2.clock → fails i = false) ∨
      ((∃ e, (Prog.run fails (Prog.tryCatch
          (Prog.await .connect >>= fun _ =>
            Prog.tryFinally
              (Prog.tryCatch m (fun error =>
                Prog.await (.query .rollback) >>= fun _ => Prog.throw error))
              (Prog.await .release))
          (fun error => pure (onError error))) w).1 = .ok (onError e)) ∧
        (Prog.run fails (Prog.tryCatch
          (Prog.await .connect >>= fun _ =>
            Prog.tryFinally
              (Prog.tryCatch m (fun error =>
                Prog.await (.query .rollback) >>= fun _ => Prog.throw error))
              (Prog.await .release))
          (fun error => pure (onError error))) w).2.committed = w.committed) := by
  cases hc : fails w.clock with
  | true =>
    right
    simp only [Prog.run_tryCatch, Prog.run_bind, Prog.run_await, perform, hc,
      if_true, Prog.run_pure]
    simp
  | false =>
    have hend := hm { w with clock := w.clock + 1, log := w.log ++ [.connect true] } rfl rfl
    simp only [Prog.run_tryCatch, Prog.run_bind, Prog.run_await, perform, hc,
      Bool.false_eq_true, if_false, Prog.run_tryFinally]
    rcases hrun : Prog.run fails m
      { w with clock := w.clock + 1, log := w.log ++ [.connect true] } with ⟨r, w2⟩
    rw [hrun] at hend
    cases r with
    | ok resp =>
      left
      simp only [EndsPost] at hend
      simp only [Prog.run]
      intro i h1 h2
      rcases Nat.eq_or_lt_of_le h1 with h3 | h3
      · rw [← h3]; exact hc
      · exact hend i h3 h2
    | error e =>
      right
      simp only [EndsPost] at hend
      cases hr : fails w2.clock
      · simp only [hr, Bool.false_eq_true, if_false, Prog.run_throw, Prog.run_pure]
        exact ⟨⟨e, rfl⟩, by rw [exec_rollback_committed, hend]⟩
      · simp only [hr, if_true, Prog.run_pure]
        exact ⟨⟨_, rfl⟩, hend⟩

theorem resetTransaction_ends (fails : Nat → Bool) (w0 w : World) (u : UserId)
    (h1 : w.committed = w0.committed) (h3 : w.clock = w0.clock + 1) :
    EndsPost fails w0 (Prog.run fails (resetTransaction u) w) := by
  unfold resetTransaction
  apply begin_then_ends fails w0 w _ h1 h3
  refine ends_bind (keeps_data fails w0 _ (by simp [Sql.verb]) (by simp [Sql.verb])
    (by simp [Sql.verb])) (fun _ => ?_)
  refine ends_bind (keeps_data fails w0 _ (by simp [Sql.verb]) (by simp [Sql.verb])
    (by simp [Sql.verb])) (fun _ => ?_)
  refine ends_bind (keeps_data fails w0 _ (by simp [Sql.verb]) (by simp [Sql.verb])
    (by simp [Sql.verb])) (fun _ => ?_)
  exact ends_commit fails w0 _

/-- Without storage failures the reset answers `Portfolio reset successfully`
and commits `resetOutcome`. -/
theorem postReset_noFailure (u : UserId) (w : World) (h : w.txn = none) :
    Yields (postReset u) w (.reset "Portfolio reset successfully" 100000)
      (fun w1 => w1.Done (resetOutcome w.committed w.nextId u) w.globals) := by
  have hd : w.Done w.committed w.globals := ⟨rfl, rfl, h⟩
  unfold postReset resetOutcome
  apply yields_tryCatch
  refine yields_bind (yields_connect hd) (fun w1 h1 => ?_)
  refine yields_tryFinally (yields_tryCatch ?_) (fun w2 h2 => yields_release h2)
  unfold resetTransaction
  refine yields_bind (yields_begin h1.1) (fun w2 h2 => ?_)
  rw [h1.2] at h2
  refine yields_bind (yields_data (.deletePositions u) h2 (by simp [Sql.verb])
    (by simp [Sql.verb]) (by simp [Sql.verb]) rfl) (fun w3 h3 => ?_)
  refine yields_bind (yields_data (.deleteTrades u) h3 (by simp [Sql.verb])
    (by simp [Sql.verb]) (by simp [Sql.verb]) rfl) (fun w4 h4 => ?_)
  refine yields_bind (yields_data (.setBalance 100000 u) h4 (by simp [Sql.verb])
    (by simp [Sql.verb]) (by simp [Sql.verb]) rfl) (fun w5 h5 => ?_)
  exact yields_bind (yields_commit h5) (fun w6 h6 => yields_pure h6)

theorem resetOutcome_spec (L : Ledger) (n : Nat) (u : UserId) :
    (resetOutcome L n u).positionsOf u = [] ∧ (resetOutcome L n u).tradesOf u = [] ∧
      (∀ row ∈ (resetOutcome L n u).portfolioRows u, row.balance = 100000) ∧
      (resetOutcome L n u).portfolios.map (fun r => r.user_id) =
        L.portfolios.map (fun r => r.user_id) := by
  refine ⟨?_, ?_, ?_, ?_⟩
  · simp only [resetOutcome, Sql.effect, Ledger.positionsOf, List.filter_filter]
    simp
  · simp only [resetOutcome, Sql.effect, Ledger.tradesOf, List.filter_filter]
    simp
  · intro row hrow
    simp only [resetOutcome, Sql.effect, Ledger.portfolioRows, List.mem_filter,
      List.mem_map] at hrow
    obtain ⟨⟨r, -, hr⟩, hu⟩ := hrow
    by_cases h : r.user_id = u
    · rw [if_pos h] at hr
      rw [← hr]
    · rw [if_neg h] at hr
      rw [hr] at h
      exact absurd (of_decide_eq_true hu) h
  · simp only [resetOutcome, Sql.effect, List.map_map]
    apply List.map_congr_left
    intro r _
    simp only [Function.comp]
    split <;> rfl

theorem resetOutcome_sameFor (L : Ledger) (n : Nat) (u v : UserId) (huv : v ≠ u) :
    Ledger.SameFor v L (resetOutcome L n u) :=
  sameFor_trans (effect_sameFor (.deletePositions u) u v rfl huv n L)
    (sameFor_trans (effect_sameFor (.deleteTrades u) u v rfl huv n _)
      (effect_sameFor (.setBalance 100000 u) u v rfl huv n _))

/-- C18. Reset: whatever storage calls fail, `POST /api/portfolio/reset` for
the user `u` answers either `Portfolio reset successfully` or the `500`
`Failed to reset portfolio`.  After the first, `u` has no position rows and no
trade records, every portfolio row of `u` has balance 100000 (none is created
or removed), and the rows of every other user are the same; after the second
the committed tables are those before the request. -/
theorem C18_reset (fails : Nat → Bool) (u : UserId) (w : World) (hw : w.txn = none) :
    ((Prog.run fails (postReset u) w).1 = .ok (.reset "Portfolio reset successfully" 100000) ∧
      (Prog.run fails (postReset u) w).2.committed.positionsOf u = [] ∧
      (Prog.run fails (postReset u) w).2.committed.tradesOf u = [] ∧
      (∀ row ∈ (Prog.run fails (postReset u) w).2.committed.portfolioRows u,
        row.balance = 100000) ∧
      (Prog.run fails (postReset u) w).2.committed.portfolios.map (fun r => r.user_id) =
        w.committed.portfolios.map (fun r => r.user_id) ∧
      ∀ v, v ≠ u → Ledger.SameFor v w.committed (Prog.run fails (postReset u) w).2.committed) ∨
    ((∃ e, (Prog.run fails (postReset u) w).1 = .ok (.failed "Failed to reset portfolio" e)) ∧
      (Prog.run fails (postReset u) w).2.committed = w.committed) := by
  rcases withClient_clean_or_failed fails (resetTransaction u)
    (fun error => PortfolioResponse.failed "Failed to reset portfolio" error) w
    (fun w1 h1 h3 => resetTransaction_ends fails w w1 u h1 h3) with hclean | hfail
  · left
    have hrun : Prog.run fails (postReset u) w = Prog.run noFailure (postReset u) w :=
      run_eq_noFailure fails _ w hclean
    obtain ⟨w1, h1, hd, -, -⟩ := postReset_noFailure u w hw
    rw [hrun, h1]
    simp only
    rw [hd]
    obtain ⟨a, b, c, d⟩ := resetOutcome_spec w.committed w.nextId u
    exact ⟨trivial, a, b, c, d, fun v hv => resetOutcome_sameFor _ _ u v hv⟩
  · right
    exact hfail

theorem C18_reset_witness :
    (World.idle ⟨[⟨"alice", 40000⟩, ⟨"bob", 7⟩], [⟨"alice", "BTCUSDT", 1, 60000, 60000⟩],
        [⟨1, "alice", "BTCUSDT", "BUY", 1, 60000, 60000⟩]⟩).txn = none ∧
      (Prog.run noFailure (postReset "alice")
        (World.idle ⟨[⟨"alice", 40000⟩, ⟨"bob", 7⟩], [⟨"alice", "BTCUSDT", 1, 60000, 60000⟩],
          [⟨1, "alice", "BTCUSDT", "BUY", 1, 60000, 60000⟩]⟩)).2.committed.tradesOf "alice" =
        [] := by
  refine ⟨rfl, ?_⟩
  rcases C18_reset noFailure "alice"
    (World.idle ⟨[⟨"alice", 40000⟩, ⟨"bob", 7⟩], [⟨"alice", "BTCUSDT", 1, 60000, 60000⟩],
      [⟨1, "alice", "BTCUSDT", "BUY", 1, 60000, 60000⟩]⟩) rfl with h | ⟨⟨e, he⟩, -⟩
  · exact h.2.2.1
  · obtain ⟨w1, h1, -⟩ := postReset_noFailure "alice"
      (World.idle ⟨[⟨"alice", 40000⟩, ⟨"bob", 7⟩], [⟨"alice", "BTCUSDT", 1, 60000, 60000⟩],
        [⟨1, "alice", "BTCUSDT", "BUY", 1, 60000, 60000⟩]⟩) rfl
    rw [h1] at he
    cases he

/-! ## Portfolio summary -/

/-- The mock branch of the summary reads the globals and writes nothing. -/
theorem getPortfolio_mock (fails : Nat → Bool) (env : Env) (u : UserId) (w : World)
    (h : env.mock = true) :
    Prog.run fails (getPortfolio env u) w = (.ok (.summary (mockSummary w.globals)), w) := by
  unfold getPortfolio
  simp only [h, if_true, Prog.run_tryCatch, Prog.run_bind, Prog.run_await, perform,
    Prog.run_pure]

/-- Without storage failures the stored branch of the summary creates the
portfolio row if there is none and answers from the row and the positions. -/
theorem getPortfolio_stored (env : Env) (u : UserId) (w : World) (h : env.mock = false) :
    ∃ row, ((w.committed.withPortfolio u).portfolioRows u).head? = some row ∧
      (Prog.run noFailure (getPortfolio env u) w).1 =
        .ok (.summary (storedSummary u row (w.committed.positionsOf u))) ∧
      (Prog.run noFailure (getPortfolio env u) w).2.committed = w.committed.withPortfolio u ∧
      (Prog.run noFailure (getPortfolio env u) w).2.globals = w.globals := by
  cases hrow : ((w.committed.withPortfolio u).portfolioRows u).head? with
  | none => exact absurd hrow (withPortfolio_head _ _)
  | some row =>
    refine ⟨row, rfl, ?_⟩
    unfold getPortfolio
    simp only [h, Bool.false_eq_true, if_false, Prog.run_tryCatch, Prog.run_bind,
      Prog.run_await, perform, noFailure, Sql.rows]
    by_cases hl : (w.committed.portfolioRows u).length = 0
    · have hw : w.committed.withPortfolio u =
          (Sql.insertPortfolio u 100000).effect 0 w.committed := by
        simp only [Ledger.withPortfolio, if_pos hl]
      rw [hw] at hrow
      simp only [if_pos hl, Prog.run_bind, Prog.run_await, perform, Sql.rows, Sql.effect,
        noFailure, Bool.false_eq_true, if_false, Sql.drawsId] at hrow ⊢
      simp only [hrow, Prog.run_pure, Ledger.positionsOf, hw, Sql.effect, and_self]
    · have hw : w.committed.withPortfolio u = w.committed := by
        simp only [Ledger.withPortfolio, if_neg hl]
      rw [hw] at hrow
      simp only [if_neg hl, Prog.run_pure, Prog.run_bind, Prog.run_await, perform, Sql.rows,
        Sql.effect, noFailure, Bool.false_eq_true, if_false, Sql.drawsId, hrow, hw, and_self]

theorem withPortfolio_idem (L : Ledger) (u : UserId) :
    (L.withPortfolio u).withPortfolio u = L.withPortfolio u := by
  have h := withPortfolio_head L u
  have h0 : ¬ ((L.withPortfolio u).portfolioRows u).length = 0 := by
    intro h0
    apply h
    rw [List.length_eq_zero.mp h0]
    rfl
  generalize L.withPortfolio u = L1 at h0 ⊢
  unfold Ledger.withPortfolio
  rw [if_neg h0]

/-- C19, with time passing between the calls.  In the mock branch two calls of
the summary at different times, nothing else having changed, answer with
different `createdAt`. -/
theorem C19_mock_timestamps_differ :
    (Prog.run noFailure (getPortfolio ⟨some "development", none⟩ "alice")
        (World.idle Ledger.empty)).1 ≠
      (Prog.run noFailure (getPortfolio ⟨some "development", none⟩ "alice")
        ((Prog.run noFailure (getPortfolio ⟨some "development", none⟩ "alice")
          (World.idle Ledger.empty)).2.atTime 1)).1 := by
  have h : Env.mock ⟨some "development", none⟩ = true := by decide
  rw [getPortfolio_mock _ _ _ _ h, getPortfolio_mock _ _ _ _ h]
  simp [mockSummary, World.atTime, World.idle]

/-- C19, amended.  Without storage failures, for every ledger, price cache and
user, two calls of the summary with nothing but time between them both answer
with a summary, and the two summaries have the same balance,
totalPositionValue, totalValue, totalPnL, totalUnrealizedPnL and positionsCount.
In the stored branch they are equal altogether; in the mock branch `createdAt`
and `updatedAt` are the time of each call. -/
theorem C19_idempotent_read (env : Env) (u : UserId) (w : World) (t : Nat) :
    ∃ s1 s2, (Prog.run noFailure (getPortfolio env u) w).1 = .ok (.summary s1) ∧
      (Prog.run noFailure (getPortfolio env u)
        ((Prog.run noFailure (getPortfolio env u) w).2.atTime t)).1 = .ok (.summary s2) ∧
      s1.values = s2.values ∧
      (env.mock = false → s1 = s2) ∧
      (env.mock = true → s1.createdAt = .clock w.globals.now ∧ s1.updatedAt = s1.createdAt ∧
        s2.createdAt = .clock t ∧ s2.updatedAt = s2.createdAt) := by
  cases h : env.mock with
  | true =>
    rw [getPortfolio_mock _ _ _ _ h, getPortfolio_mock _ _ _ _ h]
    refine ⟨_, _, rfl, rfl, ?_, ?_, ?_⟩
    · simp [Summary.values, mockSummary, World.atTime, getCurrentBTCPrice, Globals.price]
    · intro h0
      cases h0
    · intro _
      exact ⟨rfl, rfl, rfl, rfl⟩
  | false =>
    obtain ⟨row, hrow, hrun, hc, hg⟩ := getPortfolio_stored env u w h
    obtain ⟨row2, hrow2, hrun2, -, -⟩ := getPortfolio_stored env u
      ((Prog.run noFailure (getPortfolio env u) w).2.atTime t) h
    have hc2 : ((Prog.run noFailure (getPortfolio env u) w).2.atTime t).committed =
        w.committed.withPortfolio u := hc
    rw [hc2, withPortfolio_idem, hrow] at hrow2
    cases hrow2
    rw [hc2] at hrun2
    refine ⟨_, _, hrun, hrun2, ?_, ?_, ?_⟩
    · simp only [Ledger.positionsOf, withPortfolio_positions]
    · intro _
      simp only [Ledger.positionsOf, withPortfolio_positions]
    · intro h0
      cases h0

/-! ## Trade history -/

theorem take_min_length {α : Type} (l : List α) (n : Nat) :
    List.take (min n l.length) l = List.take n l := by
  rcases Nat.le_total n l.length with h | h
  · rw [Nat.min_eq_left h]
  · rw [Nat.min_eq_right h, List.take_length, List.take_of_length_le h]

/-- `slice(offset, offset + limit)` for a non-negative offset and limit. -/
theorem jsSlice_page {α : Type} (l : List α) (o n : Nat) :
    jsSlice l (o : Int) ((o : Int) + (n : Int)) = (l.drop o).take n := by
  unfold jsSlice
  have h1 : ¬ ((o : Int) < 0) := by omega
  have h2 : ¬ ((o : Int) + (n : Int) < 0) := by omega
  simp only [if_neg h1, if_neg h2]
  by_cases h : o ≤ l.length
  · have e1 : (min (o : Int) (l.length : Int)).toNat = o := by omega
    rw [e1]
    have e2 : (min ((o : Int) + (n : Int)) (l.length : Int) - min (o : Int) (l.length : Int)).toNat
        = min n (l.length - o) := by omega
    rw [e2, ← List.length_drop, take_min_length]
  · have e1 : (min (o : Int) (l.length : Int)).toNat = l.length := by omega
    rw [e1, List.drop_length, List.drop_of_length_le (by omega)]
    simp

/-- The mock branch of the history answers from the shared mock store. -/
theorem getHistory_mock (fails : Nat → Bool) (env : Env) (u : UserId)
    (limitParam offsetParam : Option Int) (w : World) (h : env.mock = true) :
    Prog.run fails (getHistory env u limitParam offsetParam) w =
      (.ok (.page (jsSlice w.globals.mockPortfolio.trades (orDefault offsetParam 0)
          (orDefault offsetParam 0 + orDefault limitParam 50))
        w.globals.mockPortfolio.trades.length (orDefault limitParam 50)
        (orDefault offsetParam 0)), w) := by
  unfold getHistory
  simp only [h, if_true, Prog.run_tryCatch, Prog.run_bind, Prog.run_await, perform,
    Prog.run_pure]

theorem orDefault_pos (n : Nat) (fallback : Int) (h : 0 < n) :
    orDefault (some (n : Int)) fallback = n := by
  simp only [orDefault]
  rw [if_neg (by omega)]

theorem orDefault_offset (n : Nat) : orDefault (some (n : Int)) 0 = n := by
  simp only [orDefault]
  split
  · rename_i h
    exact h.symm
  · rfl

/-- C20 in the mock branch.  After alice buys, the first page of the history
of bob holds the trade of alice. -/
theorem C20_mock_history_is_shared :
    (Prog.run noFailure (getHistory ⟨some "development", none⟩ "bob" (some 10) (some 0))
        (Prog.run noFailure (postBuy ⟨some "development", none⟩ "alice" ⟨"BTCUSDT", 1, 50000⟩)
          (World.idle Ledger.empty)).2).1 =
      .ok (.page [⟨0, "alice", "BTCUSDT", "BUY", 1, 50000, 50000⟩] 1 10 0) := by
  have h : Env.mock ⟨some "development", none⟩ = true := by decide
  rw [getHistory_mock _ _ _ _ _ _ h]
  have hv : validOrder ⟨"BTCUSDT", 1, 50000⟩ = true := by
    norm_num [validOrder]; decide
  rw [postBuy_mock _ _ _ _ h, if_pos hv]
  norm_num [mockBuy, World.idle, jsSlice, orDefault]

/-- C20, amended.  Without storage failures, for every user, environment,
`limit > 0` and `offset >= 0`: in the stored branch `GET /history` answers the
slice `[offset, offset + limit)` of the user's trades sorted newest first (the
sorted list holds exactly the user's trades, in descending order of insertion),
with `total` the length of the page; in the mock branch it answers the same
slice of the mock trade list, which all users share, with `total` the length
of that list. -/
theorem C20_history_page (env : Env) (u : UserId) (limit offset : Nat) (w : World)
    (hl : 0 < limit) :
    (env.mock = false →
      (Prog.run noFailure (getHistory env u (some limit) (some offset)) w).1 =
        .ok (.page (((w.committed.newestFirst u).drop offset).take limit)
          (((w.committed.newestFirst u).drop offset).take limit).length limit offset) ∧
      (w.committed.newestFirst u).Sorted (fun a b => b.id ≤ a.id) ∧
      (w.committed.newestFirst u).Perm (w.committed.trades.filter (fun r => r.user_id = u))) ∧
    (env.mock = true →
      (Prog.run noFailure (getHistory env u (some limit) (some offset)) w).1 =
        .ok (.page ((w.globals.mockPortfolio.trades.drop offset).take limit)
          w.globals.mockPortfolio.trades.length limit offset)) := by
  constructor
  · intro h
    refine ⟨?_, List.sorted_insertionSort _ _, List.perm_insertionSort _ _⟩
    unfold getHistory
    rw [orDefault_pos limit 50 hl, orDefault_offset]
    have h1 : ¬ ((limit : Int) < 0 ∨ (offset : Int) < 0) := by omega
    simp only [h, Bool.false_eq_true, if_false, if_neg h1, Prog.run_tryCatch, Prog.run_bind,
      Prog.run_await, perform, noFailure, Prog.run_pure, Sql.rows, Int.toNat_ofNat]
  · intro h
    rw [getHistory_mock _ _ _ _ _ _ h, orDefault_pos limit 50 hl, orDefault_offset, jsSlice_page]

theorem C20_history_page_witness :
    (Prog.run noFailure (getHistory ⟨none, some "db"⟩ "alice" (some (2 : Nat)) (some (1 : Nat)))
        (World.idle ⟨[], [], [⟨1, "alice", "BTCUSDT", "BUY", 1, 5, 5⟩,
          ⟨2, "bob", "BTCUSDT", "BUY", 1, 5, 5⟩, ⟨3, "alice", "BTCUSDT", "SELL", 1, 6, 6⟩,
          ⟨4, "alice", "BTCUSDT", "BUY", 2, 7, 14⟩]⟩)).1 =
      .ok (.page [⟨3, "alice", "BTCUSDT", "SELL", 1, 6, 6⟩,
        ⟨1, "alice", "BTCUSDT", "BUY", 1, 5, 5⟩] 2 (2 : Nat) (1 : Nat)) := by
  have h := ((C20_history_page ⟨none, some "db"⟩ "alice" 2 1
    (World.idle ⟨[], [], [⟨1, "alice", "BTCUSDT", "BUY", 1, 5, 5⟩,
      ⟨2, "bob", "BTCUSDT", "BUY", 1, 5, 5⟩, ⟨3, "alice", "BTCUSDT", "SELL", 1, 6, 6⟩,
      ⟨4, "alice", "BTCUSDT", "BUY", 2, 7, 14⟩]⟩) (by decide)).1 (by decide)).1
  rw [h]
  simp [World.idle, Ledger.newestFirst, Ledger.tradesOf, List.insertionSort, List.orderedInsert]

/-! ## The relay: rooms -/

theorem requestHistoricalData_sockets (symbol : Symbol) (r : Relay) :
    (requestHistoricalData symbol r).sockets = r.sockets := by
  unfold requestHistoricalData
  split <;> rfl

theorem broadcastCandleToClients_sockets (parseFloat : String → JsNumber) (candle : RawCandle)
    (r : Relay) : (broadcastCandleToClients parseFloat candle r).sockets = r.sockets := by
  unfold broadcastCandleToClients
  split <;> rfl

theorem emitTradeExecuted_sockets (u : UserId) (t : TradeRow) (r : Relay) :
    (emitTradeExecuted u t r).sockets = r.sockets := by
  unfold emitTradeExecuted
  split <;> rfl

/-- A fold of steps that keep a property keeps it. -/
theorem foldl_keeps {α β : Type} (P : β → Prop) (f : β → α → β)
    (hf : ∀ b a, P b → P (f b a)) (l : List α) (b : β) (hb : P b) : P (l.foldl f b) := by
  induction l generalizing b with
  | nil => exact hb
  | cons a l ih => exact ih _ (hf b a hb)

theorem updateSocket_noUserRoom (r : Relay) (id : SocketId) (f : Socket → Socket)
    (hf : ∀ sk, (∀ u, Room.user u ∉ sk.rooms) → ∀ u, Room.user u ∉ (f sk).rooms)
    (h : r.NoUserRoom) : (r.updateSocket id f).NoUserRoom := by
  intro sk hsk u
  simp only [Relay.updateSocket, List.mem_map] at hsk
  obtain ⟨sk0, h0, rfl⟩ := hsk
  split
  · exact hf sk0 (h sk0 h0) u
  · exact h sk0 h0 u

theorem subscribeSymbol_noUserRoom (id : SocketId) (r : Relay) (symbol : Symbol)
    (h : r.NoUserRoom) : (subscribeSymbol id r symbol).NoUserRoom := by
  have h1 : (r.updateSocket id (fun sk => sk.join (.market symbol))).NoUserRoom := by
    apply updateSocket_noUserRoom r id _ _ h
    intro sk hsk u
    unfold Socket.join
    split
    · exact hsk u
    · simp only [List.mem_append, List.mem_singleton, not_or]
      exact ⟨hsk u, fun h0 => by cases h0⟩
  unfold subscribeSymbol
  simp only
  split
  · intro sk hsk
    rw [requestHistoricalData_sockets] at hsk
    exact h1 sk hsk
  · exact h1

theorem unsubscribeSymbol_noUserRoom (id : SocketId) (r : Relay) (symbol : Symbol)
    (h : r.NoUserRoom) : (unsubscribeSymbol id r symbol).NoUserRoom := by
  apply updateSocket_noUserRoom r id _ _ h
  intro sk hsk u hu
  simp only [Socket.leave, List.mem_filter] at hu
  exact hsk u hu.1

/-- No handler puts a socket in a `user:` room. -/
theorem step_noUserRoom (parseFloat : String → JsNumber) (r : Relay) (e : SocketEvent)
    (h : r.NoUserRoom) : (r.step parseFloat e).NoUserRoom := by
  cases e with
  | connection id owner =>
    simp only [Relay.step]
    split
    · exact h
    · intro sk hsk u
      simp only [List.mem_append, List.mem_singleton] at hsk
      rcases hsk with hsk | rfl
      · exact h sk hsk u
      · simp
  | subscribe id symbols =>
    simp only [Relay.step]
    split
    · exact foldl_keeps Relay.NoUserRoom _ (fun b a => subscribeSymbol_noUserRoom id b a) _ _ h
    · exact h
  | unsubscribe id symbols =>
    simp only [Relay.step]
    split
    · exact foldl_keeps Relay.NoUserRoom _ (fun b a => unsubscribeSymbol_noUserRoom id b a) _ _ h
    · exact h
  | disconnect id =>
    intro sk hsk u
    simp only [Relay.step, List.mem_filter] at hsk
    exact h sk hsk.1 u
  | upstreamConnect =>
    simp only [Relay.step]
    apply foldl_keeps Relay.NoUserRoom
    · intro b a hb sk hsk
      rw [requestHistoricalData_sockets] at hsk
      exact hb sk hsk
    · intro sk hsk
      rw [requestHistoricalData_sockets] at hsk
      exact h sk hsk
  | upstreamDisconnect => exact h
  | historicalDataResponse data =>
    cases data with
    | none => exact h
    | some candles =>
      simp only [Relay.step]
      apply foldl_keeps Relay.NoUserRoom _ _ _ _ h
      intro b a hb sk hsk
      rw [broadcastCandleToClients_sockets] at hsk
      exact hb sk hsk
  | candleUpdate candle =>
    intro sk hsk
    simp only [Relay.step, broadcastCandleToClients_sockets] at hsk
    exact h sk hsk
  | tradeExecuted u t =>
    intro sk hsk
    simp only [Relay.step, emitTradeExecuted_sockets] at hsk
    exact h sk hsk

theorem run_noUserRoom (parseFloat : String → JsNumber) (g : Globals)
    (events : List SocketEvent) : ((Relay.setup g).run parseFloat events).NoUserRoom := by
  unfold Relay.run
  apply foldl_keeps Relay.NoUserRoom _ (fun b a => step_noUserRoom parseFloat b a)
  intro sk hsk
  simp [Relay.setup] at hsk

/-- With no socket in a `user:` room, `emitTradeExecuted` reaches no socket. -/
theorem emitTradeExecuted_delivered (u : UserId) (t : TradeRow) (r : Relay)
    (h : r.NoUserRoom) : (emitTradeExecuted u t r).delivered = r.delivered := by
  unfold emitTradeExecuted
  split
  · simp only [Relay.emitTo]
    rw [List.filter_eq_nil_iff.mpr]
    · simp
    · intro sk hsk
      simpa using h sk hsk u
  · rfl

/-- C17.  After any sequence of events since `setupSocketHandlers`, the
`trade-executed` event of a trade of any user is delivered to no socket: no
handler joins a `user:` room.  For instance, after alice connects socket 1 and
subscribes to `BTCUSDT`, a tick reaches socket 1 and the confirmation of her
trade does not. -/
theorem C17_trade_confirmation_reaches_nobody :
    (∀ (parseFloat : String → JsNumber) (g : Globals) (events : List SocketEvent) (u : UserId)
        (t : TradeRow),
        (((Relay.setup g).run parseFloat events).step parseFloat (.tradeExecuted u t)).delivered =
          ((Relay.setup g).run parseFloat events).delivered) ∧
      ((Relay.setup ⟨⟨100000, 0, []⟩, [], 0⟩).run (fun _ => some 1)
        [.connection 1 "alice", .subscribe 1 ["BTCUSDT"],
          .candleUpdate ⟨0, "BTCUSDT", "1m", "1", "1", "1", "1", "1", true⟩,
          .tradeExecuted "alice" ⟨1, "alice", "BTCUSDT", "BUY", 1, 1, 1⟩]).delivered =
        [(1, .candle ⟨0, "BTCUSDT", "1m", some 1, some 1, some 1, some 1, some 1, true⟩)] := by
  constructor
  · intro parseFloat g events u t
    exact emitTradeExecuted_delivered u t _ (run_noUserRoom parseFloat g events)
  · decide

/-! ## `POST /buy` and `POST /sell` against `POST /trade` -/

/-- The wording of the `201` does not change what is committed. -/
theorem recordOutcome_message (V : Ledger) (n : Nat) (u : UserId) (req : TradeRequest)
    (total : ℚ) (m1 m2 : String) :
    (recordOutcome V n u req total m1).1.outcome = (recordOutcome V n u req total m2).1.outcome ∧
      (recordOutcome V n u req total m1).2 = (recordOutcome V n u req total m2).2 :=
  ⟨rfl, rfl⟩

theorem buyOutcome_message (L V : Ledger) (n : Nat) (u : UserId) (req : TradeRequest)
    (total balance : ℚ) (m1 m2 : String) :
    (buyOutcome L V n u req total balance m1).1.outcome =
        (buyOutcome L V n u req total balance m2).1.outcome ∧
      (buyOutcome L V n u req total balance m1).2 =
        (buyOutcome L V n u req total balance m2).2 := by
  unfold buyOutcome
  by_cases hb : balance < total
  · simp only [if_pos hb, and_self]
  · simp only [if_neg hb]
    cases ((Sql.debitBalance total u).effect n V).positionRows u req.symbol |>.head? with
    | none => exact recordOutcome_message _ _ _ _ _ _ _
    | some current => exact recordOutcome_message _ _ _ _ _ _ _

theorem sellOutcome_message (L V : Ledger) (n : Nat) (u : UserId) (req : TradeRequest)
    (total : ℚ) (m1 m2 : String) :
    (sellOutcome L V n u req total m1).1.outcome = (sellOutcome L V n u req total m2).1.outcome ∧
      (sellOutcome L V n u req total m1).2 = (sellOutcome L V n u req total m2).2 := by
  unfold sellOutcome
  cases (V.positionRows u req.symbol).head? with
  | none => exact ⟨rfl, rfl⟩
  | some held =>
    simp only
    by_cases hq : held.quantity < req.quantity
    · simp only [if_pos hq, and_self]
    · simp only [if_neg hq]
      by_cases h0 : held.quantity - req.quantity ≤ 0
      · simp only [if_pos h0]
        exact recordOutcome_message _ _ _ _ _ _ _
      · simp only [if_neg h0]
        exact recordOutcome_message _ _ _ _ _ _ _

/-- What `POST /trade` accepts, `POST /buy` and `POST /sell` accept. -/
theorem validOrder_of_validTrade (order : OrderRequest) (side : String)
    (hv : validTrade ⟨order.symbol, side, order.quantity, order.price⟩ = true) :
    validOrder order = true := by
  simp only [validTrade, Bool.and_eq_true, decide_eq_true_eq] at hv
  simp only [validOrder, Bool.and_eq_true, decide_eq_true_eq]
  exact ⟨⟨hv.1.1.1.1.1, hv.1.2⟩, hv.2⟩

/-- With a portfolio row the get-or-create step changes nothing. -/
theorem withPortfolio_of_rows (L : Ledger) (u : UserId) (h : L.portfolioRows u ≠ []) :
    L.withPortfolio u = L := by
  unfold Ledger.withPortfolio
  rw [if_neg]
  intro h0
  exact h (List.length_eq_zero.mp h0)

/-- `POST /buy` on the database computes what `POST /trade` computes for a BUY. -/
theorem buyOrderOutcome_eq (L : Ledger) (n : Nat) (u : UserId) (order : OrderRequest)
    (hv : validTrade ⟨order.symbol, "BUY", order.quantity, order.price⟩ = true) :
    (buyOrderOutcome L n u order).1.outcome =
        (tradeOutcome L n u ⟨order.symbol, "BUY", order.quantity, order.price⟩).1.outcome ∧
      (buyOrderOutcome L n u order).2 =
        (tradeOutcome L n u ⟨order.symbol, "BUY", order.quantity, order.price⟩).2 := by
  unfold buyOrderOutcome tradeOutcome
  simp only [if_pos hv, if_pos (validOrder_of_validTrade order "BUY" hv)]
  cases ((L.withPortfolio u).portfolioRows u).head? with
  | none => exact ⟨rfl, rfl⟩
  | some row =>
    simp only [if_true]
    exact buyOutcome_message _ _ _ _ _ _ _ _ _

/-- `POST /sell` on the database computes what `POST /trade` computes for a
SELL, when the positions on the tables belong to users with a portfolio row. -/
theorem sellOrderOutcome_eq (L : Ledger) (n : Nat) (u : UserId) (order : OrderRequest)
    (hv : validTrade ⟨order.symbol, "SELL", order.quantity, order.price⟩ = true)
    (hI : L.PositionsHavePortfolio) :
    (sellOrderOutcome L n u order).1.outcome =
        (tradeOutcome L n u ⟨order.symbol, "SELL", order.quantity, order.price⟩).1.outcome ∧
      (sellOrderOutcome L n u order).2 =
        (tradeOutcome L n u ⟨order.symbol, "SELL", order.quantity, order.price⟩).2 := by
  obtain ⟨row, hrow, -⟩ := withPortfolio_head_balance L u
  unfold sellOrderOutcome tradeOutcome
  have hside : ¬ ("SELL" = "BUY") := by decide
  simp only [if_pos hv, if_pos (validOrder_of_validTrade order "SELL" hv), hrow, if_true,
    if_neg hside]
  cases hp : (L.positionRows u order.symbol).head? with
  | none =>
    unfold sellOutcome
    simp only [withPortfolio_positionRows, hp, and_self]
  | some held =>
    have hmem := mem_of_head?_filter _ _ _ hp
    obtain ⟨p, hp1, hp2⟩ := hI held hmem.1
    have hu : held.user_id = u := by
      have := hmem.2
      simp only [decide_eq_true_eq] at this
      exact this.1
    have hne : L.portfolioRows u ≠ [] := by
      intro h0
      have : p ∈ L.portfolioRows u := by
        simp only [Ledger.portfolioRows, List.mem_filter, decide_eq_true_eq]
        exact ⟨hp1, hp2.trans hu⟩
      rw [h0] at this
      cases this
    rw [withPortfolio_of_rows L u hne]
    exact sellOutcome_message _ _ _ _ _ _ _ _

/-! ### Positions belong to users with a portfolio row -/

theorem positionsHavePortfolio_of (L L1 : Ledger) (h : L.PositionsHavePortfolio)
    (hport : ∀ p ∈ L.portfolios, ∃ p1 ∈ L1.portfolios, p1.user_id = p.user_id)
    (hpos : ∀ r ∈ L1.positions, (∃ r0 ∈ L.positions, r0.user_id = r.user_id) ∨
      ∃ p ∈ L1.portfolios, p.user_id = r.user_id) : L1.PositionsHavePortfolio := by
  intro r hr
  rcases hpos r hr with ⟨r0, h0, e0⟩ | hp
  · obtain ⟨p, hp, ep⟩ := h r0 h0
    obtain ⟨p1, hp1, e1⟩ := hport p hp
    exact ⟨p1, hp1, e1.trans (ep.trans e0)⟩
  · exact hp

/-- Each statement of the trade routes keeps the property; the `INSERT` of a
position needs the portfolio row of its user. -/
theorem effect_positionsHavePortfolio (n : Nat) (L : Ledger) (h : L.PositionsHavePortfolio)
    (t : ℚ) (u : UserId) (s : Symbol) (nq na p : ℚ) (side : String) :
    ((Sql.debitBalance t u).effect n L).PositionsHavePortfolio ∧
    ((Sql.creditBalance t u).effect n L).PositionsHavePortfolio ∧
    ((Sql.insertPortfolio u t).effect n L).PositionsHavePortfolio ∧
    ((Sql.updatePositionBuy nq na p u s).effect n L).PositionsHavePortfolio ∧
    ((Sql.updatePositionSell nq p u s).effect n L).PositionsHavePortfolio ∧
    ((Sql.deletePosition u s).effect n L).PositionsHavePortfolio ∧
    ((Sql.insertTrade u s side nq p t).effect n L).PositionsHavePortfolio ∧
    ((∃ row ∈ L.portfolios, row.user_id = u) →
      ((Sql.insertPosition u s nq na p).effect n L).PositionsHavePortfolio) := by
  refine ⟨?_, ?_, ?_, ?_, ?_, ?_, ?_, ?_⟩
  · refine positionsHavePortfolio_of L _ h (fun p hp => ?_) (fun r hr => Or.inl ⟨r, hr, rfl⟩)
    refine ⟨_, List.mem_map_of_mem _ hp, ?_⟩
    split <;> rfl
  · refine positionsHavePortfolio_of L _ h (fun p hp => ?_) (fun r hr => Or.inl ⟨r, hr, rfl⟩)
    refine ⟨_, List.mem_map_of_mem _ hp, ?_⟩
    split <;> rfl
  · refine positionsHavePortfolio_of L _ h (fun p hp => ?_) (fun r hr => Or.inl ⟨r, hr, rfl⟩)
    exact ⟨p, List.mem_append_left _ hp, rfl⟩
  · refine positionsHavePortfolio_of L _ h (fun p hp => ⟨p, hp, rfl⟩) (fun r hr => Or.inl ?_)
    simp only [Sql.effect, List.mem_map] at hr
    obtain ⟨r0, h0, rfl⟩ := hr
    refine ⟨r0, h0, ?_⟩
    split <;> rfl
  · refine positionsHavePortfolio_of L _ h (fun p hp => ⟨p, hp, rfl⟩) (fun r hr => Or.inl ?_)
    simp only [Sql.effect, List.mem_map] at hr
    obtain ⟨r0, h0, rfl⟩ := hr
    refine ⟨r0, h0, ?_⟩
    split <;> rfl
  · refine positionsHavePortfolio_of L _ h (fun p hp => ⟨p, hp, rfl⟩) (fun r hr => Or.inl ?_)
    simp only [Sql.effect, List.mem_filter] at hr
    exact ⟨r, hr.1, rfl⟩
  · exact positionsHavePortfolio_of L _ h (fun p hp => ⟨p, hp, rfl⟩)
      (fun r hr => Or.inl ⟨r, hr, rfl⟩)
  · intro hrow
    refine positionsHavePortfolio_of L _ h (fun p hp => ⟨p, hp, rfl⟩) (fun r hr => ?_)
    simp only [Sql.effect, List.mem_append, List.mem_singleton] at hr
    rcases hr with hr | rfl
    · exact Or.inl ⟨r, hr, rfl⟩
    · exact Or.inr hrow

theorem recordOutcome_positionsHavePortfolio (V : Ledger) (n : Nat) (u : UserId)
    (req : TradeRequest) (total : ℚ) (m : String) (h : V.PositionsHavePortfolio) :
    (recordOutcome V n u req total m).2.PositionsHavePortfolio :=
  (effect_positionsHavePortfolio n V h total u req.symbol req.quantity 0 req.price
    req.side).2.2.2.2.2.2.1

theorem buyOutcome_positionsHavePortfolio (L V : Ledger) (n : Nat) (u : UserId)
    (req : TradeRequest) (total balance : ℚ) (m : String) (hL : L.PositionsHavePortfolio)
    (hV : V.PositionsHavePortfolio) (hrow : ∃ row ∈ V.portfolios, row.user_id = u) :
    (buyOutcome L V n u req total balance m).2.PositionsHavePortfolio := by
  unfold buyOutcome
  by_cases hb : balance < total
  · simp only [if_pos hb]
    exact hL
  · simp only [if_neg hb]
    have h1 : ((Sql.debitBalance total u).effect n V).PositionsHavePortfolio :=
      (effect_positionsHavePortfolio n V hV total u req.symbol 0 0 0 "").1
    have hrow1 : ∃ row ∈ ((Sql.debitBalance total u).effect n V).portfolios,
        row.user_id = u := by
      obtain ⟨row, hr, hu⟩ := hrow
      refine ⟨_, List.mem_map_of_mem _ hr, ?_⟩
      simp only [hu, if_true]
    cases (((Sql.debitBalance total u).effect n V).positionRows u req.symbol).head? with
    | none =>
      exact recordOutcome_positionsHavePortfolio _ _ _ _ _ _
        ((effect_positionsHavePortfolio n _ h1 0 u req.symbol req.quantity req.price req.price
          "").2.2.2.2.2.2.2 hrow1)
    | some current =>
      exact recordOutcome_positionsHavePortfolio _ _ _ _ _ _
        (effect_positionsHavePortfolio n _ h1 0 u req.symbol (current.quantity + req.quantity)
          ((current.quantity * current.avg_price + total) / (current.quantity + req.quantity))
          req.price "").2.2.2.1

theorem sellOutcome_positionsHavePortfolio (L V : Ledger) (n : Nat) (u : UserId)
    (req : TradeRequest) (total : ℚ) (m : String) (hL : L.PositionsHavePortfolio)
    (hV : V.PositionsHavePortfolio) :
    (sellOutcome L V n u req total m).2.PositionsHavePortfolio := by
  unfold sellOutcome
  cases (V.positionRows u req.symbol).head? with
  | none => exact hL
  | some held =>
    simp only
    have h1 : ((Sql.creditBalance total u).effect n V).PositionsHavePortfolio :=
      (effect_positionsHavePortfolio n V hV total u req.symbol 0 0 0 "").2.1
    by_cases hq : held.quantity < req.quantity
    · simp only [if_pos hq]
      exact hL
    · simp only [if_neg hq]
      by_cases h0 : held.quantity - req.quantity ≤ 0
      · simp only [if_pos h0]
        exact recordOutcome_positionsHavePortfolio _ _ _ _ _ _
          (effect_positionsHavePortfolio n _ h1 0 u req.symbol 0 0 0 "").2.2.2.2.2.1
      · simp only [if_neg h0]
        exact recordOutcome_positionsHavePortfolio _ _ _ _ _ _
          (effect_positionsHavePortfolio n _ h1 0 u req.symbol (held.quantity - req.quantity) 0
            req.price "").2.2.2.2.1

theorem withPortfolio_positionsHavePortfolio (L : Ledger) (u : UserId)
    (h : L.PositionsHavePortfolio) : (L.withPortfolio u).PositionsHavePortfolio := by
  unfold Ledger.withPortfolio
  split
  · exact (effect_positionsHavePortfolio 0 L h 100000 u "" 0 0 0 "").2.2.1
  · exact h

theorem tradeOutcome_positionsHavePortfolio (L : Ledger) (n : Nat) (u : UserId)
    (req : TradeRequest) (h : L.PositionsHavePortfolio) :
    (tradeOutcome L n u req).2.PositionsHavePortfolio := by
  unfold tradeOutcome
  by_cases hv : validTrade req = true
  swap
  · simp only [if_neg hv]
    exact h
  simp only [if_pos hv]
  have hV := withPortfolio_positionsHavePortfolio L u h
  cases hrow : ((L.withPortfolio u).portfolioRows u).head? with
  | none => exact h
  | some row =>
    have hmem := mem_of_head?_filter _ _ _ hrow
    simp only
    by_cases hs : req.side = "BUY"
    · simp only [if_pos hs]
      exact buyOutcome_positionsHavePortfolio _ _ _ _ _ _ _ _ h hV
        ⟨row, hmem.1, of_decide_eq_true hmem.2⟩
    · simp only [if_neg hs]
      by_cases hs2 : req.side = "SELL"
      · simp only [if_pos hs2]
        exact sellOutcome_positionsHavePortfolio _ _ _ _ _ _ _ h hV
      · simp only [if_neg hs2]
        exact recordOutcome_positionsHavePortfolio _ _ _ _ _ _ hV

theorem buyOrderOutcome_positionsHavePortfolio (L : Ledger) (n : Nat) (u : UserId)
    (order : OrderRequest) (h : L.PositionsHavePortfolio) :
    (buyOrderOutcome L n u order).2.PositionsHavePortfolio := by
  unfold buyOrderOutcome
  by_cases hv : validOrder order = true
  swap
  · simp only [if_neg hv]
    exact h
  simp only [if_pos hv]
  cases hrow : ((L.withPortfolio u).portfolioRows u).head? with
  | none => exact h
  | some row =>
    have hmem := mem_of_head?_filter _ _ _ hrow
    exact buyOutcome_positionsHavePortfolio _ _ _ _ _ _ _ _ h
      (withPortfolio_positionsHavePortfolio L u h) ⟨row, hmem.1, of_decide_eq_true hmem.2⟩

theorem sellOrderOutcome_positionsHavePortfolio (L : Ledger) (n : Nat) (u : UserId)
    (order : OrderRequest) (h : L.PositionsHavePortfolio) :
    (sellOrderOutcome L n u order).2.PositionsHavePortfolio := by
  unfold sellOrderOutcome
  by_cases hv : validOrder order = true
  · simp only [if_pos hv]
    exact sellOutcome_positionsHavePortfolio _ _ _ _ _ _ _ h h
  · simp only [if_neg hv]
    exact h

/-- C21 in mock mode.  With `NODE_ENV=development`, `POST /buy` answers from
the mock store and writes no trade record, while `POST /trade` with side `BUY`
for the same order records the trade on the database. -/
theorem C21_mock_buy_skips_ledger :
    (Prog.run noFailure (postBuy ⟨some "development", some "db"⟩ "alice" ⟨"BTCUSDT", 1, 50000⟩)
        (World.idle Ledger.empty)).2.committed.trades.length = 0 ∧
      (Prog.run noFailure (postTrade "alice" ⟨"BTCUSDT", "BUY", 1, 50000⟩)
        (World.idle Ledger.empty)).2.committed.trades.length = 1 := by
  have hv : validOrder ⟨"BTCUSDT", 1, 50000⟩ = true := by
    norm_num [validOrder]; decide
  have ht : validTrade ⟨"BTCUSDT", "BUY", 1, 50000⟩ = true := by
    norm_num [validTrade]; decide
  have he : Env.mock ⟨some "development", some "db"⟩ = true := by decide
  constructor
  · simp [postBuy, hv, he, Prog.run_tryCatch, Prog.run_bind, Prog.run_await, perform,
      World.idle, Ledger.empty]
  · obtain ⟨w1, h1, hd, -, -⟩ := postTrade_noFailure "alice" ⟨"BTCUSDT", "BUY", 1, 50000⟩
      (World.idle Ledger.empty) rfl
    rw [h1]
    simp only
    rw [hd, (tradeOutcome_buy_new _ _ _ _ ht rfl
      (by norm_num [World.idle, Ledger.empty, Ledger.cashBalance, Ledger.portfolioRows])
      (by simp [World.idle, Ledger.empty, Ledger.position?, Ledger.positionRows])).2.2.2]
    simp [World.idle, Ledger.empty]

/-- C21, amended.  In the database-backed branch and without storage failures,
on tables where every position row belongs to a user with a portfolio row, for
every order that the validation of `POST /trade` accepts: `POST /buy` gives the
same answer, apart from the wording of the message, and commits the same tables
as `POST /trade` with side `BUY`, and `POST /sell` the same as `POST /trade`
with side `SELL`.  The three routes keep the property of the tables, which
holds on the empty ledger. -/
theorem C21_database_paths_agree (env : Env) (u : UserId) (order : OrderRequest) (w : World)
    (he : env.mock = false) (hw : w.txn = none)
    (hv : validTrade ⟨order.symbol, "BUY", order.quantity, order.price⟩ = true)
    (hI : w.committed.PositionsHavePortfolio) :
    (∃ a b, (Prog.run noFailure (postBuy env u order) w).1 = .ok a ∧
      (Prog.run noFailure
        (postTrade u ⟨order.symbol, "BUY", order.quantity, order.price⟩) w).1 = .ok b ∧
      a.outcome = b.outcome ∧
      (Prog.run noFailure (postBuy env u order) w).2.committed =
        (Prog.run noFailure
          (postTrade u ⟨order.symbol, "BUY", order.quantity, order.price⟩) w).2.committed) ∧
    (∃ a b, (Prog.run noFailure (postSell env u order) w).1 = .ok a ∧
      (Prog.run noFailure
        (postTrade u ⟨order.symbol, "SELL", order.quantity, order.price⟩) w).1 = .ok b ∧
      a.outcome = b.outcome ∧
      (Prog.run noFailure (postSell env u order) w).2.committed =
        (Prog.run noFailure
          (postTrade u ⟨order.symbol, "SELL", order.quantity, order.price⟩) w).2.committed) ∧
    (∀ v req, (Prog.run noFailure (postTrade v req) w).2.committed.PositionsHavePortfolio) ∧
    (∀ v o, (Prog.run noFailure (postBuy env v o) w).2.committed.PositionsHavePortfolio) ∧
    (∀ v o, (Prog.run noFailure (postSell env v o) w).2.committed.PositionsHavePortfolio) ∧
    Ledger.empty.PositionsHavePortfolio := by
  have hvs : validTrade ⟨order.symbol, "SELL", order.quantity, order.price⟩ = true := by
    simp only [validTrade, Bool.and_eq_true, decide_eq_true_eq, Bool.or_eq_true] at hv ⊢
    exact ⟨⟨⟨hv.1.1.1, Or.inr trivial⟩, hv.1.2⟩, hv.2⟩
  refine ⟨?_, ?_, ?_, ?_, ?_, ?_⟩
  · obtain ⟨w1, h1, hd1, -, -⟩ := postBuy_noFailure env u order w he hw
    obtain ⟨w2, h2, hd2, -, -⟩ := postTrade_noFailure u
      ⟨order.symbol, "BUY", order.quantity, order.price⟩ w hw
    obtain ⟨e1, e2⟩ := buyOrderOutcome_eq w.committed w.nextId u order hv
    refine ⟨_, _, by rw [h1], by rw [h2], e1, ?_⟩
    rw [h1, h2]
    simp only
    rw [hd1, hd2, e2]
  · obtain ⟨w1, h1, hd1, -, -⟩ := postSell_noFailure env u order w he hw
    obtain ⟨w2, h2, hd2, -, -⟩ := postTrade_noFailure u
      ⟨order.symbol, "SELL", order.quantity, order.price⟩ w hw
    obtain ⟨e1, e2⟩ := sellOrderOutcome_eq w.committed w.nextId u order hvs hI
    refine ⟨_, _, by rw [h1], by rw [h2], e1, ?_⟩
    rw [h1, h2]
    simp only
    rw [hd1, hd2, e2]
  · intro v req
    obtain ⟨w1, h1, hd1, -, -⟩ := postTrade_noFailure v req w hw
    rw [h1]
    simp only
    rw [hd1]
    exact tradeOutcome_positionsHavePortfolio _ _ _ _ hI
  · intro v o
    obtain ⟨w1, h1, hd1, -, -⟩ := postBuy_noFailure env v o w he hw
    rw [h1]
    simp only
    rw [hd1]
    exact buyOrderOutcome_positionsHavePortfolio _ _ _ _ hI
  · intro v o
    obtain ⟨w1, h1, hd1, -, -⟩ := postSell_noFailure env v o w he hw
    rw [h1]
    simp only
    rw [hd1]
    exact sellOrderOutcome_positionsHavePortfolio _ _ _ _ hI
  · intro r hr
    cases hr

theorem C21_database_paths_agree_witness :
    (Prog.run noFailure (postBuy ⟨none, some "db"⟩ "alice" ⟨"BTCUSDT", 1, 50000⟩)
        (World.idle Ledger.empty)).2.committed =
      (Prog.run noFailure (postTrade "alice" ⟨"BTCUSDT", "BUY", 1, 50000⟩)
        (World.idle Ledger.empty)).2.committed := by
  obtain ⟨a, b, -, -, -, h⟩ := (C21_database_paths_agree ⟨none, some "db"⟩ "alice"
    ⟨"BTCUSDT", 1, 50000⟩ (World.idle Ledger.empty) (by decide) rfl
    (by norm_num [validTrade]; decide) (by intro r hr; cases hr)).1
  exact h

/-! ## The relay: ticks -/

/-- The price cache after `global.currentMarketPrice[symbol] = value`. -/
theorem price_setPrice (g : Globals) (symbol : Symbol) (value : JsNumber) :
    (g.setPrice symbol value).price symbol = some value ∧
      ∀ s, s ≠ symbol → (g.setPrice symbol value).price s = g.price s := by
  constructor
  · simp [Globals.price, Globals.setPrice]
  · intro s hs
    have hs' : ¬ (symbol = s) := fun h => hs h.symm
    simp only [Globals.price, Globals.setPrice, List.find?_cons, decide_eq_true_eq, hs',
      decide_False]
    congr 1
    induction g.currentMarketPrice with
    | nil => rfl
    | cons e l ih =>
      simp only [List.filter_cons, List.find?_cons]
      by_cases he : e.1 = symbol
      · have hne : ¬ (e.1 = s) := fun h => hs (h.symm.trans he)
        have h1 : decide (¬ e.1 = symbol) = false := by simp [he]
        have h2 : decide (e.1 = s) = false := by simp [hne]
        rw [h1, h2]
        simp only [Bool.false_eq_true, if_false]
        exact ih
      · have h1 : decide (¬ e.1 = symbol) = true := by simp [he]
        rw [h1]
        simp only [if_true, List.find?_cons]
        cases decide (e.1 = s)
        · exact ih
        · rfl

/-- What an accepted tick does. -/
theorem broadcastCandleToClients_accepted (parseFloat : String → JsNumber) (candle : RawCandle)
    (r : Relay) (hio : r.io = true) (hs : candle.symbol ≠ "") :
    broadcastCandleToClients parseFloat candle r =
      { r with
        globals := r.globals.setPrice candle.symbol (parseFloat candle.close)
        delivered := r.delivered ++
          (r.sockets.filter (fun sk => Room.market candle.symbol ∈ sk.rooms)).map
            (fun sk => (sk.id, Message.candle (formatCandle parseFloat candle))) } := by
  unfold broadcastCandleToClients
  rw [if_pos ⟨hio, hs⟩]
  rfl

/-- C22. Tick normalisation and price cache: for every upstream candle with a
non-empty symbol, the candle sent on has the timestamp, symbol, interval and
is_closed of the input and the `parseFloat` of its open, high, low, close and
volume; the handler sets the cache entry of the symbol to the parsed close,
leaves the entry of every other symbol as it was, and sends that candle to the
sockets in the room of the symbol. -/
theorem C22_tick_normalisation (parseFloat : String → JsNumber) (candle : RawCandle)
    (r : Relay) (hio : r.io = true) (hs : candle.symbol ≠ "") :
    formatCandle parseFloat candle =
        ⟨candle.timestamp, candle.symbol, candle.interval, parseFloat candle.open_,
          parseFloat candle.high, parseFloat candle.low, parseFloat candle.close,
          parseFloat candle.volume, candle.is_closed⟩ ∧
      (r.step parseFloat (.candleUpdate candle)).globals.price candle.symbol =
        some (parseFloat candle.close) ∧
      (∀ s, s ≠ candle.symbol →
        (r.step parseFloat (.candleUpdate candle)).globals.price s = r.globals.price s) ∧
      (r.step parseFloat (.candleUpdate candle)).delivered = r.delivered ++
        (r.sockets.filter (fun sk => Room.market candle.symbol ∈ sk.rooms)).map
          (fun sk => (sk.id, Message.candle (formatCandle parseFloat candle))) := by
  simp only [Relay.step, broadcastCandleToClients_accepted parseFloat candle r hio hs]
  exact ⟨rfl, (price_setPrice _ _ _).1, (price_setPrice _ _ _).2, trivial⟩

theorem C22_tick_normalisation_witness :
    ((Relay.setup ⟨⟨100000, 0, []⟩, [("ETHUSDT", some 3)], 0⟩).step (fun _ => some 7)
        (.candleUpdate ⟨0, "BTCUSDT", "1m", "7", "7", "7", "7", "7", true⟩)).globals.price
        "BTCUSDT" = some (some 7) :=
  (C22_tick_normalisation (fun _ => some 7) ⟨0, "BTCUSDT", "1m", "7", "7", "7", "7", "7", true⟩
    (Relay.setup ⟨⟨100000, 0, []⟩, [("ETHUSDT", some 3)], 0⟩) rfl (by decide)).2.1

/-! ## The relay: subscriptions -/

theorem join_id (sk : Socket) (room : Room) : (sk.join room).id = sk.id := by
  unfold Socket.join
  split <;> rfl

theorem mem_join (sk : Socket) (room x : Room) :
    x ∈ (sk.join room).rooms ↔ x = room ∨ x ∈ sk.rooms := by
  unfold Socket.join
  split
  · rename_i h
    constructor
    · exact Or.inr
    · rintro (rfl | h1)
      · exact h
      · exact h1
  · simp only [List.mem_append, List.mem_singleton]
    exact Or.comm

theorem mem_leave (sk : Socket) (room x : Room) :
    x ∈ (sk.leave room).rooms ↔ x ≠ room ∧ x ∈ sk.rooms := by
  simp only [Socket.leave, List.mem_filter, decide_eq_true_eq, ne_eq]
  exact And.comm

theorem foldl_join_id (symbols : List Symbol) (sk : Socket) :
    (symbols.foldl (fun sk1 symbol => sk1.join (.market symbol)) sk).id = sk.id := by
  induction symbols generalizing sk with
  | nil => rfl
  | cons a l ih => rw [List.foldl_cons, ih, join_id]

theorem foldl_leave_id (symbols : List Symbol) (sk : Socket) :
    (symbols.foldl (fun sk1 symbol => sk1.leave (.market symbol)) sk).id = sk.id := by
  induction symbols generalizing sk with
  | nil => rfl
  | cons a l ih => rw [List.foldl_cons, ih]; rfl

theorem mem_foldl_join (symbols : List Symbol) (sk : Socket) (s : Symbol) :
    Room.market s ∈ (symbols.foldl (fun sk1 symbol => sk1.join (.market symbol)) sk).rooms ↔
      s ∈ symbols ∨ Room.market s ∈ sk.rooms := by
  induction symbols generalizing sk with
  | nil => simp
  | cons a l ih =>
    rw [List.foldl_cons, ih, mem_join, List.mem_cons]
    simp only [Room.market.injEq]
    tauto

theorem mem_foldl_leave (symbols : List Symbol) (sk : Socket) (s : Symbol) :
    Room.market s ∈ (symbols.foldl (fun sk1 symbol => sk1.leave (.market symbol)) sk).rooms ↔
      s ∉ symbols ∧ Room.market s ∈ sk.rooms := by
  induction symbols generalizing sk with
  | nil => simp
  | cons a l ih =>
    rw [List.foldl_cons, ih, mem_leave, List.mem_cons]
    simp only [ne_eq, Room.market.injEq]
    tauto

theorem subscribeSymbol_sockets (id : SocketId) (r : Relay) (symbol : Symbol) :
    (subscribeSymbol id r symbol).sockets =
      r.sockets.map (fun sk => if sk.id = id then sk.join (.market symbol) else sk) := by
  unfold subscribeSymbol
  simp only
  split
  · rw [requestHistoricalData_sockets]
    rfl
  · rfl

theorem foldl_subscribeSymbol_sockets (id : SocketId) (symbols : List Symbol) (r : Relay) :
    (symbols.foldl (subscribeSymbol id) r).sockets =
      r.sockets.map (fun sk =>
        if sk.id = id then symbols.foldl (fun sk1 symbol => sk1.join (.market symbol)) sk
        else sk) := by
  induction symbols generalizing r with
  | nil => simp
  | cons a l ih =>
    rw [List.foldl_cons, ih, subscribeSymbol_sockets, List.map_map]
    apply List.map_congr_left
    intro sk _
    simp only [Function.comp, List.foldl_cons]
    by_cases h : sk.id = id
    · simp only [if_pos h, join_id]
    · simp only [if_neg h]

theorem foldl_unsubscribeSymbol_sockets (id : SocketId) (symbols : List Symbol) (r : Relay) :
    (symbols.foldl (unsubscribeSymbol id) r).sockets =
      r.sockets.map (fun sk =>
        if sk.id = id then symbols.foldl (fun sk1 symbol => sk1.leave (.market symbol)) sk
        else sk) := by
  induction symbols generalizing r with
  | nil => simp
  | cons a l ih =>
    rw [List.foldl_cons, ih]
    simp only [unsubscribeSymbol, Relay.updateSocket, List.map_map]
    apply List.map_congr_left
    intro sk _
    simp only [Function.comp, List.foldl_cons]
    by_cases h : sk.id = id
    · have : (sk.leave (.market a)).id = id := h
      simp only [if_pos h, if_pos this]
    · simp only [if_neg h]

/-- A map that changes no socket of the list. -/
theorem map_sockets_of_not_connected (r : Relay) (i : SocketId) (f : Socket → Socket)
    (h : r.connected i = false) :
    r.sockets.map (fun sk => if sk.id = i then f sk else sk) = r.sockets := by
  conv_rhs => rw [← List.map_id r.sockets]
  apply List.map_congr_left
  intro sk hsk
  have : ¬ sk.id = i := by
    intro h0
    have : r.connected i = true := by
      simp only [Relay.connected, List.any_eq_true, decide_eq_true_eq]
      exact ⟨sk, hsk, h0⟩
    rw [h] at this
    cases this
  rw [if_neg this]
  rfl

/-- One event that is neither a connection nor a disconnect keeps the
connected sockets and their ids, and changes the membership of the room of a
symbol as `subscribedAfter` says. -/
theorem step_rooms (parseFloat : String → JsNumber) (r : Relay) (e : SocketEvent) (s : Symbol)
    (he : e.keepsSockets = true) :
    ∃ g : Socket → Socket, (r.step parseFloat e).sockets = r.sockets.map g ∧
      ∀ sk, (g sk).id = sk.id ∧
        decide (Room.market s ∈ (g sk).rooms) =
          subscribedAfter sk.id s (decide (Room.market s ∈ sk.rooms)) [e] := by
  cases e with
  | connection id owner => cases he
  | disconnect id => cases he
  | subscribe id symbols =>
    refine ⟨fun sk => if sk.id = id then
      symbols.foldl (fun sk1 symbol => sk1.join (.market symbol)) sk else sk, ?_, ?_⟩
    · simp only [Relay.step]
      cases hc : r.connected id
      · simp only [Bool.false_eq_true, if_false]
        exact (map_sockets_of_not_connected r id _ hc).symm
      · simp only [if_true]
        exact foldl_subscribeSymbol_sockets id symbols r
    · intro sk
      by_cases h : sk.id = id
      · simp only [if_pos h]
        refine ⟨foldl_join_id _ _, ?_⟩
        have hm := mem_foldl_join symbols sk s
        simp only [subscribedAfter]
        by_cases hs : s ∈ symbols
        · rw [if_pos ⟨h.symm, hs⟩]
          simp [hm, hs]
        · rw [if_neg (fun h0 => hs h0.2)]
          simp [hm, hs]
      · have h2 : ¬ (id = sk.id) := fun h0 => h h0.symm
        simp only [if_neg h, subscribedAfter, h2, false_and, if_false, and_self]
  | unsubscribe id symbols =>
    refine ⟨fun sk => if sk.id = id then
      symbols.foldl (fun sk1 symbol => sk1.leave (.market symbol)) sk else sk, ?_, ?_⟩
    · simp only [Relay.step]
      cases hc : r.connected id
      · simp only [Bool.false_eq_true, if_false]
        exact (map_sockets_of_not_connected r id _ hc).symm
      · simp only [if_true]
        exact foldl_unsubscribeSymbol_sockets id symbols r
    · intro sk
      by_cases h : sk.id = id
      · simp only [if_pos h]
        refine ⟨foldl_leave_id _ _, ?_⟩
        have hm := mem_foldl_leave symbols sk s
        simp only [subscribedAfter]
        by_cases hs : s ∈ symbols
        · rw [if_pos ⟨h.symm, hs⟩]
          simp [hm, hs]
        · rw [if_neg (fun h0 => hs h0.2)]
          simp [hm, hs]
      · have h2 : ¬ (id = sk.id) := fun h0 => h h0.symm
        simp only [if_neg h, subscribedAfter, h2, false_and, if_false, and_self]
  | upstreamConnect =>
    refine ⟨fun sk => sk, ?_, fun sk => ⟨rfl, rfl⟩⟩
    simp only [Relay.step, List.map_id_fun]
    have : ∀ (l : List Symbol) (r1 : Relay),
        (l.foldl (fun r2 symbol => requestHistoricalData symbol r2) r1).sockets = r1.sockets := by
      intro l
      induction l with
      | nil => intro r1; rfl
      | cons a l ih => intro r1; rw [List.foldl_cons, ih, requestHistoricalData_sockets]
    rw [this, requestHistoricalData_sockets]
    simp
  | upstreamDisconnect =>
    exact ⟨fun sk => sk, by simp [Relay.step], fun sk => ⟨rfl, rfl⟩⟩
  | historicalDataResponse data =>
    refine ⟨fun sk => sk, ?_, fun sk => ⟨rfl, rfl⟩⟩
    cases data with
    | none => simp [Relay.step]
    | some candles =>
      simp only [Relay.step, List.map_id_fun]
      have : ∀ (l : List RawCandle) (r1 : Relay),
          (l.foldl (fun r2 candle => broadcastCandleToClients parseFloat candle r2) r1).sockets =
            r1.sockets := by
        intro l
        induction l with
        | nil => intro r1; rfl
        | cons a l ih => intro r1; rw [List.foldl_cons, ih, broadcastCandleToClients_sockets]
      rw [this]
      simp
  | candleUpdate candle =>
    exact ⟨fun sk => sk, by simp [Relay.step, broadcastCandleToClients_sockets],
      fun sk => ⟨rfl, rfl⟩⟩
  | tradeExecuted u t =>
    exact ⟨fun sk => sk, by simp [Relay.step, emitTradeExecuted_sockets],
      fun sk => ⟨rfl, rfl⟩⟩

theorem subscribedAfter_cons (id : SocketId) (s : Symbol) (before : Bool) (e : SocketEvent)
    (rest : List SocketEvent) :
    subscribedAfter id s before (e :: rest) =
      subscribedAfter id s (subscribedAfter id s before [e]) rest := by
  cases e <;> rfl

/-- A sequence of events without connection or disconnect keeps the connected
sockets and changes the membership of the room of a symbol as
`subscribedAfter` says. -/
theorem run_rooms (parseFloat : String → JsNumber) (events : List SocketEvent) (r : Relay)
    (s : Symbol) (he : ∀ e ∈ events, e.keepsSockets = true) :
    ∃ g : Socket → Socket, (r.run parseFloat events).sockets = r.sockets.map g ∧
      ∀ sk, (g sk).id = sk.id ∧
        decide (Room.market s ∈ (g sk).rooms) =
          subscribedAfter sk.id s (decide (Room.market s ∈ sk.rooms)) events := by
  induction events generalizing r with
  | nil => exact ⟨fun sk => sk, by simp [Relay.run], fun sk => ⟨rfl, rfl⟩⟩
  | cons e rest ih =>
    obtain ⟨g1, h1, hg1⟩ := step_rooms parseFloat r e s (he e (List.mem_cons_self _ _))
    obtain ⟨g2, h2, hg2⟩ := ih (r.step parseFloat e)
      (fun e1 h => he e1 (List.mem_cons_of_mem _ h))
    refine ⟨fun sk => g2 (g1 sk), ?_, fun sk => ⟨?_, ?_⟩⟩
    · have : r.run parseFloat (e :: rest) = (r.step parseFloat e).run parseFloat rest := rfl
      rw [this, h2, h1, List.map_map]
      rfl
    · rw [(hg2 (g1 sk)).1, (hg1 sk).1]
    · rw [(hg2 (g1 sk)).2, (hg1 sk).1, (hg1 sk).2, ← subscribedAfter_cons]

theorem requestHistoricalData_io (symbol : Symbol) (r : Relay) :
    (requestHistoricalData symbol r).io = r.io := by
  unfold requestHistoricalData
  split <;> rfl

theorem broadcastCandleToClients_io (parseFloat : String → JsNumber) (candle : RawCandle)
    (r : Relay) : (broadcastCandleToClients parseFloat candle r).io = r.io := by
  unfold broadcastCandleToClients
  split <;> rfl

/-- No handler changes `io`. -/
theorem step_io (parseFloat : String → JsNumber) (r : Relay) (e : SocketEvent) :
    (r.step parseFloat e).io = r.io := by
  cases e with
  | connection id owner =>
    simp only [Relay.step]
    split <;> rfl
  | subscribe id symbols =>
    simp only [Relay.step]
    split
    · apply foldl_keeps (fun r1 : Relay => r1.io = r.io) _ _ _ _ rfl
      intro b a hb
      unfold subscribeSymbol
      simp only
      split
      · rw [requestHistoricalData_io]
        exact hb
      · exact hb
    · rfl
  | unsubscribe id symbols =>
    simp only [Relay.step]
    split
    · exact foldl_keeps (fun r1 : Relay => r1.io = r.io) (unsubscribeSymbol id)
        (fun b a hb => hb) _ _ rfl
    · rfl
  | disconnect id => rfl
  | upstreamConnect =>
    simp only [Relay.step]
    apply foldl_keeps (fun r1 : Relay => r1.io = r.io)
    · intro b a hb
      rw [requestHistoricalData_io]
      exact hb
    · rw [requestHistoricalData_io]
  | upstreamDisconnect => rfl
  | historicalDataResponse data =>
    cases data with
    | none => rfl
    | some candles =>
      simp only [Relay.step]
      apply foldl_keeps (fun r1 : Relay => r1.io = r.io) _ _ _ _ rfl
      intro b a hb
      rw [broadcastCandleToClients_io]
      exact hb
  | candleUpdate candle =>
    simp only [Relay.step, broadcastCandleToClients_io]
  | tradeExecuted u t =>
    simp only [Relay.step, emitTradeExecuted]
    split <;> rfl

theorem run_io (parseFloat : String → JsNumber) (events : List SocketEvent) (r : Relay) :
    (r.run parseFloat events).io = r.io := by
  unfold Relay.run
  exact foldl_keeps (fun r1 : Relay => r1.io = r.io) _
    (fun b a hb => (step_io parseFloat b a).trans hb) _ _ rfl

/-- C23. Broadcast scope follows the subscriptions: after any sequence of
events without connection or disconnect, in particular any sequence of
subscribe and unsubscribe events, a tick for the symbol `s` is delivered, as a
`candle` event carrying the formatted candle, to exactly the connected sockets
whose last subscribe or unsubscribe listing `s` is a subscribe (or which were
in the room before and have not listed `s` since), once each and in the order
of connection. -/
theorem C23_broadcast_scope (parseFloat : String → JsNumber) (r : Relay)
    (events : List SocketEvent) (candle : RawCandle) (hio : r.io = true)
    (hs : candle.symbol ≠ "") (he : ∀ e ∈ events, e.keepsSockets = true) :
    ((r.run parseFloat events).step parseFloat (.candleUpdate candle)).delivered =
      (r.run parseFloat events).delivered ++
        (r.sockets.filter (fun sk =>
          subscribedAfter sk.id candle.symbol (decide (Room.market candle.symbol ∈ sk.rooms))
            events)).map
          (fun sk => (sk.id, Message.candle (formatCandle parseFloat candle))) := by
  obtain ⟨g, hg, hspec⟩ := run_rooms parseFloat events r candle.symbol he
  simp only [Relay.step]
  rw [broadcastCandleToClients_accepted parseFloat candle _
    ((run_io parseFloat events r).trans hio) hs]
  simp only [hg, List.filter_map, List.map_map]
  congr 1
  have hf : (fun sk => decide (Room.market candle.symbol ∈ sk.rooms)) ∘ g =
      fun sk => subscribedAfter sk.id candle.symbol
        (decide (Room.market candle.symbol ∈ sk.rooms)) events := by
    funext sk
    exact (hspec sk).2
  rw [hf]
  apply List.map_congr_left
  intro sk _
  simp only [Function.comp, (hspec sk).1]

theorem C23_broadcast_scope_witness :
    (((Relay.setup ⟨⟨100000, 0, []⟩, [], 0⟩).run (fun _ => some 1)
        [.connection 1 "alice", .connection 2 "bob", .subscribe 1 ["BTCUSDT"],
          .subscribe 2 ["BTCUSDT", "ETHUSDT"], .unsubscribe 1 ["BTCUSDT"]]).step
        (fun _ => some 1)
        (.candleUpdate ⟨0, "BTCUSDT", "1m", "1", "1", "1", "1", "1", true⟩)).delivered =
      [(2, .candle ⟨0, "BTCUSDT", "1m", some 1, some 1, some 1, some 1, some 1, true⟩)] := by
  have h := C23_broadcast_scope (fun _ => some 1)
    ((Relay.setup ⟨⟨100000, 0, []⟩, [], 0⟩).run (fun _ => some 1)
      [.connection 1 "alice", .connection 2 "bob"])
    [.subscribe 1 ["BTCUSDT"], .subscribe 2 ["BTCUSDT", "ETHUSDT"], .unsubscribe 1 ["BTCUSDT"]]
    ⟨0, "BTCUSDT", "1m", "1", "1", "1", "1", "1", true⟩ rfl (by decide) (by decide)
  exact h.trans (by decide)

/-! ## The relay: backfill -/

theorem broadcastCandleToClients_delivered (parseFloat : String → JsNumber) (candle : RawCandle)
    (r : Relay) :
    (broadcastCandleToClients parseFloat candle r).delivered =
      r.delivered ++ broadcastsOf parseFloat r candle := by
  unfold broadcastCandleToClients broadcastsOf
  split
  · rfl
  · simp

/-- What a tick sends depends on the sockets and on `io` only. -/
theorem broadcastsOf_congr (parseFloat : String → JsNumber) (r r1 : Relay) (candle : RawCandle)
    (h1 : r1.io = r.io) (h2 : r1.sockets = r.sockets) :
    broadcastsOf parseFloat r1 candle = broadcastsOf parseFloat r candle := by
  unfold broadcastsOf
  rw [h1, h2]

/-- The candles of a batch are sent on in the order of the batch. -/
theorem foldl_broadcast_delivered (parseFloat : String → JsNumber) (candles : List RawCandle)
    (r : Relay) :
    (candles.foldl (fun r1 candle => broadcastCandleToClients parseFloat candle r1) r).delivered =
      r.delivered ++ candles.flatMap (broadcastsOf parseFloat r) := by
  induction candles generalizing r with
  | nil => simp
  | cons c rest ih =>
    rw [List.foldl_cons, ih, broadcastCandleToClients_delivered, List.flatMap_cons,
      List.append_assoc]
    congr 2
    apply List.flatMap_congr
    intro c1 _
    exact broadcastsOf_congr parseFloat r _ c1 (broadcastCandleToClients_io parseFloat c r)
      (broadcastCandleToClients_sockets parseFloat c r)

/-- C24. Backfill replays through the live path in order: handling a
`historical_data_response` with the candles `c1, ..., cn` gives the very state,
price cache and sent events included, that handling `c1, ..., cn` one after the
other as `candle_update` gives; and the `candle` events it sends are those of
`c1`, then those of `c2`, and so on, so that for each symbol and each socket
they arrive in the order of the batch. -/
theorem C24_backfill_replays_live_path (parseFloat : String → JsNumber) (r : Relay)
    (candles : List RawCandle) :
    r.step parseFloat (.historicalDataResponse (some candles)) =
        r.run parseFloat (candles.map .candleUpdate) ∧
      (r.step parseFloat (.historicalDataResponse (some candles))).delivered =
        r.delivered ++ candles.flatMap (broadcastsOf parseFloat r) := by
  constructor
  · simp only [Relay.step, Relay.run, List.foldl_map]
  · simp only [Relay.step]
    exact foldl_broadcast_delivered parseFloat candles r

/-! ## The relay: tracked symbols -/

theorem requestHistoricalData_connectedSymbols (symbol : Symbol) (r : Relay) :
    (requestHistoricalData symbol r).connectedSymbols = r.connectedSymbols := by
  unfold requestHistoricalData
  split <;> rfl

theorem broadcastCandleToClients_connectedSymbols (parseFloat : String → JsNumber)
    (candle : RawCandle) (r : Relay) :
    (broadcastCandleToClients parseFloat candle r).connectedSymbols = r.connectedSymbols := by
  unfold broadcastCandleToClients
  split <;> rfl

/-- The requests of the `forEach` of the upstream `connect` handler. -/
theorem foldl_request (symbols : List Symbol) (r : Relay) (h : r.upstreamConnected = true) :
    (symbols.foldl (fun r2 symbol => requestHistoricalData symbol r2) r).requests =
        r.requests ++ symbols ∧
      (symbols.foldl (fun r2 symbol => requestHistoricalData symbol r2) r).connectedSymbols =
        r.connectedSymbols := by
  induction symbols generalizing r with
  | nil => simp
  | cons a l ih =>
    have h1 : requestHistoricalData a r = { r with requests := r.requests ++ [a] } := by
      simp [requestHistoricalData, h]
    rw [List.foldl_cons, h1]
    obtain ⟨e1, e2⟩ := ih { r with requests := r.requests ++ [a] } h
    rw [e1, e2]
    simp

theorem subscribeSymbol_connectedSymbols (id : SocketId) (r : Relay) (symbol s : Symbol) :
    s ∈ (subscribeSymbol id r symbol).connectedSymbols ↔ s = symbol ∨ s ∈ r.connectedSymbols := by
  have h : s ∈ (if symbol ∈ r.connectedSymbols then r.connectedSymbols
      else r.connectedSymbols ++ [symbol]) ↔ s = symbol ∨ s ∈ r.connectedSymbols := by
    split
    · rename_i hm
      constructor
      · exact Or.inr
      · rintro (rfl | h1)
        · exact hm
        · exact h1
    · simp only [List.mem_append, List.mem_singleton]
      exact Or.comm
  unfold subscribeSymbol
  simp only
  split
  · rw [requestHistoricalData_connectedSymbols]
    exact h
  · exact h

theorem foldl_subscribeSymbol_connectedSymbols (id : SocketId) (symbols : List Symbol)
    (r : Relay) (s : Symbol) :
    s ∈ (symbols.foldl (subscribeSymbol id) r).connectedSymbols ↔
      s ∈ symbols ∨ s ∈ r.connectedSymbols := by
  induction symbols generalizing r with
  | nil => simp
  | cons a l ih =>
    rw [List.foldl_cons, ih, subscribeSymbol_connectedSymbols, List.mem_cons]
    tauto

/-- The tracked symbols after one event: those before and, for a `subscribe`
that reaches its handler, those it lists. -/
theorem step_connectedSymbols (parseFloat : String → JsNumber) (r : Relay) (e : SocketEvent)
    (s : Symbol) :
    s ∈ (r.step parseFloat e).connectedSymbols ↔
      s ∈ r.connectedSymbols ∨ s ∈ everSubscribed parseFloat r [e] := by
  cases e with
  | connection id owner =>
    simp only [Relay.step, everSubscribed, List.not_mem_nil, or_false]
    split <;> rfl
  | subscribe id symbols =>
    simp only [Relay.step, everSubscribed, List.append_nil]
    cases hc : r.connected id
    · simp
    · simp only [if_true, foldl_subscribeSymbol_connectedSymbols]
      exact Or.comm
  | unsubscribe id symbols =>
    simp only [Relay.step, everSubscribed, List.not_mem_nil, or_false]
    split
    · have : (symbols.foldl (unsubscribeSymbol id) r).connectedSymbols = r.connectedSymbols :=
        foldl_keeps (fun r1 : Relay => r1.connectedSymbols = r.connectedSymbols)
          (unsubscribeSymbol id) (fun b a hb => hb) _ _ rfl
      rw [this]
    · rfl
  | disconnect id => simp [Relay.step, everSubscribed]
  | upstreamConnect =>
    simp only [Relay.step, everSubscribed, List.not_mem_nil, or_false]
    rw [(foldl_request _ _ (by simp [requestHistoricalData])).2,
      requestHistoricalData_connectedSymbols]
  | upstreamDisconnect => simp [Relay.step, everSubscribed]
  | historicalDataResponse data =>
    simp only [everSubscribed, List.not_mem_nil, or_false]
    cases data with
    | none => rfl
    | some candles =>
      simp only [Relay.step]
      have : (candles.foldl (fun r1 candle => broadcastCandleToClients parseFloat candle r1)
          r).connectedSymbols = r.connectedSymbols :=
        foldl_keeps (fun r1 : Relay => r1.connectedSymbols = r.connectedSymbols) _
          (fun b a hb => (broadcastCandleToClients_connectedSymbols parseFloat a b).trans hb)
          _ _ rfl
      rw [this]
  | candleUpdate candle =>
    simp [Relay.step, everSubscribed, broadcastCandleToClients_connectedSymbols]
  | tradeExecuted u t =>
    simp only [Relay.step, everSubscribed, List.not_mem_nil, or_false, emitTradeExecuted]
    split <;> rfl

theorem everSubscribed_cons (parseFloat : String → JsNumber) (r : Relay) (e : SocketEvent)
    (rest : List SocketEvent) :
    everSubscribed parseFloat r (e :: rest) =
      everSubscribed parseFloat r [e] ++
        everSubscribed parseFloat (r.step parseFloat e) rest := by
  cases e <;> simp [everSubscribed]

theorem run_connectedSymbols (parseFloat : String → JsNumber) (events : List SocketEvent)
    (r : Relay) (s : Symbol) :
    s ∈ (r.run parseFloat events).connectedSymbols ↔
      s ∈ r.connectedSymbols ∨ s ∈ everSubscribed parseFloat r events := by
  induction events generalizing r with
  | nil => simp [Relay.run, everSubscribed]
  | cons e rest ih =>
    have : r.run parseFloat (e :: rest) = (r.step parseFloat e).run parseFloat rest := rfl
    rw [this, ih, step_connectedSymbols, everSubscribed_cons parseFloat r e rest,
      List.mem_append]
    tauto

/-- C25. Backfill on (re)connect covers every symbol ever subscribed: after any
sequence of events since `setupSocketHandlers`, the upstream `connect` handler
emits `request_historical_data` for `BTCUSDT` and then for each tracked symbol;
a symbol is tracked exactly when a `subscribe` that reached its handler listed
it, and no event takes a symbol out of the tracked set. -/
theorem C25_backfill_on_connect (parseFloat : String → JsNumber) (g : Globals)
    (events more : List SocketEvent) :
    (((Relay.setup g).run parseFloat events).step parseFloat .upstreamConnect).requests =
        ((Relay.setup g).run parseFloat events).requests ++
          "BTCUSDT" :: ((Relay.setup g).run parseFloat events).connectedSymbols ∧
      (∀ s, s ∈ ((Relay.setup g).run parseFloat events).connectedSymbols ↔
        s ∈ everSubscribed parseFloat (Relay.setup g) events) ∧
      ∀ s, s ∈ ((Relay.setup g).run parseFloat events).connectedSymbols →
        s ∈ (((Relay.setup g).run parseFloat events).run parseFloat more).connectedSymbols := by
  refine ⟨?_, fun s => ?_, fun s hs => ?_⟩
  · simp only [Relay.step]
    rw [(foldl_request _ _ (by simp [requestHistoricalData])).1,
      requestHistoricalData_connectedSymbols]
    simp [requestHistoricalData]
  · rw [run_connectedSymbols]
    simp [Relay.setup]
  · rw [run_connectedSymbols]
    exact Or.inl hs

/-! ## Valuation -/

/-- C26.  Alice holds 1 `BTCUSDT` bought at 60000 and has 40000 in cash.  A
tick for `BTCUSDT` with close 70000 is accepted and sets the cache entry to
70000.  The database-backed summary still reports `totalPositionValue = 60000`
and `totalValue = 100000`, from the `current_price` column written by her last
trade, where the claim expects 70000 and 110000. -/
theorem C26_stored_valuation_ignores_cache :
    ((Relay.setup ⟨⟨100000, 0, []⟩, [], 0⟩).step (fun _ => some 70000)
        (.candleUpdate ⟨0, "BTCUSDT", "1m", "70000", "70000", "70000", "70000", "1",
          true⟩)).globals.price "BTCUSDT" = some (some 70000) ∧
      (Prog.run noFailure (getPortfolio ⟨none, some "db"⟩ "alice")
        { World.idle ⟨[⟨"alice", 40000⟩], [⟨"alice", "BTCUSDT", 1, 60000, 60000⟩],
            [⟨1, "alice", "BTCUSDT", "BUY", 1, 60000, 60000⟩]⟩ with
          globals := ((Relay.setup ⟨⟨100000, 0, []⟩, [], 0⟩).step (fun _ => some 70000)
            (.candleUpdate ⟨0, "BTCUSDT", "1m", "70000", "70000", "70000", "70000", "1",
              true⟩)).globals }).1 =
        .ok (.summary ⟨40000, 60000, 100000, 0, 0, 1, .created_at "alice",
          .updated_at "alice"⟩) := by
  constructor
  · decide
  · have he : Env.mock ⟨none, some "db"⟩ = false := by decide
    simp [getPortfolio, he, Prog.run_tryCatch, Prog.run_bind, Prog.run_await, perform,
      noFailure, Sql.rows, Sql.effect, Sql.drawsId, World.idle, Ledger.portfolioRows,
      Ledger.positionsOf, storedSummary]
    norm_num

/-! ## The transaction helper -/

/-- C27 when `ROLLBACK` fails too.  `BEGIN`, the call number 1, raises
`storage 1`; the `ROLLBACK` of the `catch` block, the call number 2, raises
`storage 2`, and this is the error that `transaction` raises. -/
theorem C27_rollback_error_replaces_cause :
    (Prog.run (fun i => decide (i = 1) || decide (i = 2)) (Prog.await (.query .begin))
        (World.idle Ledger.empty).acquired).1 = .error (.storage 1) ∧
      (Prog.run (fun i => decide (i = 1) || decide (i = 2)) (transaction (pure 7 : Prog Nat))
        (World.idle Ledger.empty)).1 = .error (.storage 2) := by
  constructor
  · simp [Prog.run_await, perform, World.idle, World.acquired]
  · simp [transaction, transactionBody, Prog.run_bind, Prog.run_await, Prog.run_tryFinally,
      Prog.run_tryCatch, perform, World.idle]

/-- C27, amended.  Once the client is acquired, `transaction(callback)` issues
`BEGIN` first and, if it succeeds, runs the callback in the world after it; if
the callback returns `r` it issues `COMMIT`, and if that succeeds it returns
`r`.  If `BEGIN`, the callback or `COMMIT` raises `e`, it issues `ROLLBACK`;
it raises `e` again if `ROLLBACK` succeeds, and the error of `ROLLBACK` if that
fails.  On each of these paths the last thing it does is release the client,
once.  If no client is acquired it raises the error of `getClient` and neither
queries nor releases. -/
theorem C27_transaction {α : Type} (fails : Nat → Bool) (callback : Prog α) (w : World) :
    (fails w.clock = true →
      Prog.run fails (transaction callback) w =
        (.error (.storage w.clock),
          { w with clock := w.clock + 1, log := w.log ++ [.connect false] })) ∧
    (fails w.clock = false →
      (fails w.acquired.clock = true →
        Prog.run fails (transactionBody callback) w.acquired =
          (.error (.storage w.acquired.clock), w.acquired.refused Sql.begin)) ∧
      (fails w.acquired.clock = false →
        Prog.run fails (transactionBody callback) w.acquired =
          match Prog.run fails callback (w.acquired.exec Sql.begin) with
          | (.ok r, w1) =>
            if fails w1.clock then (.error (.storage w1.clock), w1.refused Sql.commit)
            else (.ok r, w1.exec Sql.commit)
          | (.error e, w1) => (.error e, w1)) ∧
      (∀ r w1, Prog.run fails (transactionBody callback) w.acquired = (.ok r, w1) →
        Prog.run fails (transaction callback) w = (.ok r, w1.released)) ∧
      (∀ e w1, Prog.run fails (transactionBody callback) w.acquired = (.error e, w1) →
        Prog.run fails (transaction callback) w =
          if fails w1.clock then (.error (.storage w1.clock), (w1.refused Sql.rollback).released)
          else (.error e, (w1.exec Sql.rollback).released))) := by
  refine ⟨fun hc => ?_, fun hc => ⟨fun hb => ?_, fun hb => ?_, fun r w1 h => ?_,
    fun e w1 h => ?_⟩⟩
  · simp only [transaction, Prog.run_bind, Prog.run_await, perform, hc, if_true]
  · simp only [transactionBody, Prog.run_bind, Prog.run_await, perform, hb, if_true,
      World.refused]
  · simp only [transactionBody, Prog.run_bind, Prog.run_await, perform, hb,
      Bool.false_eq_true, if_false]
    rcases Prog.run fails callback (w.acquired.exec Sql.begin) with ⟨res, w1⟩
    cases res with
    | error e => rfl
    | ok r =>
      simp only [Prog.run_bind, Prog.run_await, perform]
      cases fails w1.clock
      · simp only [Bool.false_eq_true, if_false, Prog.run_pure]
      · simp only [if_true, World.refused]
  · have h0 : Prog.run fails (transactionBody callback)
        { w with clock := w.clock + 1, log := w.log ++ [.connect true] } = (.ok r, w1) := h
    simp only [transaction, Prog.run_bind, Prog.run_await, perform, hc, Bool.false_eq_true,
      if_false, Prog.run_tryFinally, Prog.run_tryCatch, h0, World.released]
  · have h0 : Prog.run fails (transactionBody callback)
        { w with clock := w.clock + 1, log := w.log ++ [.connect true] } = (.error e, w1) := h
    simp only [transaction, Prog.run_bind, Prog.run_await, perform, hc, Bool.false_eq_true,
      if_false, Prog.run_tryFinally, Prog.run_tryCatch, h0]
    cases fails w1.clock
    · simp only [Bool.false_eq_true, if_false, Prog.run_throw, World.released]
    · simp only [if_true, World.released, World.refused]

theorem C27_transaction_witness :
    Prog.run noFailure (transaction (pure 7 : Prog Nat)) (World.idle Ledger.empty) =
      (.ok 7, (((World.idle Ledger.empty).acquired.exec Sql.begin).exec Sql.commit).released) := by
  have h := (C27_transaction noFailure (pure 7 : Prog Nat) (World.idle Ledger.empty)).2 rfl
  exact h.2.2.1 7 _ (by rw [h.2.1 rfl]; rfl)

/-! ## The trade model -/

/-- C28.  For a trade in `BTCUSDT` built by the constructor, `getNetValue()` is
the total value, whatever the side, the quantity and the price: the commission
asset `USDT` is not the symbol without `USDT`, so no commission is taken off.
For a SELL of 1 at 100 the commission is 0.05 and `getNetValue()` is 100, not
99.95. -/
theorem C28_net_value_keeps_commission :
    (∀ side quantity price,
        (Trade.new ⟨some "BTCUSDT", side, quantity, price⟩).getNetValue =
          (Trade.new ⟨some "BTCUSDT", side, quantity, price⟩).getTotalValue) ∧
      (Trade.new ⟨some "BTCUSDT", some "SELL", some 1, some 100⟩).commission = 1 / 20 ∧
      (Trade.new ⟨some "BTCUSDT", some "SELL", some 1, some 100⟩).getNetValue = 100 ∧
      (Trade.new ⟨some "BTCUSDT", some "SELL", some 1, some 100⟩).getTotalValue -
        (Trade.new ⟨some "BTCUSDT", some "SELL", some 1, some 100⟩).commission = 1999 / 20 := by
  have hc : ¬ (toUpperCase COMMISSION_ASSET.toList =
        toUpperCase (replaceFirst "USDT".toList [] (orString (some "BTCUSDT") SYMBOL).toList) ∨
      COMMISSION_ASSET = "USD") := by decide
  have h : ∀ side quantity price,
      (Trade.new ⟨some "BTCUSDT", side, quantity, price⟩).getNetValue =
        (Trade.new ⟨some "BTCUSDT", side, quantity, price⟩).getTotalValue := by
    intro side quantity price
    simp only [Trade.getNetValue, Trade.new]
    rw [if_neg hc]
  refine ⟨h, ?_, ?_, ?_⟩
  · norm_num [Trade.new, COMMISSION_PERCENTAGE, orZero]
  · rw [h]
    norm_num [Trade.new, Trade.getTotalValue, orZero]
  · norm_num [Trade.new, Trade.getTotalValue, COMMISSION_PERCENTAGE, orZero]

/-! ## Cash conservation -/

/-- What a request does to the cash of its user and to the trade records:
nothing; or a BUY debits the total and is recorded; or a SELL credits the total
and is recorded. -/
theorem tradeOutcome_cash (L : Ledger) (n : Nat) (u : UserId) (req : TradeRequest) :
    (tradeOutcome L n u req).2 = L ∨
    ((tradeOutcome L n u req).2.cashBalance u = L.cashBalance u - req.quantity * req.price ∧
      (tradeOutcome L n u req).2.trades = L.trades ++
        [⟨n, u, req.symbol, "BUY", req.quantity, req.price, req.quantity * req.price⟩]) ∨
    ((tradeOutcome L n u req).2.cashBalance u = L.cashBalance u + req.quantity * req.price ∧
      (tradeOutcome L n u req).2.trades = L.trades ++
        [⟨n, u, req.symbol, "SELL", req.quantity, req.price, req.quantity * req.price⟩]) := by
  by_cases hv : validTrade req = true
  swap
  · left; simp only [tradeOutcome, if_neg hv]
  rcases validTrade_side req hv with hs | hs
  · by_cases hb : L.cashBalance u < req.quantity * req.price
    · left; rw [tradeOutcome_buy_reject L n u req hv hs hb]
    · right; left
      cases hp : L.position? u req.symbol with
      | none =>
        obtain ⟨-, h2, -, h4⟩ := tradeOutcome_buy_new L n u req hv hs hb hp
        exact ⟨h2, h4⟩
      | some current =>
        exact ⟨(tradeOutcome_buy_more L n u req hv hs hb current hp).1,
          (tradeOutcome_buy_more_trades L n u req hv hs hb current hp).2⟩
  · cases hp : L.position? u req.symbol with
    | none => left; rw [tradeOutcome_sell_reject L n u req hv hs (Or.inl hp)]
    | some held =>
      by_cases hq : held.quantity < req.quantity
      · left
        rw [tradeOutcome_sell_reject L n u req hv hs
          (Or.inr (by simp only [Ledger.held, hp]; exact hq))]
      · right; right
        obtain ⟨-, h2, -, h4⟩ := tradeOutcome_sell_ok L n u req hv hs held hp hq
        exact ⟨h2, h4⟩

/-- The totals of a side after a record of the user is appended. -/
theorem totalOf_append (L L1 : Ledger) (u : UserId) (t : TradeRow) (side : String)
    (h : L1.trades = L.trades ++ [t]) (hu : t.user_id = u) :
    L1.totalOf u side = L.totalOf u side + if t.side = side then t.total else 0 := by
  simp only [Ledger.totalOf, Ledger.tradesOf, h, List.filter_append, List.map_append,
    List.sum_append]
  congr 1
  by_cases hs : t.side = side
  · simp [hu, hs]
  · simp [hu, hs]

/-- Every request keeps the cash conserved. -/
theorem tradeOutcome_cashConserved (L : Ledger) (n : Nat) (u : UserId) (req : TradeRequest)
    (h : L.CashConserved) : (tradeOutcome L n u req).2.CashConserved := by
  intro v
  by_cases hvu : v = u
  swap
  · obtain ⟨h1, -, h3⟩ := tradeOutcome_sameFor L n u v req hvu
    have e1 : (tradeOutcome L n u req).2.cashBalance v = L.cashBalance v := by
      simp only [Ledger.cashBalance, h1]
    have e2 : ∀ side, (tradeOutcome L n u req).2.totalOf v side = L.totalOf v side := by
      intro side
      simp only [Ledger.totalOf, h3]
    rw [e1, e2, e2]
    exact h v
  subst hvu
  rcases tradeOutcome_cash L n v req with h0 | ⟨h1, h2⟩ | ⟨h1, h2⟩
  · rw [h0]
    exact h v
  · rw [h1, totalOf_append L _ v _ "BUY" h2 rfl, totalOf_append L _ v _ "SELL" h2 rfl, h v]
    have : ¬ ("BUY" = "SELL") := by decide
    simp only [if_true, if_neg this]
    ring
  · rw [h1, totalOf_append L _ v _ "BUY" h2 rfl, totalOf_append L _ v _ "SELL" h2 rfl, h v]
    have : ¬ ("SELL" = "BUY") := by decide
    simp only [if_true, if_neg this]
    ring

/-- C29. Cash conservation: in every state reached from the empty ledger by
`POST /trade` requests, the cash balance of every user is 100000 minus the sum
of the totals of the user's BUY records plus the sum of the totals of the
user's SELL records. -/
theorem C29_cash_conservation (reqs : List (UserId × TradeRequest)) (u : UserId) :
    (runTrades reqs (World.idle Ledger.empty)).committed.cashBalance u =
      100000 - (runTrades reqs (World.idle Ledger.empty)).committed.totalOf u "BUY" +
        (runTrades reqs (World.idle Ledger.empty)).committed.totalOf u "SELL" :=
  (runTrades_invariant Ledger.CashConserved
    (fun L n u req h => tradeOutcome_cashConserved L n u req h) reqs (World.idle Ledger.empty)
    rfl (fun v => by
      simp [Ledger.cashBalance, Ledger.totalOf, Ledger.tradesOf, Ledger.portfolioRows,
        World.idle, Ledger.empty])).2 u

/-! ## The weighted average -/

/-- The average of `x` and `y` with positive weights lies between them, and is
`x` only when `y` is. -/
theorem weighted_between (a b x y : ℚ) (ha : 0 < a) (hb : 0 < b) :
    min x y ≤ (a * x + b * y) / (a + b) ∧ (a * x + b * y) / (a + b) ≤ max x y ∧
      ((a * x + b * y) / (a + b) = x ↔ y = x) := by
  have hab : 0 < a + b := by linarith
  have h1 : (a * x + b * y) / (a + b) - x = b * (y - x) / (a + b) := by
    field_simp
    ring
  have h2 : (a * x + b * y) / (a + b) - y = a * (x - y) / (a + b) := by
    field_simp
    ring
  refine ⟨?_, ?_, ?_⟩
  · rcases le_total x y with h | h
    · rw [min_eq_left h]
      have : 0 ≤ b * (y - x) / (a + b) :=
        div_nonneg (mul_nonneg hb.le (by linarith)) hab.le
      linarith
    · rw [min_eq_right h]
      have : 0 ≤ a * (x - y) / (a + b) :=
        div_nonneg (mul_nonneg ha.le (by linarith)) hab.le
      linarith
  · rcases le_total x y with h | h
    · rw [max_eq_right h]
      have : a * (x - y) / (a + b) ≤ 0 :=
        div_nonpos_of_nonpos_of_nonneg (mul_nonpos_of_nonneg_of_nonpos ha.le (by linarith)) hab.le
      linarith
    · rw [max_eq_left h]
      have : b * (y - x) / (a + b) ≤ 0 :=
        div_nonpos_of_nonpos_of_nonneg (mul_nonpos_of_nonneg_of_nonpos hb.le (by linarith)) hab.le
      linarith
  · constructor
    · intro h
      have h0 : b * (y - x) / (a + b) = 0 := by rw [← h1, h]; ring
      rcases div_eq_zero_iff.mp h0 with h3 | h3
      · rcases mul_eq_zero.mp h3 with h4 | h4
        · exact absurd h4 hb.ne'
        · linarith
      · exact absurd h3 hab.ne'
    · intro h
      rw [h]
      field_simp
      ring

/-- The position of the user after a BUY that adds to it. -/
theorem tradeOutcome_buy_more_position (L : Ledger) (n : Nat) (u : UserId) (req : TradeRequest)
    (hv : validTrade req = true) (hs : req.side = "BUY")
    (hb : ¬ L.cashBalance u < req.quantity * req.price)
    (current : PositionRow) (hp : L.position? u req.symbol = some current) :
    (tradeOutcome L n u req).2.position? u req.symbol =
      some { current with
        quantity := current.quantity + req.quantity
        avg_price := (current.quantity * current.avg_price + req.quantity * req.price) /
          (current.quantity + req.quantity)
        current_price := req.price } := by
  obtain ⟨-, hpos⟩ := tradeOutcome_buy_more L n u req hv hs hb current hp
  have hmem := (mem_of_head?_filter _ _ _ hp).2
  simp only [Ledger.position?, Ledger.positionRows] at hp ⊢
  rw [hpos, filter_map_of_keeps _ _ (by intro r; split <;> simp_all), List.head?_map, hp]
  simp only [Option.map_some', Option.some.injEq]
  rw [if_pos (by simpa using hmem)]

/-- In exact arithmetic the weighted average stays between its inputs: for a position with a
positive quantity and a committed BUY that adds `q` at price `p` to it, the
divisor `quantity + q` is positive, and the new `avg_price`,
`(quantity * avg_price + q * p) / (quantity + q)`, lies between the old
`avg_price` and `p`, and equals the old one exactly when `p` does. -/
theorem average_between_exact (w : World) (u : UserId) (req : TradeRequest)
    (hw : w.txn = none) (hv : validTrade req = true) (hs : req.side = "BUY")
    (hb : req.quantity * req.price ≤ w.committed.cashBalance u)
    (current : PositionRow) (hp : w.committed.position? u req.symbol = some current)
    (hq : 0 < current.quantity) :
    ∃ row, (Prog.run noFailure (postTrade u req) w).2.committed.position? u req.symbol =
        some row ∧
      row.avg_price = (current.quantity * current.avg_price + req.quantity * req.price) /
        (current.quantity + req.quantity) ∧
      0 < current.quantity + req.quantity ∧
      min current.avg_price req.price ≤ row.avg_price ∧
      row.avg_price ≤ max current.avg_price req.price ∧
      (row.avg_price = current.avg_price ↔ req.price = current.avg_price) := by
  obtain ⟨w1, h1, hd, -, -⟩ := postTrade_noFailure u req w hw
  have hpos := tradeOutcome_buy_more_position w.committed w.nextId u req hv hs
    (not_lt.mpr hb) current hp
  have hrq := validTrade_quantity_pos req hv
  obtain ⟨m1, m2, m3⟩ := weighted_between current.quantity req.quantity current.avg_price
    req.price hq hrq
  rw [h1]
  simp only
  rw [hd]
  exact ⟨_, hpos, rfl, by linarith, m1, m2, m3⟩

/-! ## The numbers of JavaScript -/

/-- A real strictly within a half of `m` rounds to `m`. -/
theorem roundHalfEven_eq (y : ℚ) (m : ℤ) (h1 : (m : ℚ) - 1 / 2 < y) (h2 : y < m + 1 / 2) :
    roundHalfEven y = m := by
  unfold roundHalfEven
  simp only
  by_cases h : (m : ℚ) ≤ y
  · have hf : ⌊y⌋ = m := by
      rw [Int.floor_eq_iff]
      exact ⟨h, by linarith⟩
    rw [hf, if_pos (by linarith)]
  · have hf : ⌊y⌋ = m - 1 := by
      rw [Int.floor_eq_iff]
      push_cast
      push_neg at h
      exact ⟨by linarith, by linarith⟩
    rw [hf]
    push_cast
    rw [if_neg (by linarith), if_pos (by linarith)]
    ring

/-- The number for `x` is `m * 2 ^ e` when `x` has the binary exponent `e + 52`
and `x / 2 ^ e` is strictly within a half of `m`. -/
theorem binary64_eq (x : ℚ) (m e : ℤ) (h1 : (2 : ℚ) ^ (e + 52) ≤ x)
    (h2 : x < (2 : ℚ) ^ (e + 52 + 1)) (h3 : (m : ℚ) - 1 / 2 < x / 2 ^ e)
    (h4 : x / 2 ^ e < m + 1 / 2) : binary64 x = m * 2 ^ e := by
  have hx : 0 < x := lt_of_lt_of_le (zpow_pos (by norm_num) _) h1
  have hlog : Int.log 2 |x| = e + 52 := by
    rw [abs_of_pos hx]
    apply le_antisymm
    · have := (@Int.lt_zpow_iff_log_lt ℚ _ _ 2 (by norm_num) (e + 52 + 1) x hx).mp h2
      omega
    · exact (@Int.zpow_le_iff_le_log ℚ _ _ 2 (by norm_num) (e + 52) x hx).mp h1
  unfold binary64
  rw [if_neg hx.ne']
  simp only [hlog, add_sub_cancel_right]
  rw [roundHalfEven_eq _ m h3 h4]

/-- The number for a positive real is positive. -/
theorem binary64_pos (x : ℚ) (hx : 0 < x) : 0 < binary64 x := by
  unfold binary64
  rw [if_neg hx.ne']
  simp only
  have hp : (0 : ℚ) < 2 ^ (Int.log 2 |x| - 52) := zpow_pos (by norm_num) _
  apply mul_pos _ hp
  have h1 : (2 : ℚ) ^ Int.log 2 |x| ≤ |x| :=
    @Int.zpow_log_le_self ℚ _ _ 2 |x| (by norm_num) (abs_pos.mpr hx.ne')
  rw [abs_of_pos hx] at h1
  have h2 : (1 : ℚ) ≤ x / 2 ^ (Int.log 2 x - 52) := by
    rw [le_div_iff₀ (zpow_pos (by norm_num) _)]
    have : (2 : ℚ) ^ (Int.log 2 x - 52) ≤ 2 ^ Int.log 2 x :=
      zpow_le_zpow_right₀ (by norm_num) (by omega)
    linarith
  rw [abs_of_pos hx]
  have h3 : (1 : ℤ) ≤ ⌊x / 2 ^ (Int.log 2 x - 52)⌋ := Int.le_floor.mpr (by exact_mod_cast h2)
  have h4 : (1 : ℤ) ≤ roundHalfEven (x / 2 ^ (Int.log 2 x - 52)) := by
    unfold roundHalfEven
    simp only
    split
    · exact h3
    · split
      · omega
      · split
        · exact h3
        · omega
  exact_mod_cast (by omega : (0 : ℤ) < roundHalfEven (x / 2 ^ (Int.log 2 x - 52)))

/-! ## `POST /trade` with its arithmetic -/

/-- In exact arithmetic the branches are `buyBranch` and `sellBranch`. -/
theorem buyBranchWith_id (u : UserId) (req : TradeRequest) (total bal : ℚ) (msg : String) :
    buyBranchWith id u req total bal msg = buyBranch u req total bal msg := rfl

theorem sellBranchWith_id (u : UserId) (req : TradeRequest) (total : ℚ) (msg : String) :
    sellBranchWith id u req total msg = sellBranch u req total msg := rfl

/-- In exact arithmetic the handler is `postTrade`. -/
theorem postTradeWith_id (u : UserId) (req : TradeRequest) :
    postTradeWith id u req = postTrade u req := rfl

theorem runTradesWith_id (reqs : List (UserId × TradeRequest)) (w : World) :
    runTradesWith id reqs w = runTrades reqs w := by
  induction reqs generalizing w with
  | nil => rfl
  | cons r rest ih =>
    obtain ⟨u, req⟩ := r
    simp only [runTradesWith, runTrades, postTradeWith_id, ih]

theorem yields_buyBranchWith (number : ℚ → ℚ) (u : UserId) (req : TradeRequest)
    (total bal : ℚ) (msg : String)
    {w : World} {L V : Ledger} {n : Nat} {g : Globals} (h : w.Mid L V n g) :
    Yields (buyBranchWith number u req total bal msg) w
      (buyOutcomeWith number L V n u req total bal msg).1
      (fun w1 => w1.Done (buyOutcomeWith number L V n u req total bal msg).2 g) := by
  unfold buyBranchWith buyOutcomeWith
  split
  · exact yields_bind (yields_rollback h) (fun w1 h1 => yields_pure h1)
  · refine yields_bind (yields_data (.debitBalance total u) h (by simp [Sql.verb])
      (by simp [Sql.verb]) (by simp [Sql.verb]) rfl) (fun w1 h1 => ?_)
    refine yields_bind (yields_data (.selectPosition u req.symbol) h1 (by simp [Sql.verb])
      (by simp [Sql.verb]) (by simp [Sql.verb]) rfl) (fun w2 h2 => ?_)
    simp only [Sql.rows] at h2 ⊢
    have h2' : w2.Mid L ((Sql.debitBalance total u).effect n V) n g := h2
    cases hp : (((Sql.debitBalance total u).effect n V).positionRows u req.symbol).head? with
    | none =>
      exact yields_bind (yields_data (.insertPosition u req.symbol req.quantity req.price req.price)
        h2' (by simp [Sql.verb]) (by simp [Sql.verb]) (by simp [Sql.verb]) rfl)
        (fun w3 h3 => yields_recordTrade u req total msg h3)
    | some current =>
      exact yields_bind (yields_data (.updatePositionBuy _ _ req.price u req.symbol)
        h2' (by simp [Sql.verb]) (by simp [Sql.verb]) (by simp [Sql.verb]) rfl)
        (fun w3 h3 => yields_recordTrade u req total msg h3)

theorem yields_sellBranchWith (number : ℚ → ℚ) (u : UserId) (req : TradeRequest) (total : ℚ)
    (msg : String)
    {w : World} {L V : Ledger} {n : Nat} {g : Globals} (h : w.Mid L V n g) :
    Yields (sellBranchWith number u req total msg) w
      (sellOutcomeWith number L V n u req total msg).1
      (fun w1 => w1.Done (sellOutcomeWith number L V n u req total msg).2 g) := by
  unfold sellBranchWith sellOutcomeWith
  refine yields_bind (yields_data (.selectPosition u req.symbol) h (by simp [Sql.verb])
    (by simp [Sql.verb]) (by simp [Sql.verb]) rfl) (fun w1 h1 => ?_)
  simp only [Sql.rows] at h1 ⊢
  have h1' : w1.Mid L V n g := h1
  cases hp : (V.positionRows u req.symbol).head? with
  | none => exact yields_bind (yields_rollback h1') (fun w2 h2 => yields_pure h2)
  | some held =>
    by_cases hq : number held.quantity < number req.quantity
    · simp only [if_pos hq]
      exact yields_bind (yields_rollback h1') (fun w2 h2 => yields_pure h2)
    · simp only [if_neg hq]
      refine yields_bind (yields_data (.creditBalance total u) h1' (by simp [Sql.verb])
        (by simp [Sql.verb]) (by simp [Sql.verb]) rfl) (fun w2 h2 => ?_)
      by_cases hz : number (number held.quantity - number req.quantity) ≤ 0
      · simp only [if_pos hz]
        exact yields_bind (yields_data (.deletePosition u req.symbol) h2 (by simp [Sql.verb])
          (by simp [Sql.verb]) (by simp [Sql.verb]) rfl)
          (fun w3 h3 => yields_recordTrade u req total msg h3)
      · simp only [if_neg hz]
        exact yields_bind (yields_data (.updatePositionSell _ req.price u req.symbol) h2
          (by simp [Sql.verb]) (by simp [Sql.verb]) (by simp [Sql.verb]) rfl)
          (fun w3 h3 => yields_recordTrade u req total msg h3)

theorem yields_tradeTransactionWith (number : ℚ → ℚ) (u : UserId) (req : TradeRequest)
    {w : World} {L : Ledger} {g : Globals} (h : w.Done L g)
    (hv : validTrade req = true)
    (hrow : ((L.withPortfolio u).portfolioRows u).head? ≠ none) :
    Yields (tradeTransactionWith number u req (number (number req.quantity * number req.price))) w
      (tradeOutcomeWith number L w.nextId u req).1
      (fun w1 => w1.Done (tradeOutcomeWith number L w.nextId u req).2 g) := by
  unfold tradeTransactionWith tradeOutcomeWith
  simp only [hv, if_true]
  refine yields_bind (yields_begin h) (fun w1 h1 => ?_)
  refine yields_bind (yields_getOrCreatePortfolio u h1) (fun w2 h2 => ?_)
  cases hp : ((L.withPortfolio u).portfolioRows u).head? with
  | none => exact absurd hp hrow
  | some row =>
    simp only [hp]
    by_cases hb : req.side = "BUY"
    · simp only [if_pos hb]
      exact yields_buyBranchWith number u req _ _ _ h2
    · simp only [if_neg hb]
      by_cases hs : req.side = "SELL"
      · simp only [if_pos hs]
        exact yields_sellBranchWith number u req _ _ h2
      · simp only [if_neg hs]
        exact yields_recordTrade u req _ _ h2

/-- Without storage failures the handler of `POST /trade` answers and commits
what `tradeOutcomeWith` says, whatever the arithmetic. -/
theorem postTradeWith_noFailure (number : ℚ → ℚ) (u : UserId) (req : TradeRequest) (w : World)
    (h : w.txn = none) :
    Yields (postTradeWith number u req) w (tradeOutcomeWith number w.committed w.nextId u req).1
      (fun w1 => w1.Done (tradeOutcomeWith number w.committed w.nextId u req).2 w.globals) := by
  have hd : w.Done w.committed w.globals := ⟨rfl, rfl, h⟩
  unfold postTradeWith
  apply yields_tryCatch
  by_cases hv : validTrade req = true
  · simp only [if_pos hv]
    refine yields_bind (yields_connect hd) (fun w1 h1 => ?_)
    refine yields_tryFinally (yields_tryCatch ?_) (fun w2 h2 => yields_release h2)
    have := yields_tradeTransactionWith number u req h1.1 hv (withPortfolio_head _ u)
    rw [h1.2] at this
    exact this
  · simp only [if_neg hv]
    have : tradeOutcomeWith number w.committed w.nextId u req = (.invalidInput, w.committed) := by
      simp only [tradeOutcomeWith, if_neg hv]
    rw [this]
    exact yields_pure hd

/-! ## The first BUY -/

/-- C9 as stated fails in the arithmetic of the handler.  A fresh user sends a
valid BUY of `0.00001 @ 10000000000`, for which `q * p = 100000`.  The handler
computes `quantity * price` as the number `100000.00000000001`
(`6871947673600001 / 2 ^ 36`), finds the balance 100000 below it and answers
`400 Insufficient balance`; nothing is committed. -/
theorem C9_rounded_total_rejected :
    validTrade ⟨"BTCUSDT", "BUY", 1 / 100000, 10000000000⟩ = true ∧
      (1 / 100000 : ℚ) * 10000000000 ≤ 100000 ∧
      (Prog.run noFailure
        (postTradeWith binary64 "alice" ⟨"BTCUSDT", "BUY", 1 / 100000, 10000000000⟩)
        (World.idle Ledger.empty)).1 =
        .ok (.insufficientBalance (6871947673600001 / 68719476736) 100000) ∧
      (Prog.run noFailure
        (postTradeWith binary64 "alice" ⟨"BTCUSDT", "BUY", 1 / 100000, 10000000000⟩)
        (World.idle Ledger.empty)).2.committed = Ledger.empty := by
  have hv : validTrade ⟨"BTCUSDT", "BUY", 1 / 100000, 10000000000⟩ = true := by
    norm_num [validTrade]; decide
  have ha : binary64 (1 / 100000) = 5902958103587057 / 590295810358705651712 := by
    rw [binary64_eq (1 / 100000) 5902958103587057 (-69) (by norm_num) (by norm_num)
      (by norm_num) (by norm_num)]
    norm_num
  have hb : binary64 (10000000000) = 10000000000 := by
    rw [binary64_eq (10000000000) 5242880000000000 (-19) (by norm_num) (by norm_num)
      (by norm_num) (by norm_num)]
    norm_num
  have ht : binary64 ((5902958103587057 / 590295810358705651712) * 10000000000) =
      6871947673600001 / 68719476736 := by
    rw [binary64_eq ((5902958103587057 / 590295810358705651712) * 10000000000)
      6871947673600001 (-36) (by norm_num) (by norm_num) (by norm_num) (by norm_num)]
    norm_num
  have hc : binary64 (100000) = 100000 := by
    rw [binary64_eq (100000) 6871947673600000 (-36) (by norm_num) (by norm_num) (by norm_num)
      (by norm_num)]
    norm_num
  have hrow : ((Ledger.empty.withPortfolio "alice").portfolioRows "alice").head? =
      some ⟨"alice", 100000⟩ := by
    simp [Ledger.withPortfolio, Ledger.portfolioRows, Ledger.empty, Sql.effect]
  have hout : tradeOutcomeWith binary64 Ledger.empty 1 "alice"
      ⟨"BTCUSDT", "BUY", 1 / 100000, 10000000000⟩ =
      (.insufficientBalance (6871947673600001 / 68719476736) 100000, Ledger.empty) := by
    simp only [tradeOutcomeWith, hv, if_true, hrow, buyOutcomeWith, ha, hb, ht, hc]
    rw [if_pos (by norm_num)]
  obtain ⟨w1, h1, hd, -, -⟩ := postTradeWith_noFailure binary64 "alice"
    ⟨"BTCUSDT", "BUY", 1 / 100000, 10000000000⟩ (World.idle Ledger.empty) rfl
  have hout' : tradeOutcomeWith binary64 (World.idle Ledger.empty).committed
      (World.idle Ledger.empty).nextId "alice" ⟨"BTCUSDT", "BUY", 1 / 100000, 10000000000⟩ =
      (.insufficientBalance (6871947673600001 / 68719476736) 100000, Ledger.empty) := hout
  rw [hout'] at h1 hd
  refine ⟨hv, by norm_num, by rw [h1], ?_⟩
  rw [h1]
  exact hd

/-! ## The average in the arithmetic of the handler -/

/-- C30 as stated fails in the arithmetic of the handler.  Alice holds
`0.1 @ 100000.1` and buys `0.1 @ 100000.1`.  The handler computes the new
average as the number `100000.10000000002` (`6871954545547675 / 2 ^ 36`),
which is above both the old average and the price, and differs from the old
average although the price equals it. -/
theorem C30_rounded_average_above_both :
    validTrade ⟨"BTCUSDT", "BUY", 1 / 10, 1000001 / 10⟩ = true ∧
      (Prog.run noFailure
        (postTradeWith binary64 "alice" ⟨"BTCUSDT", "BUY", 1 / 10, 1000001 / 10⟩)
        (World.idle ⟨[⟨"alice", 100000⟩],
          [⟨"alice", "BTCUSDT", 1 / 10, 1000001 / 10, 1000001 / 10⟩],
          []⟩)).2.committed.positions =
        [⟨"alice", "BTCUSDT", 3602879701896397 / 18014398509481984,
          6871954545547675 / 68719476736, 1000001 / 10⟩] ∧
      max (1000001 / 10 : ℚ) (1000001 / 10) < 6871954545547675 / 68719476736 ∧
      binary64 (1000001 / 10) < 6871954545547675 / 68719476736 := by
  have hv : validTrade ⟨"BTCUSDT", "BUY", 1 / 10, 1000001 / 10⟩ = true := by
    norm_num [validTrade]; decide
  have hx1 : binary64 (1 / 10) = 3602879701896397 / 36028797018963968 := by
    rw [binary64_eq (1 / 10) 7205759403792794 (-56) (by norm_num) (by norm_num)
      (by norm_num) (by norm_num)]
    norm_num
  have hx2 : binary64 (1000001 / 10) = 3435977272773837 / 34359738368 := by
    rw [binary64_eq (1000001 / 10) 6871954545547674 (-36) (by norm_num) (by norm_num)
      (by norm_num) (by norm_num)]
    norm_num
  have ht : binary64 ((3602879701896397 / 36028797018963968) *
      (3435977272773837 / 34359738368)) = 1374390909109535 / 137438953472 := by
    rw [binary64_eq ((3602879701896397 / 36028797018963968) *
      (3435977272773837 / 34359738368)) 5497563636438140 (-39) (by norm_num) (by norm_num)
      (by norm_num) (by norm_num)]
    norm_num
  have hc : binary64 (100000) = 100000 := by
    rw [binary64_eq (100000) 6871947673600000 (-36) (by norm_num) (by norm_num) (by norm_num)
      (by norm_num)]
    norm_num
  have hnq : binary64 ((3602879701896397 / 36028797018963968) +
      (3602879701896397 / 36028797018963968)) = 3602879701896397 / 18014398509481984 := by
    rw [binary64_eq ((3602879701896397 / 36028797018963968) +
      (3602879701896397 / 36028797018963968)) 7205759403792794 (-55) (by norm_num)
      (by norm_num) (by norm_num) (by norm_num)]
    norm_num
  have hs : binary64 ((1374390909109535 / 137438953472) +
      (1374390909109535 / 137438953472)) = 1374390909109535 / 68719476736 := by
    rw [binary64_eq ((1374390909109535 / 137438953472) +
      (1374390909109535 / 137438953472)) 5497563636438140 (-38) (by norm_num) (by norm_num)
      (by norm_num) (by norm_num)]
    norm_num
  have havg : binary64 ((1374390909109535 / 68719476736) /
      (3602879701896397 / 18014398509481984)) = 6871954545547675 / 68719476736 := by
    rw [binary64_eq ((1374390909109535 / 68719476736) /
      (3602879701896397 / 18014398509481984)) 6871954545547675 (-36) (by norm_num)
      (by norm_num) (by norm_num) (by norm_num)]
    norm_num
  have hrow : (((⟨[⟨"alice", 100000⟩],
      [⟨"alice", "BTCUSDT", 1 / 10, 1000001 / 10, 1000001 / 10⟩], []⟩ : Ledger).withPortfolio
      "alice").portfolioRows "alice").head? = some ⟨"alice", 100000⟩ := by
    simp [Ledger.withPortfolio, Ledger.portfolioRows]
  have hout : (tradeOutcomeWith binary64 ⟨[⟨"alice", 100000⟩],
      [⟨"alice", "BTCUSDT", 1 / 10, 1000001 / 10, 1000001 / 10⟩], []⟩ 1 "alice"
      ⟨"BTCUSDT", "BUY", 1 / 10, 1000001 / 10⟩).2.positions =
      [⟨"alice", "BTCUSDT", 3602879701896397 / 18014398509481984,
        6871954545547675 / 68719476736, 1000001 / 10⟩] := by
    simp only [tradeOutcomeWith, hv, if_true, hrow, buyOutcomeWith, hx1, hx2, ht, hc]
    rw [if_neg (by norm_num)]
    have hpos : (((Sql.debitBalance (1374390909109535 / 137438953472) "alice").effect 1
        ((⟨[⟨"alice", 100000⟩], [⟨"alice", "BTCUSDT", 1 / 10, 1000001 / 10, 1000001 / 10⟩],
          []⟩ : Ledger).withPortfolio "alice")).positionRows "alice" "BTCUSDT").head? =
        some ⟨"alice", "BTCUSDT", 1 / 10, 1000001 / 10, 1000001 / 10⟩ := by
      simp [Ledger.withPortfolio, Ledger.portfolioRows, Ledger.positionRows, Sql.effect]
    simp only [hpos, hx1, hx2, ht, hnq, hs, havg]
    simp [recordOutcome, Sql.effect, Ledger.withPortfolio, Ledger.portfolioRows]
  obtain ⟨w1, h1, hd, -, -⟩ := postTradeWith_noFailure binary64 "alice"
    ⟨"BTCUSDT", "BUY", 1 / 10, 1000001 / 10⟩
    (World.idle ⟨[⟨"alice", 100000⟩],
      [⟨"alice", "BTCUSDT", 1 / 10, 1000001 / 10, 1000001 / 10⟩], []⟩) rfl
  refine ⟨hv, ?_, by norm_num, by rw [hx2]; norm_num⟩
  rw [h1]
  simp only
  rw [hd]
  exact hout

/-- A real exactly between `m` and `m + 1` rounds to the even one. -/
theorem roundHalfEven_tie (m : ℤ) :
    roundHalfEven ((m : ℚ) + 1 / 2) = if m % 2 = 0 then m else m + 1 := by
  have hf : ⌊(m : ℚ) + 1 / 2⌋ = m := by
    rw [Int.floor_eq_iff]
    exact ⟨by linarith, by linarith⟩
  unfold roundHalfEven
  simp only [hf]
  rw [if_neg (by norm_num), if_neg (by norm_num)]

/-- The number for `x` when `x / 2 ^ e` is exactly between `m` and `m + 1`. -/
theorem binary64_tie (x : ℚ) (m e : ℤ) (h1 : (2 : ℚ) ^ (e + 52) ≤ x)
    (h2 : x < (2 : ℚ) ^ (e + 52 + 1)) (h3 : x / 2 ^ e = m + 1 / 2) :
    binary64 x = ((if m % 2 = 0 then m else m + 1 : ℤ) : ℚ) * 2 ^ e := by
  have hx : 0 < x := lt_of_lt_of_le (zpow_pos (by norm_num) _) h1
  have hlog : Int.log 2 |x| = e + 52 := by
    rw [abs_of_pos hx]
    apply le_antisymm
    · have := (@Int.lt_zpow_iff_log_lt ℚ _ _ 2 (by norm_num) (e + 52 + 1) x hx).mp h2
      omega
    · exact (@Int.zpow_le_iff_le_log ℚ _ _ 2 (by norm_num) (e + 52) x hx).mp h1
  unfold binary64
  rw [if_neg hx.ne']
  simp only [hlog, add_sub_cancel_right]
  rw [h3, roundHalfEven_tie]

/-! ### The numbers of `BUY 0.1`, `BUY 0.2`, `SELL 0.3` at price 1 -/

theorem binary64_tenth : binary64 (1 / 10) = 3602879701896397 / 36028797018963968 := by
  rw [binary64_eq (1 / 10) 7205759403792794 (-56) (by norm_num) (by norm_num) (by norm_num) (by
    norm_num)]
  norm_num

theorem binary64_one : binary64 (1) = 1 := by
  rw [binary64_eq (1) 4503599627370496 (-52) (by norm_num) (by norm_num) (by norm_num) (by
    norm_num)]
  norm_num

theorem binary64_tenth_one : binary64 ((3602879701896397 / 36028797018963968) * 1) =
    3602879701896397 / 36028797018963968 := by
  rw [binary64_eq ((3602879701896397 / 36028797018963968) * 1) 7205759403792794 (-56) (by
    norm_num) (by norm_num) (by norm_num) (by norm_num)]
  norm_num

theorem binary64_start : binary64 (100000) = 100000 := by
  rw [binary64_eq (100000) 6871947673600000 (-36) (by norm_num) (by norm_num) (by norm_num) (by
    norm_num)]
  norm_num

theorem binary64_fifth : binary64 (1 / 5) = 3602879701896397 / 18014398509481984 := by
  rw [binary64_eq (1 / 5) 7205759403792794 (-55) (by norm_num) (by norm_num) (by norm_num) (by
    norm_num)]
  norm_num

theorem binary64_fifth_one : binary64 ((3602879701896397 / 18014398509481984) * 1) =
    3602879701896397 / 18014398509481984 := by
  rw [binary64_eq ((3602879701896397 / 18014398509481984) * 1) 7205759403792794 (-55) (by
    norm_num) (by norm_num) (by norm_num) (by norm_num)]
  norm_num

theorem binary64_balance_after : binary64 (3602876099016694903603 / 36028797018963968) =
    3435970400826163 / 34359738368 := by
  rw [binary64_eq (3602876099016694903603 / 36028797018963968) 6871940801652326 (-36) (by
    norm_num) (by norm_num) (by norm_num) (by norm_num)]
  norm_num

theorem binary64_tenth_add_fifth : binary64 ((3602879701896397 / 36028797018963968) +
    (3602879701896397 / 18014398509481984)) = 1351079888211149 / 4503599627370496 := by
  rw [binary64_tie ((3602879701896397 / 36028797018963968) + (3602879701896397 /
    18014398509481984)) 5404319552844595 (-54) (by norm_num) (by norm_num) (by norm_num)]
  norm_num

theorem binary64_average_after : binary64 ((1351079888211149 / 4503599627370496) /
    (1351079888211149 / 4503599627370496)) = 1 := by
  rw [binary64_eq ((1351079888211149 / 4503599627370496) / (1351079888211149 / 4503599627370496))
    4503599627370496 (-52) (by norm_num) (by norm_num) (by norm_num) (by norm_num)]
  norm_num

theorem binary64_held_after : binary64 (1351079888211149 / 4503599627370496) = 1351079888211149 /
    4503599627370496 := by
  rw [binary64_eq (1351079888211149 / 4503599627370496) 5404319552844596 (-54) (by norm_num) (by
    norm_num) (by norm_num) (by norm_num)]
  norm_num

theorem binary64_three_tenths : binary64 (3 / 10) = 5404319552844595 / 18014398509481984 := by
  rw [binary64_eq (3 / 10) 5404319552844595 (-54) (by norm_num) (by norm_num) (by norm_num) (by
    norm_num)]
  norm_num

theorem binary64_three_tenths_one : binary64 ((5404319552844595 / 18014398509481984) * 1) =
    5404319552844595 / 18014398509481984 := by
  rw [binary64_eq ((5404319552844595 / 18014398509481984) * 1) 5404319552844595 (-54) (by
    norm_num) (by norm_num) (by norm_num) (by norm_num)]
  norm_num

theorem binary64_left : binary64 ((1351079888211149 / 4503599627370496) - (5404319552844595 /
    18014398509481984)) = 1 / 18014398509481984 := by
  rw [binary64_eq ((1351079888211149 / 4503599627370496) - (5404319552844595 /
    18014398509481984)) 4503599627370496 (-106) (by norm_num) (by norm_num) (by norm_num) (by
    norm_num)]
  norm_num

/-! ### The three requests -/

theorem runTradesWith_cons (number : ℚ → ℚ) (u : UserId) (req : TradeRequest)
    (rest : List (UserId × TradeRequest)) (w : World) :
    runTradesWith number ((u, req) :: rest) w =
      runTradesWith number rest (Prog.run noFailure (postTradeWith number u req) w).2 := rfl

theorem rounded_step_one (n : Nat) :
    (tradeOutcomeWith binary64 Ledger.empty n "alice" ⟨"BTCUSDT", "BUY", 1 / 10, 1⟩).2 =
      ⟨[⟨"alice", 3602876099016694903603 / 36028797018963968⟩],
        [⟨"alice", "BTCUSDT", 1 / 10, 1, 1⟩],
        [⟨n, "alice", "BTCUSDT", "BUY", 1 / 10, 1,
          3602879701896397 / 36028797018963968⟩]⟩ := by
  have hv : validTrade ⟨"BTCUSDT", "BUY", 1 / 10, 1⟩ = true := by
    norm_num [validTrade]; decide
  have hrow : ((Ledger.empty.withPortfolio "alice").portfolioRows "alice").head? =
      some ⟨"alice", 100000⟩ := by
    simp [Ledger.withPortfolio, Ledger.portfolioRows, Ledger.empty, Sql.effect]
  simp only [tradeOutcomeWith, hv, if_true, hrow, buyOutcomeWith, binary64_tenth, binary64_one,
    binary64_tenth_one, binary64_start]
  rw [if_neg (by norm_num)]
  have hpos : (((Sql.debitBalance (3602879701896397 / 36028797018963968) "alice").effect n
      (Ledger.empty.withPortfolio "alice")).positionRows "alice" "BTCUSDT").head? = none := by
    simp [Ledger.withPortfolio, Ledger.portfolioRows, Ledger.positionRows, Sql.effect,
      Ledger.empty]
  simp only [hpos]
  simp [recordOutcome, Sql.effect, Ledger.withPortfolio, Ledger.portfolioRows, Ledger.empty]
  norm_num

theorem rounded_step_two (n1 n : Nat) :
    (tradeOutcomeWith binary64
      ⟨[⟨"alice", 3602876099016694903603 / 36028797018963968⟩],
        [⟨"alice", "BTCUSDT", 1 / 10, 1, 1⟩],
        [⟨n1, "alice", "BTCUSDT", "BUY", 1 / 10, 1,
          3602879701896397 / 36028797018963968⟩]⟩
      n "alice" ⟨"BTCUSDT", "BUY", 1 / 5, 1⟩).2 =
      ⟨[⟨"alice", 3602868893257291110809 / 36028797018963968⟩],
        [⟨"alice", "BTCUSDT", 1351079888211149 / 4503599627370496, 1, 1⟩],
        [⟨n1, "alice", "BTCUSDT", "BUY", 1 / 10, 1, 3602879701896397 / 36028797018963968⟩,
          ⟨n, "alice", "BTCUSDT", "BUY", 1 / 5, 1,
            3602879701896397 / 18014398509481984⟩]⟩ := by
  have hv : validTrade ⟨"BTCUSDT", "BUY", 1 / 5, 1⟩ = true := by
    norm_num [validTrade]; decide
  have hrow : (((⟨[⟨"alice", 3602876099016694903603 / 36028797018963968⟩],
      [⟨"alice", "BTCUSDT", 1 / 10, 1, 1⟩],
      [⟨n1, "alice", "BTCUSDT", "BUY", 1 / 10, 1,
        3602879701896397 / 36028797018963968⟩]⟩ : Ledger).withPortfolio
      "alice").portfolioRows "alice").head? =
      some ⟨"alice", 3602876099016694903603 / 36028797018963968⟩ := by
    simp [Ledger.withPortfolio, Ledger.portfolioRows]
  simp only [tradeOutcomeWith, hv, if_true, hrow, buyOutcomeWith, binary64_fifth, binary64_one,
    binary64_fifth_one, binary64_balance_after]
  rw [if_neg (by norm_num)]
  have hpos : (((Sql.debitBalance (3602879701896397 / 18014398509481984) "alice").effect n
      ((⟨[⟨"alice", 3602876099016694903603 / 36028797018963968⟩],
        [⟨"alice", "BTCUSDT", 1 / 10, 1, 1⟩],
        [⟨n1, "alice", "BTCUSDT", "BUY", 1 / 10, 1,
          3602879701896397 / 36028797018963968⟩]⟩ : Ledger).withPortfolio
        "alice")).positionRows "alice" "BTCUSDT").head? =
      some ⟨"alice", "BTCUSDT", 1 / 10, 1, 1⟩ := by
    simp [Ledger.withPortfolio, Ledger.portfolioRows, Ledger.positionRows, Sql.effect]
  simp only [hpos, binary64_tenth, binary64_one, binary64_tenth_one, binary64_fifth,
    binary64_tenth_add_fifth, binary64_average_after]
  simp [recordOutcome, Sql.effect, Ledger.withPortfolio, Ledger.portfolioRows]
  norm_num

theorem rounded_step_three (n1 n2 n : Nat) :
    (tradeOutcomeWith binary64
      ⟨[⟨"alice", 3602868893257291110809 / 36028797018963968⟩],
        [⟨"alice", "BTCUSDT", 1351079888211149 / 4503599627370496, 1, 1⟩],
        [⟨n1, "alice", "BTCUSDT", "BUY", 1 / 10, 1, 3602879701896397 / 36028797018963968⟩,
          ⟨n2, "alice", "BTCUSDT", "BUY", 1 / 5, 1,
            3602879701896397 / 18014398509481984⟩]⟩
      n "alice" ⟨"BTCUSDT", "SELL", 3 / 10, 1⟩).2 =
      ⟨[⟨"alice", 3602879701896396799999 / 36028797018963968⟩],
        [⟨"alice", "BTCUSDT", 1 / 18014398509481984, 1, 1⟩],
        [⟨n1, "alice", "BTCUSDT", "BUY", 1 / 10, 1, 3602879701896397 / 36028797018963968⟩,
          ⟨n2, "alice", "BTCUSDT", "BUY", 1 / 5, 1, 3602879701896397 / 18014398509481984⟩,
          ⟨n, "alice", "BTCUSDT", "SELL", 3 / 10, 1,
            5404319552844595 / 18014398509481984⟩]⟩ := by
  have hv : validTrade ⟨"BTCUSDT", "SELL", 3 / 10, 1⟩ = true := by
    norm_num [validTrade]; decide
  have hrow : (((⟨[⟨"alice", 3602868893257291110809 / 36028797018963968⟩],
      [⟨"alice", "BTCUSDT", 1351079888211149 / 4503599627370496, 1, 1⟩],
      [⟨n1, "alice", "BTCUSDT", "BUY", 1 / 10, 1, 3602879701896397 / 36028797018963968⟩,
        ⟨n2, "alice", "BTCUSDT", "BUY", 1 / 5, 1,
          3602879701896397 / 18014398509481984⟩]⟩ : Ledger).withPortfolio
      "alice").portfolioRows "alice").head? =
      some ⟨"alice", 3602868893257291110809 / 36028797018963968⟩ := by
    simp [Ledger.withPortfolio, Ledger.portfolioRows]
  have hside : ¬ ("SELL" = "BUY") := by decide
  have hpos : (((⟨[⟨"alice", 3602868893257291110809 / 36028797018963968⟩],
      [⟨"alice", "BTCUSDT", 1351079888211149 / 4503599627370496, 1, 1⟩],
      [⟨n1, "alice", "BTCUSDT", "BUY", 1 / 10, 1, 3602879701896397 / 36028797018963968⟩,
        ⟨n2, "alice", "BTCUSDT", "BUY", 1 / 5, 1,
          3602879701896397 / 18014398509481984⟩]⟩ : Ledger).withPortfolio
      "alice").positionRows "alice" "BTCUSDT").head? =
      some ⟨"alice", "BTCUSDT", 1351079888211149 / 4503599627370496, 1, 1⟩ := by
    simp [Ledger.withPortfolio, Ledger.portfolioRows, Ledger.positionRows]
  simp only [tradeOutcomeWith, hv, if_true, hrow, if_neg hside, sellOutcomeWith, hpos,
    binary64_three_tenths, binary64_one, binary64_three_tenths_one, binary64_held_after,
    binary64_left]
  rw [if_neg (by norm_num), if_neg (by norm_num)]
  simp [recordOutcome, Sql.effect, Ledger.withPortfolio, Ledger.portfolioRows]
  norm_num

/-- C11 as stated fails in the arithmetic of the handler.  From the empty
ledger alice buys 0.1, buys 0.2 and sells 0.3 of `BTCUSDT` at price 1.  The
handler adds the numbers for 0.1 and 0.2 to `0.30000000000000004` and takes the
number for 0.3 off it, which leaves `2 ^ -54`, above 0: the position row is
updated to that quantity and not deleted, while the quantities of the three
trade records net to 0. -/
theorem C11_rounded_quantity_is_not_net :
    (runTradesWith binary64
        [("alice", ⟨"BTCUSDT", "BUY", 1 / 10, 1⟩), ("alice", ⟨"BTCUSDT", "BUY", 1 / 5, 1⟩),
          ("alice", ⟨"BTCUSDT", "SELL", 3 / 10, 1⟩)]
        (World.idle Ledger.empty)).committed.positions =
        [⟨"alice", "BTCUSDT", 1 / 18014398509481984, 1, 1⟩] ∧
      (runTradesWith binary64
        [("alice", ⟨"BTCUSDT", "BUY", 1 / 10, 1⟩), ("alice", ⟨"BTCUSDT", "BUY", 1 / 5, 1⟩),
          ("alice", ⟨"BTCUSDT", "SELL", 3 / 10, 1⟩)]
        (World.idle Ledger.empty)).committed.netQuantity "alice" "BTCUSDT" = 0 := by
  obtain ⟨w1, h1, hd1, -, ht1⟩ := postTradeWith_noFailure binary64 "alice"
    ⟨"BTCUSDT", "BUY", 1 / 10, 1⟩ (World.idle Ledger.empty) rfl
  have e1 : (World.idle Ledger.empty).committed = Ledger.empty := rfl
  rw [e1, rounded_step_one] at hd1
  obtain ⟨w2, h2, hd2, -, ht2⟩ := postTradeWith_noFailure binary64 "alice"
    ⟨"BTCUSDT", "BUY", 1 / 5, 1⟩ w1 ht1
  rw [hd1, rounded_step_two] at hd2
  obtain ⟨w3, h3, hd3, -, -⟩ := postTradeWith_noFailure binary64 "alice"
    ⟨"BTCUSDT", "SELL", 3 / 10, 1⟩ w2 ht2
  rw [hd2, rounded_step_three] at hd3
  have hfin : runTradesWith binary64
      [("alice", ⟨"BTCUSDT", "BUY", 1 / 10, 1⟩), ("alice", ⟨"BTCUSDT", "BUY", 1 / 5, 1⟩),
        ("alice", ⟨"BTCUSDT", "SELL", 3 / 10, 1⟩)] (World.idle Ledger.empty) = w3 := by
    rw [runTradesWith_cons, h1]
    simp only
    rw [runTradesWith_cons, h2]
    simp only
    rw [runTradesWith_cons, h3]
    rfl
  rw [hfin, hd3]
  refine ⟨rfl, ?_⟩
  simp [Ledger.netQuantity, TradeRow.signedQuantity]
  norm_num

/-- The outcome of the first BUY of a user without a portfolio row and without
a position in the symbol, when the computed total does not exceed the number
for the starting balance. -/
theorem tradeOutcomeWith_first_buy (number : ℚ → ℚ) (L : Ledger) (n : Nat) (u : UserId)
    (req : TradeRequest) (hv : validTrade req = true) (hs : req.side = "BUY")
    (hP : L.portfolioRows u = []) (hpos : L.positionRows u req.symbol = [])
    (hb : number (number req.quantity * number req.price) ≤ number 100000) :
    tradeOutcomeWith number L n u req =
      recordOutcome
        ((Sql.insertPosition u req.symbol req.quantity req.price req.price).effect n
          ((Sql.debitBalance (number (number req.quantity * number req.price)) u).effect n
            ((Sql.insertPortfolio u 100000).effect 0 L)))
        n u req (number (number req.quantity * number req.price))
        "Trade executed successfully" := by
  have hw : L.withPortfolio u = (Sql.insertPortfolio u 100000).effect 0 L := by
    simp only [Ledger.withPortfolio, hP, List.length_nil, if_true]
  have hrow : (((Sql.insertPortfolio u 100000).effect 0 L).portfolioRows u).head? =
      some ⟨u, 100000⟩ := by
    unfold Ledger.portfolioRows at hP ⊢
    simp only [Sql.effect, List.filter_append, hP]
    simp
  have hnone : (((Sql.debitBalance (number (number req.quantity * number req.price)) u).effect n
      ((Sql.insertPortfolio u 100000).effect 0 L)).positionRows u req.symbol).head? = none := by
    unfold Ledger.positionRows at hpos ⊢
    simp only [Sql.effect, hpos, List.head?_nil]
  simp only [tradeOutcomeWith, hv, if_true, hw, hrow, hs, buyOutcomeWith,
    if_neg (not_lt.mpr hb), hnone]

/-- C9, amended.  First BUY of a fresh user (no portfolio row, no position, no
trade record), whatever the arithmetic `number`: for a valid BUY of `q @ p`
whose total as the handler computes it, `t = number (number q * number p)`,
does not exceed the number for the starting balance 100000, the request
commits, after which the user's portfolio row has balance `100000 - t`, the
user's only position row is `(symbol, q, avg_price p, current_price p)` and the
user's only trade record has total `t`.  In exact arithmetic (`number := id`)
`t` is `q * p`. -/
theorem C9_first_buy (number : ℚ → ℚ) (w : World) (u : UserId) (req : TradeRequest)
    (hw : w.txn = none) (hv : validTrade req = true) (hs : req.side = "BUY")
    (hfresh : w.committed.portfolioRows u = [] ∧ w.committed.positionsOf u = [] ∧
      w.committed.tradesOf u = [])
    (hb : number (number req.quantity * number req.price) ≤ number 100000) :
    (Prog.run noFailure (postTradeWith number u req) w).1 =
        .ok (.executed "Trade executed successfully"
          ⟨w.nextId, u, req.symbol, "BUY", req.quantity, req.price,
            number (number req.quantity * number req.price)⟩) ∧
      (Prog.run noFailure (postTradeWith number u req) w).2.committed.portfolioRows u =
        [⟨u, 100000 - number (number req.quantity * number req.price)⟩] ∧
      (Prog.run noFailure (postTradeWith number u req) w).2.committed.positionsOf u =
        [⟨u, req.symbol, req.quantity, req.price, req.price⟩] ∧
      (Prog.run noFailure (postTradeWith number u req) w).2.committed.positionRows u
          req.symbol = [⟨u, req.symbol, req.quantity, req.price, req.price⟩] ∧
      (Prog.run noFailure (postTradeWith number u req) w).2.committed.tradesOf u =
        [⟨w.nextId, u, req.symbol, "BUY", req.quantity, req.price,
          number (number req.quantity * number req.price)⟩] := by
  obtain ⟨hP, hpos, htr⟩ := hfresh
  obtain ⟨w1, h1, hd, -, -⟩ := postTradeWith_noFailure number u req w hw
  have hrows : w.committed.positionRows u req.symbol = [] := by
    unfold Ledger.positionsOf at hpos
    unfold Ledger.positionRows
    rw [List.filter_eq_nil_iff] at hpos ⊢
    intro a ha
    have := hpos a ha
    simp_all
  rw [tradeOutcomeWith_first_buy number w.committed w.nextId u req hv hs hP hrows hb] at h1 hd
  rw [h1]
  simp only
  rw [hd]
  unfold Ledger.portfolioRows at hP
  unfold Ledger.positionsOf at hpos
  unfold Ledger.positionRows at hrows
  unfold Ledger.tradesOf at htr
  refine ⟨by simp only [recordOutcome, hs], ?_, ?_, ?_, ?_⟩
  · simp only [recordOutcome, Sql.effect, Ledger.portfolioRows]
    rw [filter_map_of_keeps _ _ (by intro r; split <;> rfl), List.filter_append, hP]
    simp
  · simp only [recordOutcome, Sql.effect, Ledger.positionsOf, List.filter_append, hpos]
    simp
  · simp only [recordOutcome, Sql.effect, Ledger.positionRows, List.filter_append, hrows]
    simp
  · simp only [recordOutcome, Sql.effect, Ledger.tradesOf, List.filter_append, htr, hs]
    simp

theorem C9_first_buy_witness :
    (Prog.run noFailure (postTradeWith binary64 "alice" ⟨"BTCUSDT", "BUY", 1, 100000⟩)
        (World.idle Ledger.empty)).2.committed.portfolioRows "alice" = [⟨"alice", 0⟩] := by
  have h1 : binary64 1 = 1 := binary64_one
  have h2 : binary64 100000 = 100000 := binary64_start
  have h3 : binary64 (binary64 1 * binary64 100000) = 100000 := by
    rw [h1, h2, one_mul, h2]
  have h := (C9_first_buy binary64 (World.idle Ledger.empty) "alice"
    ⟨"BTCUSDT", "BUY", 1, 100000⟩ rfl (by norm_num [validTrade]; decide) rfl ⟨rfl, rfl, rfl⟩
    (by rw [h3, h2])).2.1
  rw [h3] at h
  norm_num at h
  exact h

/-- C11, amended.  In exact arithmetic (`number := id`) the position quantity
is the net of the executions: in every state reached from the empty ledger by
`POST /trade` requests, for every user and symbol the held quantity equals the
sum of the quantities of the user's BUY records for the symbol minus that of
the SELL records, and there is no position row exactly when this net is
zero. -/
theorem C11_quantity_is_net (reqs : List (UserId × TradeRequest)) (u : UserId) (s : Symbol) :
    (runTradesWith id reqs (World.idle Ledger.empty)).committed.held u s =
        (runTradesWith id reqs (World.idle Ledger.empty)).committed.netQuantity u s ∧
      ((runTradesWith id reqs (World.idle Ledger.empty)).committed.positionRows u s = [] ↔
        (runTradesWith id reqs (World.idle Ledger.empty)).committed.netQuantity u s = 0) := by
  rw [runTradesWith_id]
  exact quantity_is_net_exact reqs u s

/-- C30, amended.  In exact arithmetic (`number := id`) the weighted average
stays between its inputs: for a position with a positive quantity and a
committed BUY that adds `q` at price `p` to it, the new `avg_price`,
`(quantity * avg_price + q * p) / (quantity + q)`, lies between the old
`avg_price` and `p`, and equals the old one exactly when `p` does.  The
divisor is positive in exact arithmetic and as the handler computes it, the
number `binary64 (binary64 quantity + binary64 q)`: the division is never by
zero. -/
theorem C30_average_between (w : World) (u : UserId) (req : TradeRequest)
    (hw : w.txn = none) (hv : validTrade req = true) (hs : req.side = "BUY")
    (hb : req.quantity * req.price ≤ w.committed.cashBalance u)
    (current : PositionRow) (hp : w.committed.position? u req.symbol = some current)
    (hq : 0 < current.quantity) :
    (∃ row, (Prog.run noFailure (postTradeWith id u req) w).2.committed.position? u
          req.symbol = some row ∧
        row.avg_price = (current.quantity * current.avg_price + req.quantity * req.price) /
          (current.quantity + req.quantity) ∧
        0 < current.quantity + req.quantity ∧
        min current.avg_price req.price ≤ row.avg_price ∧
        row.avg_price ≤ max current.avg_price req.price ∧
        (row.avg_price = current.avg_price ↔ req.price = current.avg_price)) ∧
      0 < binary64 (binary64 current.quantity + binary64 req.quantity) := by
  refine ⟨?_, ?_⟩
  · rw [postTradeWith_id]
    exact average_between_exact w u req hw hv hs hb current hp hq
  · exact binary64_pos _ (add_pos (binary64_pos _ hq)
      (binary64_pos _ (validTrade_quantity_pos req hv)))

theorem C30_average_between_witness :
    ∃ row, (Prog.run noFailure (postTradeWith id "alice" ⟨"BTCUSDT", "BUY", 1, 120000⟩)
        (World.idle ⟨[⟨"alice", 150000⟩], [⟨"alice", "BTCUSDT", 1, 100000, 100000⟩],
          [⟨1, "alice", "BTCUSDT", "BUY", 1, 100000, 100000⟩]⟩)).2.committed.position?
        "alice" "BTCUSDT" = some row ∧ row.avg_price = 110000 := by
  obtain ⟨row, h1, h2, -⟩ := (C30_average_between
    (World.idle ⟨[⟨"alice", 150000⟩], [⟨"alice", "BTCUSDT", 1, 100000, 100000⟩],
      [⟨1, "alice", "BTCUSDT", "BUY", 1, 100000, 100000⟩]⟩) "alice"
    ⟨"BTCUSDT", "BUY", 1, 120000⟩ rfl (by norm_num [validTrade]; decide) rfl
    (by norm_num [World.idle, Ledger.cashBalance, Ledger.portfolioRows])
    ⟨"alice", "BTCUSDT", 1, 100000, 100000⟩ rfl (by norm_num)).1
  refine ⟨row, h1, ?_⟩
  rw [h2]
  norm_num

end TradingSim
